import Mathlib

/-!
# mpilife: Conway's Game of Life with row-block decomposition over MPI

A shallow embedding of `mpilife.c` and a verification of its update rule, counters, seeding,
halo exchange and main loop.

* Every worker process runs the same `main`; its local variables are the fields of
  `Worker`.  The two grids are lists of rows (`int **`), and every array access is checked:
  an out-of-bounds index makes the embedded operation return `none`.
* Cells and counters are mathematical integers.  In the states the program reaches every
  cell is 0 or 1, a neighbour sum is at most 8 and a counter at most `myrows*gridsize`, so
  no `int` or `long` operation overflows.
* The message-passing calls are embedded as operations on the list of all workers, indexed
  by rank: `MPI_Isend` posts a message carrying source, destination, tag and payload,
  `MPI_Irecv` completed by `MPI_Waitall` takes the first posted message with its source and
  tag, and `MPI_Reduce` with `MPI_SUM` delivers the sum at rank 0.  The interleaving of the
  processes is not represented.
* `drand48()` is an arbitrary stream of samples of any type with a decidable order.

The definitions come first: the program, then the vocabulary used to state properties.
-/

namespace MpiLife

/-! ## Memory: the two grids -/

/-- One row of cells, `int *`, as obtained from `malloc((gridsize+2)*sizeof(int))`. -/
abbrev Row := List Int

/-- Array of row pointers, `int **`, as obtained from `malloc((myrows+2)*sizeof(int *))`. -/
abbrev Grid := List Row

/-- Checked read of `g[i][j]`. -/
def Grid.read (g : Grid) (i j : Nat) : Option Int :=
  match g[i]? with
  | none => none
  | some row => row[j]?

/-- Checked write `g[i][j] = v`. -/
def Grid.write (g : Grid) (i j : Nat) (v : Int) : Option Grid :=
  match g[i]? with
  | none => none
  | some row => if j < row.length then some (g.set i (row.set j v)) else none

/-- Local variables of `main` in one worker process.  `rng` counts the calls made to
`drand48()` so far. -/
structure Worker where
  numprocs : Nat
  mypid : Nat
  gridsize : Nat
  myrows : Nat
  grid0 : Grid
  grid1 : Grid
  curr : Int
  prev : Int
  live_count : Int
  birth_count : Int
  death_count : Int
  global_live : Int
  global_birth : Int
  global_death : Int
  rng : Nat

/-- The pointer `grid[k]` of the two-element array `int **grid[2]`. -/
def Worker.sel (w : Worker) (k : Int) : Option Grid :=
  if k = 0 then some w.grid0 else if k = 1 then some w.grid1 else none

/-- Replace the contents reachable from `grid[k]`. -/
def Worker.store (w : Worker) (k : Int) (g : Grid) : Option Worker :=
  if k = 0 then some { w with grid0 := g }
  else if k = 1 then some { w with grid1 := g }
  else none

/-- Checked read of `grid[k][i][j]`. -/
def Worker.rd (w : Worker) (k : Int) (i j : Nat) : Option Int :=
  match w.sel k with
  | none => none
  | some g => g.read i j

/-- Checked write `grid[k][i][j] = v`. -/
def Worker.wr (w : Worker) (k : Int) (i j : Nat) (v : Int) : Option Worker :=
  match w.sel k with
  | none => none
  | some g =>
    match g.write i j v with
    | none => none
    | some g' => w.store k g'

/-- The loop `for (i = lo; i < lo + n; i++) body`, threading the state; a failing body
aborts the loop.  `for (i=1;i<=m;i++)` is `forLoop body 1 m` and `for (i=0;i<=m+1;i++)` is
`forLoop body 0 (m+2)`. -/
def forLoop {σ : Type} (body : Nat → σ → Option σ) : Nat → Nat → σ → Option σ
  | _, 0, s => some s
  | lo, n + 1, s =>
    match body lo s with
    | none => none
    | some s' => forLoop body (lo + 1) n s'

/-! ## Startup (lines 42-95) -/

/-- Outcome of a fatal `MPI_Abort`. -/
inductive Abort where
  | usage
  | notMultiple
  deriving DecidableEq, Repr

/-- Lines 42-62: argument count check, divisibility check, and `myrows=gridsize/numprocs`.
The operators `%` and `/` of C truncate toward zero. -/
def init (argc : Int) (gridsize numprocs : Int) : Except Abort Int :=
  if argc ≠ 4 then Except.error Abort.usage
  else if Int.tmod gridsize numprocs ≠ 0 then Except.error Abort.notMultiple
  else Except.ok (Int.tdiv gridsize numprocs)

/-- Lines 68-73: a freshly allocated block of `rows` rows of `cols` cells; `malloc` does not
clear memory, so the contents `garbage` are arbitrary. -/
def allocate (rows cols : Nat) (garbage : Nat → Nat → Int) : Grid :=
  (List.range rows).map (fun i => (List.range cols).map (fun j => garbage i j))

/-- Body of the loop at lines 76-80. -/
def zeroCell (i j : Nat) (w : Worker) : Option Worker :=
  match w.wr 0 i j 0 with
  | none => none
  | some w1 => w1.wr 1 i j 0

/-- Lines 76-80: clear both grids, boundary included. -/
def zeroGrids (w : Worker) : Option Worker :=
  forLoop (fun i => forLoop (fun j => zeroCell i j) 0 (w.gridsize + 2)) 0 (w.myrows + 2) w

/-- Body of the loop at lines 89-95; `samples k` is the value returned by the `k`-th call
(counted from 0) of `drand48()` in this process. -/
def seedCell {α : Type} [LT α] [DecidableRel (fun (a b : α) => a < b)]
    (samples : Nat → α) (init_pct : α) (i j : Nat) (w : Worker) : Option Worker :=
  let x := samples w.rng
  let w1 := { w with rng := w.rng + 1 }
  if x < init_pct then
    match w1.wr w1.curr i j 1 with
    | none => none
    | some w2 => some { w2 with live_count := w2.live_count + 1 }
  else w1.wr w1.curr i j 0

/-- Lines 82-95: `curr=0; prev=1; live_count=0;` and the seeding loops. -/
def seed {α : Type} [LT α] [DecidableRel (fun (a b : α) => a < b)]
    (samples : Nat → α) (init_pct : α) (w : Worker) : Option Worker :=
  let w0 := { w with curr := 0, prev := 1, live_count := 0 }
  forLoop (fun i => forLoop (fun j => seedCell samples init_pct i j) 1 w0.gridsize)
    1 w0.myrows w0

/-- Lines 67-95 for one worker: allocation, clearing and seeding.  The values `junk` stand
for the locals that C leaves uninitialised. -/
def startup {α : Type} [LT α] [DecidableRel (fun (a b : α) => a < b)]
    (numprocs mypid gridsize myrows : Nat) (garbage0 garbage1 : Nat → Nat → Int) (junk : Int)
    (samples : Nat → α) (init_pct : α) : Option Worker :=
  let w : Worker :=
    { numprocs := numprocs, mypid := mypid, gridsize := gridsize, myrows := myrows,
      grid0 := allocate (myrows + 2) (gridsize + 2) garbage0,
      grid1 := allocate (myrows + 2) (gridsize + 2) garbage1,
      curr := junk, prev := junk,
      live_count := junk, birth_count := junk, death_count := junk,
      global_live := junk, global_birth := junk, global_death := junk,
      rng := 0 }
  match zeroGrids w with
  | none => none
  | some w1 => seed samples init_pct w1

/-! ## One iteration (lines 135-209) -/

/-- Line 138: `curr=1-curr; prev=1-prev;`. -/
def swap (w : Worker) : Worker :=
  { w with curr := 1 - w.curr, prev := 1 - w.prev }

/-- Lines 175-178: the sum of the eight neighbours of `(i,j)` in `grid[prev]`.  For cells
holding 0 or 1 the sum is at most 8, far from the range of `int`. -/
def neigh_count (w : Worker) (i j : Nat) : Option Int :=
  match w.rd w.prev (i - 1) (j - 1), w.rd w.prev (i - 1) j, w.rd w.prev (i - 1) (j + 1),
        w.rd w.prev i (j - 1), w.rd w.prev i (j + 1),
        w.rd w.prev (i + 1) (j - 1), w.rd w.prev (i + 1) j, w.rd w.prev (i + 1) (j + 1) with
  | some a, some b, some c, some d, some e, some f, some g, some h =>
    some (a + b + c + d + e + f + g + h)
  | _, _, _, _, _, _, _, _ => none

/-- Lines 175-195: body of the compute loop for cell `(i,j)`. -/
def cellStep (i j : Nat) (w : Worker) : Option Worker :=
  match neigh_count w i j with
  | none => none
  | some n =>
    let updated : Option Worker :=
      if n = 2 then
        match w.rd w.prev i j with
        | none => none
        | some p => w.wr w.curr i j p
      else if n = 3 then
        match w.rd w.prev i j with
        | none => none
        | some p =>
          let w1 := if p = 0 then { w with birth_count := w.birth_count + 1 } else w
          w1.wr w1.curr i j 1
      else
        match w.rd w.prev i j with
        | none => none
        | some p =>
          let w1 := if p ≠ 0 then { w with death_count := w.death_count + 1 } else w
          w1.wr w1.curr i j 0
    match updated with
    | none => none
    | some w2 =>
      match w2.rd w2.curr i j with
      | none => none
      | some c => some { w2 with live_count := w2.live_count + c }

/-- Lines 170-196: reset the counters and visit each interior cell. -/
def compute (w : Worker) : Option Worker :=
  let w0 := { w with live_count := 0, birth_count := 0, death_count := 0 }
  forLoop (fun i => forLoop (fun j => cellStep i j) 1 w0.gridsize) 1 w0.myrows w0

/-! ## Halo exchange (lines 143-167) -/

/-- A message in flight: sender rank, destination rank, tag and payload. -/
structure Msg where
  src : Nat
  dst : Nat
  tag : Nat
  data : List Int

/-- The call `MPI_Isend(grid[prev][i],count,MPI_INT,dst,tag,MPI_COMM_WORLD,_)`: the first
`count` cells of row `i` of the previous grid are sent to `dst`. -/
def isend (w : Worker) (i count dst tag : Nat) : Option Msg :=
  match w.sel w.prev with
  | none => none
  | some g =>
    match g[i]? with
    | none => none
    | some row =>
      if count ≤ row.length then
        some { src := w.mypid, dst := dst, tag := tag, data := row.take count }
      else none

/-- Messages posted by one worker, lines 146-164, in program order. -/
def sends (w : Worker) : Option (List Msg) :=
  let up : Option (List Msg) :=
    if w.mypid < w.numprocs - 1 then
      match isend w w.myrows (w.gridsize + 2) (w.mypid + 1) 1 with
      | none => none
      | some m => some [m]
    else some []
  let down : Option (List Msg) :=
    if w.mypid > 0 then
      match isend w 1 (w.gridsize + 2) (w.mypid - 1) 2 with
      | none => none
      | some m => some [m]
    else some []
  match up, down with
  | some a, some b => some (a ++ b)
  | _, _ => none

/-- The call `MPI_Irecv(grid[prev][i],count,MPI_INT,src,tag,MPI_COMM_WORLD,_)` once
`MPI_Waitall` has completed it: the first message in `net` from `src` with this tag and
addressed to this worker is copied to the start of row `i` of the previous grid.  The result
is `none` when no such message exists (the wait never returns), when the message is longer
than `count`, or when the row is shorter than `count`. -/
def irecv (net : List Msg) (w : Worker) (i count src tag : Nat) : Option Worker :=
  match net.find? (fun m => decide (m.src = src ∧ m.dst = w.mypid ∧ m.tag = tag)) with
  | none => none
  | some m =>
    if m.data.length ≤ count then
      match w.sel w.prev with
      | none => none
      | some g =>
        match g[i]? with
        | none => none
        | some row =>
          if count ≤ row.length then
            w.store w.prev (g.set i (m.data ++ row.drop m.data.length))
          else none
    else none

/-- Receives posted by one worker, lines 146-164, completed at line 167. -/
def recvs (net : List Msg) (w : Worker) : Option Worker :=
  let up : Option Worker :=
    if w.mypid < w.numprocs - 1 then
      irecv net w (w.myrows + 1) (w.gridsize + 2) (w.mypid + 1) 2
    else some w
  match up with
  | none => none
  | some w1 =>
    if w1.mypid > 0 then irecv net w1 0 (w1.gridsize + 2) (w1.mypid - 1) 1
    else some w1

/-- Apply a fallible function to every element, failing if any application fails. -/
def mapOpt {α β : Type} (f : α → Option β) : List α → Option (List β)
  | [] => some []
  | a :: as =>
    match f a with
    | none => none
    | some b =>
      match mapOpt f as with
      | none => none
      | some bs => some (b :: bs)

/-- Lines 145-167 over all workers (listed by rank): every worker posts its sends, reading
rows `1` and `myrows` of its previous grid, and every posted receive is completed. -/
def exchange (ws : List Worker) : Option (List Worker) :=
  match mapOpt sends ws with
  | none => none
  | some posted => mapOpt (recvs posted.flatten) ws

/-! ## Reductions and the main loop -/

/-- Value delivered at the root by `MPI_Reduce(_,_,1,MPI_LONG,MPI_SUM,0,MPI_COMM_WORLD)`. -/
def reduceSum (ws : List Worker) (f : Worker → Int) : Int :=
  (ws.map f).sum

/-- Lines 99-100: the initial reduction of `live_count` into `global_live` at rank 0. -/
def reduceInitial (ws : List Worker) : List Worker :=
  ws.map (fun w =>
    if w.mypid = 0 then { w with global_live := reduceSum ws Worker.live_count } else w)

/-- Lines 201-206: the three reductions at the end of an iteration. -/
def reduceStats (ws : List Worker) : List Worker :=
  ws.map (fun w =>
    if w.mypid = 0 then
      { w with global_live := reduceSum ws Worker.live_count,
               global_death := reduceSum ws Worker.death_count,
               global_birth := reduceSum ws Worker.birth_count }
    else w)

/-- Body of the loop at lines 135-244 over all workers: swap, halo exchange, compute,
reduce (the barrier has no effect on the data). -/
def iteration (ws : List Worker) : Option (List Worker) :=
  match exchange (ws.map swap) with
  | none => none
  | some ws1 =>
    match mapOpt compute ws1 with
    | none => none
    | some ws2 => some (reduceStats ws2)

/-- Lines 135-244: `for (iter=1; iter<=num_iters; iter++)`. -/
def run (num_iters : Nat) (ws : List Worker) : Option (List Worker) :=
  forLoop (fun _ => iteration) 1 num_iters ws

/-! ## Vocabulary for stating properties -/

/-- The grid has `R` rows of `C` cells each. -/
def Shaped (g : Grid) (R C : Nat) : Prop :=
  g.length = R ∧ ∀ row ∈ g, row.length = C

instance (g : Grid) (R C : Nat) : Decidable (Shaped g R C) :=
  inferInstanceAs (Decidable (g.length = R ∧ ∀ row ∈ g, row.length = C))

/-- Every cell of the grid holds 0 (dead) or 1 (alive). -/
def Binary (g : Grid) : Prop :=
  ∀ row ∈ g, ∀ v ∈ row, v = 0 ∨ v = 1

instance (g : Grid) : Decidable (Binary g) :=
  inferInstanceAs (Decidable (∀ row ∈ g, ∀ v ∈ row, v = 0 ∨ v = 1))

/-- Cell `(i,j)` of a grid, with value 0 outside the allocated block. -/
def Grid.get (g : Grid) (i j : Nat) : Int :=
  ((g[i]?.getD [])[j]?).getD 0

/-- The grid with cell `(i,j)` replaced by `v`. -/
def Grid.put (g : Grid) (i j : Nat) (v : Int) : Grid :=
  g.set i ((g[i]?.getD []).set j v)

/-- The grid designated by `curr` (grid 0 when `curr = 0`, grid 1 otherwise). -/
def Worker.cur (w : Worker) : Grid :=
  if w.curr = 0 then w.grid0 else w.grid1

/-- The grid designated by `prev` (grid 0 when `prev = 0`, grid 1 otherwise). -/
def Worker.prv (w : Worker) : Grid :=
  if w.prev = 0 then w.grid0 else w.grid1

/-- The worker with the grid designated by `curr` replaced. -/
def Worker.setCur (w : Worker) (g : Grid) : Worker :=
  if w.curr = 0 then { w with grid0 := g } else { w with grid1 := g }

/-- The worker with the grid designated by `prev` replaced. -/
def Worker.setPrv (w : Worker) (g : Grid) : Worker :=
  if w.prev = 0 then { w with grid0 := g } else { w with grid1 := g }

/-- Well-formed worker state: both grids have `myrows+2` rows of `gridsize+2` cells, and
`curr`, `prev` designate the two different grids. -/
def Worker.WF (w : Worker) : Prop :=
  Shaped w.grid0 (w.myrows + 2) (w.gridsize + 2) ∧
  Shaped w.grid1 (w.myrows + 2) (w.gridsize + 2) ∧
  ((w.curr = 0 ∧ w.prev = 1) ∨ (w.curr = 1 ∧ w.prev = 0))

instance (w : Worker) : Decidable w.WF :=
  inferInstanceAs (Decidable (_ ∧ _ ∧ _))

/-- The eight neighbour positions of `(i,j)`, for `i ≥ 1` and `j ≥ 1`. -/
def neighbours (i j : Nat) : List (Nat × Nat) :=
  [(i - 1, j - 1), (i - 1, j), (i - 1, j + 1), (i, j - 1), (i, j + 1),
   (i + 1, j - 1), (i + 1, j), (i + 1, j + 1)]

/-- Number of live cells among the eight neighbours of `(i,j)` in the previous grid. -/
def liveNeighbours (w : Worker) (i j : Nat) : Nat :=
  (neighbours i j).countP (fun c => decide (w.rd w.prev c.1 c.2 = some 1))

/-- The interior positions `(i,j)`, `1 ≤ i ≤ m`, `1 ≤ j ≤ n`. -/
def interior (m n : Nat) : Finset (Nat × Nat) :=
  Finset.Icc 1 m ×ˢ Finset.Icc 1 n

/-- Number of interior positions satisfying `P`. -/
def countCells (m n : Nat) (P : Nat → Nat → Prop) [∀ i j, Decidable (P i j)] : Nat :=
  ((interior m n).filter (fun c => P c.1 c.2)).card

/-- Sum of `f 1, ..., f n`. -/
def sumTo (f : Nat → Int) : Nat → Int
  | 0 => 0
  | n + 1 => sumTo f n + f (n + 1)

/-- Sum of `f i j` over the interior positions, row by row. -/
def sumCells (m n : Nat) (f : Nat → Nat → Int) : Int :=
  sumTo (fun i => sumTo (fun j => f i j) n) m

/-- Sum of the eight neighbours of `(i,j)` in a grid. -/
def Grid.nsum (g : Grid) (i j : Nat) : Int :=
  g.get (i - 1) (j - 1) + g.get (i - 1) j + g.get (i - 1) (j + 1) +
  g.get i (j - 1) + g.get i (j + 1) +
  g.get (i + 1) (j - 1) + g.get (i + 1) j + g.get (i + 1) (j + 1)

/-- Value stored for `(i,j)` by the `switch` at lines 179-194, given the previous grid. -/
def Grid.next (g : Grid) (i j : Nat) : Int :=
  if g.nsum i j = 2 then g.get i j else if g.nsum i j = 3 then 1 else 0

/-- Increment of `birth_count` at `(i,j)`, line 186. -/
def Grid.born (g : Grid) (i j : Nat) : Int :=
  if g.nsum i j = 3 ∧ g.get i j = 0 then 1 else 0

/-- Increment of `death_count` at `(i,j)`, line 191. -/
def Grid.died (g : Grid) (i j : Nat) : Int :=
  if g.nsum i j ≠ 2 ∧ g.nsum i j ≠ 3 ∧ g.get i j ≠ 0 then 1 else 0

/-- The worker with the current grid and the three counters replaced. -/
def Worker.upd (w : Worker) (g : Grid) (l b d : Int) : Worker :=
  { w.setCur g with live_count := l, birth_count := b, death_count := d }

/-- The worker while the seeding loops run: `curr = 0`, `prev = 1`, grid 0 holding `g`,
`live_count = l` and `r` calls of `drand48()` made. -/
def Worker.seeded (w : Worker) (g : Grid) (l : Int) (r : Nat) : Worker :=
  { w with grid0 := g, curr := 0, prev := 1, live_count := l, rng := r }

/-- Value given by the seeding loops to interior cell `(i,j)` of a grid with `n` columns
when the first sample used is number `r0`: sample number `r0 + (i-1)*n + (j-1)` (counted
from 0) is compared with `init_pct`. -/
def seedVal {α : Type} [LT α] [DecidableRel (fun (a b : α) => a < b)]
    (samples : Nat → α) (init_pct : α) (n r0 i j : Nat) : Int :=
  if samples (r0 + (i - 1) * n + (j - 1)) < init_pct then 1 else 0

/-- The workers of a run with `P` processes on a grid of side `n`, `m` rows per worker,
listed by rank, each in a well-formed state. -/
def WorldWF (P n m : Nat) (ws : List Worker) : Prop :=
  ws.length = P ∧
  ∀ p ∈ ws.enum, p.2.numprocs = P ∧ p.2.mypid = p.1 ∧ p.2.gridsize = n ∧ p.2.myrows = m ∧
    p.2.WF

instance (P n m : Nat) (ws : List Worker) : Decidable (WorldWF P n m ws) :=
  inferInstanceAs (Decidable (_ ∧ _))

/-- Messages posted by a worker whose rows hold exactly `gridsize+2` cells. -/
def Worker.outbox (w : Worker) : List Msg :=
  (if w.mypid < w.numprocs - 1 then
    [{ src := w.mypid, dst := w.mypid + 1, tag := 1, data := w.prv[w.myrows]?.getD [] }]
   else []) ++
  (if w.mypid > 0 then
    [{ src := w.mypid, dst := w.mypid - 1, tag := 2, data := w.prv[1]?.getD [] }]
   else [])

/-- Row `i` of the previous grid of the worker of rank `r`. -/
def prevRow (ws : List Worker) (r i : Nat) : Row :=
  match ws[r]? with
  | none => []
  | some v => v.prv[i]?.getD []

/-- The previous grid of `w` once its receives have completed. -/
def haloPrv (ws : List Worker) (w : Worker) : Grid :=
  let g1 :=
    if w.mypid < w.numprocs - 1 then w.prv.set (w.myrows + 1) (prevRow ws (w.mypid + 1) 1)
    else w.prv
  if w.mypid > 0 then g1.set 0 (prevRow ws (w.mypid - 1) w.myrows) else g1

/-! ## Reference semantics on the whole grid -/

/-- Sum of the eight neighbours of `(i,j)` in a cell assignment. -/
def nsumF (G : Nat → Nat → Int) (i j : Nat) : Int :=
  G (i - 1) (j - 1) + G (i - 1) j + G (i - 1) (j + 1) +
  G i (j - 1) + G i (j + 1) +
  G (i + 1) (j - 1) + G (i + 1) j + G (i + 1) (j + 1)

/-- The update rule applied to a cell assignment. -/
def nextF (G : Nat → Nat → Int) (i j : Nat) : Int :=
  if nsumF G i j = 2 then G i j else if nsumF G i j = 3 then 1 else 0

/-- Indicator of a birth at `(i,j)`. -/
def bornF (G : Nat → Nat → Int) (i j : Nat) : Int :=
  if nsumF G i j = 3 ∧ G i j = 0 then 1 else 0

/-- Indicator of a death at `(i,j)`. -/
def diedF (G : Nat → Nat → Int) (i j : Nat) : Int :=
  if nsumF G i j ≠ 2 ∧ nsumF G i j ≠ 3 ∧ G i j ≠ 0 then 1 else 0

/-- The assignment restricted to the `n × n` grid, dead everywhere else. -/
def mask (n : Nat) (G : Nat → Nat → Int) : Nat → Nat → Int :=
  fun i j => if 1 ≤ i ∧ i ≤ n ∧ 1 ≤ j ∧ j ≤ n then G i j else 0

/-- One generation of the whole `n × n` grid surrounded by dead cells. -/
def life (n : Nat) (G : Nat → Nat → Int) : Nat → Nat → Int :=
  mask n (nextF G)

/-- The cell values 1 (alive) and 0 (dead) of a pattern on the `n × n` grid. -/
def cellOf (n : Nat) (G : Nat → Nat → Bool) : Nat → Nat → Int :=
  mask n (fun i j => if G i j then 1 else 0)

/-- The assignment is dead outside the `n × n` grid. -/
def Masked (n : Nat) (G : Nat → Nat → Int) : Prop :=
  ∀ i j, ¬ (1 ≤ i ∧ i ≤ n ∧ 1 ≤ j ∧ j ≤ n) → G i j = 0

/-- The worker of rank `r` holds rows `r*m+1 .. r*m+m` of `G` in the interior of its current
grid, its column borders are dead in both grids, so are the ghost rows that have no
neighbour, and `live_count` is the number of live cells it holds. -/
def Worker.Holds (w : Worker) (P n m r : Nat) (G : Nat → Nat → Int) : Prop :=
  (∀ x y, 1 ≤ x → x ≤ m → 1 ≤ y → y ≤ n → w.cur.get x y = G (r * m + x) y) ∧
  (∀ x, w.cur.get x 0 = 0 ∧ w.cur.get x (n + 1) = 0 ∧
    w.prv.get x 0 = 0 ∧ w.prv.get x (n + 1) = 0) ∧
  (r = 0 → ∀ y, w.cur.get 0 y = 0 ∧ w.prv.get 0 y = 0) ∧
  (r + 1 = P → ∀ y, w.cur.get (m + 1) y = 0 ∧ w.prv.get (m + 1) y = 0) ∧
  w.live_count = sumCells m n (fun x y => G (r * m + x) y)

/-- Every worker of a well-formed world holds its block of `G`. -/
def WorldInv (P n m : Nat) (G : Nat → Nat → Int) (ws : List Worker) : Prop :=
  WorldWF P n m ws ∧ ∀ (r : Nat) (w : Worker), ws[r]? = some w → w.Holds P n m r G

/-- State of a worker as left by lines 67-95 when the seeding loops gave interior cell
`(i,j)` the value of `cells i j`: roles `curr = 0`, `prev = 1`, grid 1 dead, grid 0 dead on
its border, and `live_count` the number of live interior cells. -/
def Worker.SeededWith (w : Worker) (cells : Nat → Nat → Bool) : Prop :=
  w.curr = 0 ∧ w.prev = 1 ∧
  (∀ i, i ≤ w.myrows + 1 → ∀ j, j ≤ w.gridsize + 1 →
    w.rd 1 i j = some 0 ∧
    w.rd 0 i j =
      some (if 1 ≤ i ∧ i ≤ w.myrows ∧ 1 ≤ j ∧ j ≤ w.gridsize ∧ cells i j = true then 1
        else 0)) ∧
  w.live_count =
    sumCells w.myrows w.gridsize (fun i j => if cells i j = true then 1 else 0)

instance (w : Worker) (cells : Nat → Nat → Bool) : Decidable (w.SeededWith cells) :=
  inferInstanceAs (Decidable (_ ∧ _ ∧ _ ∧ _))

/-- The world right after startup of `P` workers with `m` rows each, on a grid of side `n`
whose initial pattern is `G`: the worker of rank `r` was seeded with rows
`r*m+1 .. r*m+m` of `G`. -/
def InitialWorld (P n m : Nat) (G : Nat → Nat → Bool) (ws : List Worker) : Prop :=
  WorldWF P n m ws ∧ ∀ p ∈ ws.enum, p.2.SeededWith (fun i j => G (p.1 * m + i) j)

instance (P n m : Nat) (G : Nat → Nat → Bool) (ws : List Worker) :
    Decidable (InitialWorld P n m G ws) :=
  inferInstanceAs (Decidable (_ ∧ _))

/-- Cell `(i,j)` of the global grid reassembled from the current grids of the workers in
rank order: global row `i` is row `(i-1) % m + 1` of the worker of rank `(i-1) / m`. -/
def reassembled (ws : List Worker) (m i j : Nat) : Option Int :=
  match ws[(i - 1) / m]? with
  | none => none
  | some w => w.rd w.curr ((i - 1) % m + 1) j

/-- Number of cells of the list that are alive in the previous grid. -/
def liveAmong (w : Worker) (cells : List (Nat × Nat)) : Nat :=
  cells.countP (fun c => decide (w.rd w.prev c.1 c.2 = some 1))

/-- The 2 x 2 block with top-left corner `(a,c)`. -/
def blockAt (a c : Nat) : Nat → Nat → Bool :=
  fun i j => decide ((i = a ∨ i = a + 1) ∧ (j = c ∨ j = c + 1))

/-- Every cell of the two grids of the worker, read through the total accessors, is 0 or
1. -/
def Worker.Bin (w : Worker) : Prop :=
  ∀ x y, (w.cur.get x y = 0 ∨ w.cur.get x y = 1) ∧ (w.prv.get x y = 0 ∨ w.prv.get x y = 1)

/-- The cells of both grids of the worker of rank `r` that lie on the border of the whole
grid read as 0: columns 0 and `n+1` of every local row, the upper ghost row of the first
worker and the lower ghost row of the last worker. -/
def Worker.BorderDead (w : Worker) (P n m r : Nat) : Prop :=
  ∀ b : Int, b = 0 ∨ b = 1 →
    (∀ i, i ≤ m + 1 → w.rd b i 0 = some 0 ∧ w.rd b i (n + 1) = some 0) ∧
    (r = 0 → ∀ j, j ≤ n + 1 → w.rd b 0 j = some 0) ∧
    (r + 1 = P → ∀ j, j ≤ n + 1 → w.rd b (m + 1) j = some 0)

/-! ## Concrete states used as instances -/

/-- A single worker owning a 2 x 2 grid, as it stands at the start of a compute step. -/
def exampleWorker : Worker :=
  { numprocs := 1, mypid := 0, gridsize := 2, myrows := 2,
    grid0 := [[0, 0, 0, 0], [0, 1, 0, 0], [0, 0, 0, 0], [0, 0, 0, 0]],
    grid1 := [[0, 0, 0, 0], [0, 1, 1, 0], [0, 1, 0, 0], [0, 0, 0, 0]],
    curr := 0, prev := 1, live_count := 1, birth_count := 0, death_count := 0,
    global_live := 1, global_birth := 0, global_death := 0, rng := 4 }

/-- Two workers with one row each of a grid of side 2, as they stand before an exchange. -/
def exampleWorld : List Worker :=
  [ { numprocs := 2, mypid := 0, gridsize := 2, myrows := 1,
      grid0 := [[0, 0, 0, 0], [0, 0, 0, 0], [0, 0, 0, 0]],
      grid1 := [[0, 0, 0, 0], [0, 1, 1, 0], [0, 0, 0, 0]],
      curr := 0, prev := 1, live_count := 2, birth_count := 0, death_count := 0,
      global_live := 3, global_birth := 0, global_death := 0, rng := 2 },
    { numprocs := 2, mypid := 1, gridsize := 2, myrows := 1,
      grid0 := [[0, 0, 0, 0], [0, 0, 0, 0], [0, 0, 0, 0]],
      grid1 := [[0, 0, 0, 0], [0, 1, 0, 0], [0, 0, 0, 0]],
      curr := 0, prev := 1, live_count := 1, birth_count := 0, death_count := 0,
      global_live := 0, global_birth := 0, global_death := 0, rng := 2 } ]

/-- An initial pattern on the 2 x 2 grid: three live cells. -/
def corner : Nat → Nat → Bool :=
  fun i j => decide ((i = 1 ∧ j = 1) ∨ (i = 1 ∧ j = 2) ∨ (i = 2 ∧ j = 1))

/-- Two workers with one row each, right after startup with the pattern `corner`. -/
def cornerWorld2 : List Worker :=
  [ { numprocs := 2, mypid := 0, gridsize := 2, myrows := 1,
      grid0 := [[0, 0, 0, 0], [0, 1, 1, 0], [0, 0, 0, 0]],
      grid1 := [[0, 0, 0, 0], [0, 0, 0, 0], [0, 0, 0, 0]],
      curr := 0, prev := 1, live_count := 2, birth_count := 5, death_count := 5,
      global_live := 5, global_birth := 5, global_death := 5, rng := 2 },
    { numprocs := 2, mypid := 1, gridsize := 2, myrows := 1,
      grid0 := [[0, 0, 0, 0], [0, 1, 0, 0], [0, 0, 0, 0]],
      grid1 := [[0, 0, 0, 0], [0, 0, 0, 0], [0, 0, 0, 0]],
      curr := 0, prev := 1, live_count := 1, birth_count := 5, death_count := 5,
      global_live := 5, global_birth := 5, global_death := 5, rng := 2 } ]

/-- One worker holding the whole 2 x 2 grid, right after startup with the pattern
`corner`. -/
def cornerWorker1 : Worker :=
  { numprocs := 1, mypid := 0, gridsize := 2, myrows := 2,
    grid0 := [[0, 0, 0, 0], [0, 1, 1, 0], [0, 1, 0, 0], [0, 0, 0, 0]],
    grid1 := [[0, 0, 0, 0], [0, 0, 0, 0], [0, 0, 0, 0], [0, 0, 0, 0]],
    curr := 0, prev := 1, live_count := 3, birth_count := 5, death_count := 5,
    global_live := 5, global_birth := 5, global_death := 5, rng := 4 }

/-- An initial pattern on the 3 x 3 grid: the left column and the cell `(2,3)`. -/
def leftColumn : Nat → Nat → Bool :=
  fun i j => decide (j = 1 ∨ (i = 2 ∧ j = 3))

/-- Three workers with one row each, right after startup with the pattern
`leftColumn`. -/
def columnWorld3 : List Worker :=
  [ { numprocs := 3, mypid := 0, gridsize := 3, myrows := 1,
      grid0 := [[0, 0, 0, 0, 0], [0, 1, 0, 0, 0], [0, 0, 0, 0, 0]],
      grid1 := [[0, 0, 0, 0, 0], [0, 0, 0, 0, 0], [0, 0, 0, 0, 0]],
      curr := 0, prev := 1, live_count := 1, birth_count := 9, death_count := 9,
      global_live := 9, global_birth := 9, global_death := 9, rng := 3 },
    { numprocs := 3, mypid := 1, gridsize := 3, myrows := 1,
      grid0 := [[0, 0, 0, 0, 0], [0, 1, 0, 1, 0], [0, 0, 0, 0, 0]],
      grid1 := [[0, 0, 0, 0, 0], [0, 0, 0, 0, 0], [0, 0, 0, 0, 0]],
      curr := 0, prev := 1, live_count := 2, birth_count := 9, death_count := 9,
      global_live := 9, global_birth := 9, global_death := 9, rng := 3 },
    { numprocs := 3, mypid := 2, gridsize := 3, myrows := 1,
      grid0 := [[0, 0, 0, 0, 0], [0, 1, 0, 0, 0], [0, 0, 0, 0, 0]],
      grid1 := [[0, 0, 0, 0, 0], [0, 0, 0, 0, 0], [0, 0, 0, 0, 0]],
      curr := 0, prev := 1, live_count := 1, birth_count := 9, death_count := 9,
      global_live := 9, global_birth := 9, global_death := 9, rng := 3 } ]

/-- Two workers with two rows each on the 4 x 4 grid, right after startup with the block
`blockAt 2 2`, which straddles the boundary between them. -/
def blockWorld2 : List Worker :=
  [ { numprocs := 2, mypid := 0, gridsize := 4, myrows := 2,
      grid0 := [[0, 0, 0, 0, 0, 0], [0, 0, 0, 0, 0, 0], [0, 0, 1, 1, 0, 0], [0, 0, 0, 0, 0, 0]],
      grid1 := [[0, 0, 0, 0, 0, 0], [0, 0, 0, 0, 0, 0], [0, 0, 0, 0, 0, 0], [0, 0, 0, 0, 0, 0]],
      curr := 0, prev := 1, live_count := 2, birth_count := 7, death_count := 7,
      global_live := 7, global_birth := 7, global_death := 7, rng := 8 },
    { numprocs := 2, mypid := 1, gridsize := 4, myrows := 2,
      grid0 := [[0, 0, 0, 0, 0, 0], [0, 0, 1, 1, 0, 0], [0, 0, 0, 0, 0, 0], [0, 0, 0, 0, 0, 0]],
      grid1 := [[0, 0, 0, 0, 0, 0], [0, 0, 0, 0, 0, 0], [0, 0, 0, 0, 0, 0], [0, 0, 0, 0, 0, 0]],
      curr := 0, prev := 1, live_count := 2, birth_count := 7, death_count := 7,
      global_live := 7, global_birth := 7, global_death := 7, rng := 8 } ]

/-- Value of a cell whose row and column membership in a pattern are `b` and `c`. -/
def boolCell (b c : Bool) : Int :=
  if b = true ∧ c = true then 1 else 0

/-- The ways three consecutive indices can meet two consecutive ones. -/
def bandPatterns : List (Bool × Bool × Bool) :=
  [(false, false, true), (false, true, true), (true, true, false), (true, false, false),
   (false, false, false)]

/-- The pattern whose live cells are those of the list. -/
def patternOf (cells : List (Nat × Nat)) : Nat → Nat → Bool :=
  fun i j => decide ((i, j) ∈ cells)

/-- The glider of the end-to-end scenario, and its next four generations on the 4 x 4
grid. -/
def gliderGen : Nat → List (Nat × Nat)
  | 0 => [(1, 2), (2, 3), (3, 1), (3, 2), (3, 3)]
  | 1 => [(2, 1), (2, 3), (3, 2), (3, 3), (4, 2)]
  | 2 => [(2, 3), (3, 1), (3, 3), (4, 2), (4, 3)]
  | 3 => [(2, 2), (3, 3), (3, 4), (4, 2), (4, 3)]
  | _ => [(2, 3), (3, 4), (4, 2), (4, 3), (4, 4)]

/-- One worker holding the 4 x 4 grid, right after startup with the glider. -/
def gliderWorker : Worker :=
  { numprocs := 1, mypid := 0, gridsize := 4, myrows := 4,
    grid0 := [[0, 0, 0, 0, 0, 0], [0, 0, 1, 0, 0, 0], [0, 0, 0, 1, 0, 0], [0, 1, 1, 1, 0, 0],
              [0, 0, 0, 0, 0, 0], [0, 0, 0, 0, 0, 0]],
    grid1 := [[0, 0, 0, 0, 0, 0], [0, 0, 0, 0, 0, 0], [0, 0, 0, 0, 0, 0], [0, 0, 0, 0, 0, 0],
              [0, 0, 0, 0, 0, 0], [0, 0, 0, 0, 0, 0]],
    curr := 0, prev := 1, live_count := 5, birth_count := 3, death_count := 3,
    global_live := 3, global_birth := 3, global_death := 3, rng := 16 }

/-- The worker `exampleWorker` with other stale contents in its current grid, other counters
and the two grids in the opposite roles. -/
def exampleWorkerStale : Worker :=
  { numprocs := 1, mypid := 0, gridsize := 2, myrows := 2,
    grid0 := [[0, 0, 0, 0], [0, 1, 1, 0], [0, 1, 0, 0], [0, 0, 0, 0]],
    grid1 := [[0, 0, 0, 0], [0, 0, 1, 0], [0, 1, 1, 0], [0, 0, 0, 0]],
    curr := 1, prev := 0, live_count := 3, birth_count := 2, death_count := 1,
    global_live := 3, global_birth := 2, global_death := 1, rng := 4 }

/-- The world `cornerWorld2` with other values in the variables that startup leaves
uninitialised. -/
def cornerWorld2Junk : List Worker :=
  [ { numprocs := 2, mypid := 0, gridsize := 2, myrows := 1,
      grid0 := [[0, 0, 0, 0], [0, 1, 1, 0], [0, 0, 0, 0]],
      grid1 := [[0, 0, 0, 0], [0, 0, 0, 0], [0, 0, 0, 0]],
      curr := 0, prev := 1, live_count := 2, birth_count := -1, death_count := 8,
      global_live := 0, global_birth := 1, global_death := 2, rng := 2 },
    { numprocs := 2, mypid := 1, gridsize := 2, myrows := 1,
      grid0 := [[0, 0, 0, 0], [0, 1, 0, 0], [0, 0, 0, 0]],
      grid1 := [[0, 0, 0, 0], [0, 0, 0, 0], [0, 0, 0, 0]],
      curr := 0, prev := 1, live_count := 1, birth_count := 6, death_count := -3,
      global_live := 4, global_birth := 4, global_death := 4, rng := 2 } ]

/-- The horizontal blinker centred at `(a,c)`. -/
def blinkerH (a c : Nat) : Nat → Nat → Bool :=
  fun i j => decide (i = a ∧ (j + 1 = c ∨ j = c ∨ j = c + 1))

/-- The vertical blinker centred at `(a,c)`. -/
def blinkerV (a c : Nat) : Nat → Nat → Bool :=
  fun i j => decide ((i + 1 = a ∨ i = a ∨ i = a + 1) ∧ j = c)

/-- Sum of the eight neighbours of a cell of a pattern that is the product of a set of rows
and a set of columns, from the membership of the three rows and the three columns. -/
def patternSum (p1 p2 p3 q1 q2 q3 : Bool) : Int :=
  boolCell p1 q1 + boolCell p1 q2 + boolCell p1 q3 + boolCell p2 q1 + boolCell p2 q3 +
    boolCell p3 q1 + boolCell p3 q2 + boolCell p3 q3

/-- The ways three consecutive indices `x-1, x, x+1` can meet a single index `a`, each with
whether `x` is within one of `a` and whether `x` is next to `a`. -/
def oneRows : List (Bool × Bool × Bool × Bool × Bool) :=
  [(false, false, true, true, true), (false, true, false, true, false),
   (true, false, false, true, true), (false, false, false, false, false)]

/-- The ways three consecutive indices `x-1, x, x+1` can meet the three indices
`a-1, a, a+1`, each with whether `x = a` and whether `x` is next to `a`. -/
def threeRows : List (Bool × Bool × Bool × Bool × Bool) :=
  [(false, false, true, false, false), (false, true, true, false, true),
   (true, true, true, true, false), (true, true, false, false, true),
   (true, false, false, false, false), (false, false, false, false, false)]

/-- One worker holding the 5 x 5 grid, right after startup with the horizontal blinker
centred at `(3,3)`. -/
def blinkerWorld5 : List Worker :=
  [ { numprocs := 1, mypid := 0, gridsize := 5, myrows := 5,
      grid0 := [[0, 0, 0, 0, 0, 0, 0], [0, 0, 0, 0, 0, 0, 0], [0, 0, 0, 0, 0, 0, 0],
        [0, 0, 1, 1, 1, 0, 0], [0, 0, 0, 0, 0, 0, 0], [0, 0, 0, 0, 0, 0, 0],
        [0, 0, 0, 0, 0, 0, 0]],
      grid1 := [[0, 0, 0, 0, 0, 0, 0], [0, 0, 0, 0, 0, 0, 0], [0, 0, 0, 0, 0, 0, 0],
        [0, 0, 0, 0, 0, 0, 0], [0, 0, 0, 0, 0, 0, 0], [0, 0, 0, 0, 0, 0, 0],
        [0, 0, 0, 0, 0, 0, 0]],
      curr := 0, prev := 1, live_count := 3, birth_count := 7, death_count := 7,
      global_live := 7, global_birth := 7, global_death := 7, rng := 25 } ]

/-! ## Grids -/

theorem Shaped.row {g : Grid} {R C i : Nat} (h : Shaped g R C) (hi : i < R) :
    ∃ row, g[i]? = some row ∧ row.length = C := by
  have hlen : i < g.length := by rw [h.1]; exact hi
  refine ⟨g[i], List.getElem?_eq_getElem hlen, h.2 _ (List.getElem_mem hlen)⟩

theorem Shaped.read_get {g : Grid} {R C i j : Nat} (h : Shaped g R C) (hi : i < R)
    (hj : j < C) : g.read i j = some (g.get i j) := by
  obtain ⟨row, hrow, hlen⟩ := h.row hi
  have hj' : j < row.length := by omega
  simp [Grid.read, Grid.get, hrow, List.getElem?_eq_getElem hj']

theorem Shaped.write_put {g : Grid} {R C i j : Nat} (h : Shaped g R C) (hi : i < R)
    (hj : j < C) (v : Int) : g.write i j v = some (g.put i j v) := by
  obtain ⟨row, hrow, hlen⟩ := h.row hi
  have hj' : j < row.length := by omega
  simp [Grid.write, Grid.put, hrow, hj']

theorem Shaped.put {g : Grid} {R C : Nat} (h : Shaped g R C) (i j : Nat) (v : Int) :
    Shaped (g.put i j v) R C := by
  refine ⟨by simp [Grid.put, h.1], ?_⟩
  intro row hrow
  unfold Grid.put at hrow
  rcases List.mem_or_eq_of_mem_set hrow with hmem | heq
  · exact h.2 row hmem
  · subst heq
    rw [List.length_set]
    by_cases hi : i < g.length
    · simp only [List.getElem?_eq_getElem hi, Option.getD_some]
      exact h.2 _ (List.getElem_mem hi)
    · have hge : g.length ≤ i := by omega
      rw [List.set_eq_of_length_le hge] at hrow
      exact (List.length_set _ _ _).symm ▸ h.2 _ hrow

theorem Shaped.get_put {g : Grid} {R C i j : Nat} (h : Shaped g R C) (hi : i < R)
    (hj : j < C) (v : Int) (a b : Nat) :
    (g.put i j v).get a b = if a = i ∧ b = j then v else g.get a b := by
  obtain ⟨row, hrow, hlen⟩ := h.row hi
  have hi' : i < g.length := by rw [h.1]; exact hi
  have hj' : j < row.length := by omega
  unfold Grid.put Grid.get
  rw [hrow]
  by_cases ha : a = i
  · subst ha
    by_cases hb : b = j
    · subst hb
      simp [List.getElem?_set, hi', hj']
    · have hb' : ¬ j = b := fun e => hb e.symm
      simp [List.getElem?_set, hi', hb, hb', hrow]
  · have ha' : ¬ i = a := fun e => ha e.symm
    simp [List.getElem?_set, ha, ha']

theorem Shaped.ext {g g' : Grid} {R C : Nat} (h : Shaped g R C) (h' : Shaped g' R C)
    (hget : ∀ i j, i < R → j < C → g.get i j = g'.get i j) : g = g' := by
  apply List.ext_getElem (by rw [h.1, h'.1])
  intro i hi hi'
  have hiR : i < R := by rw [← h.1]; exact hi
  have hr : (g[i]).length = C := h.2 _ (List.getElem_mem hi)
  have hr' : (g'[i]).length = C := h'.2 _ (List.getElem_mem hi')
  apply List.ext_getElem (by rw [hr, hr'])
  intro j hj hj'
  have := hget i j hiR (by omega)
  simpa [Grid.get, List.getElem?_eq_getElem hi, List.getElem?_eq_getElem hi',
    List.getElem?_eq_getElem hj, List.getElem?_eq_getElem hj'] using this

theorem Shaped.read_none {g : Grid} {R C i j : Nat} (h : Shaped g R C)
    (hij : ¬ (i < R ∧ j < C)) : g.read i j = none := by
  unfold Grid.read
  by_cases hi : i < R
  · obtain ⟨row, hrow, hlen⟩ := h.row hi
    rw [hrow]
    exact List.getElem?_eq_none (by omega)
  · rw [List.getElem?_eq_none (by rw [h.1]; omega)]

theorem Binary.get {g : Grid} (h : Binary g) (i j : Nat) : g.get i j = 0 ∨ g.get i j = 1 := by
  unfold Grid.get
  by_cases hi : i < g.length
  · rw [List.getElem?_eq_getElem hi]
    by_cases hj : j < (g[i]).length
    · simp only [Option.getD_some, List.getElem?_eq_getElem hj]
      exact h _ (List.getElem_mem hi) _ (List.getElem_mem hj)
    · left; simp [List.getElem?_eq_none (Nat.le_of_not_lt hj)]
  · left; simp [List.getElem?_eq_none (Nat.le_of_not_lt hi)]

theorem Binary.of_get {g : Grid} (h : ∀ i j, g.get i j = 0 ∨ g.get i j = 1) : Binary g := by
  intro row hrow v hv
  obtain ⟨i, hi, rfl⟩ := List.getElem_of_mem hrow
  obtain ⟨j, hj, rfl⟩ := List.getElem_of_mem hv
  have := h i j
  simpa [Grid.get, List.getElem?_eq_getElem hi, List.getElem?_eq_getElem hj] using this

/-! ## Loops -/

theorem forLoop_inv {σ : Type} (body : Nat → σ → Option σ) (Inv : Nat → σ → Prop) :
    ∀ (n lo : Nat) (s : σ), Inv lo s →
      (∀ i t, lo ≤ i → i < lo + n → Inv i t → ∃ t', body i t = some t' ∧ Inv (i + 1) t') →
      ∃ s', forLoop body lo n s = some s' ∧ Inv (lo + n) s' := by
  intro n
  induction n with
  | zero => intro lo s h0 _; exact ⟨s, rfl, h0⟩
  | succ n ih =>
    intro lo s h0 hstep
    obtain ⟨t, ht, hInv⟩ := hstep lo s (Nat.le_refl _) (by omega) h0
    obtain ⟨s', hs', hInv'⟩ := ih (lo + 1) t hInv
      (fun i u h1 h2 hu => hstep i u (by omega) (by omega) hu)
    refine ⟨s', ?_, ?_⟩
    · simp only [forLoop, ht]; exact hs'
    · have : lo + (n + 1) = lo + 1 + n := by omega
      rw [this]; exact hInv'

/-! ## Worker accessors -/

theorem Worker.WF.sel_curr {w : Worker} (h : w.WF) : w.sel w.curr = some w.cur := by
  rcases h.2.2 with ⟨hc, _⟩ | ⟨hc, _⟩ <;> simp [Worker.sel, Worker.cur, hc]

theorem Worker.WF.sel_prev {w : Worker} (h : w.WF) : w.sel w.prev = some w.prv := by
  rcases h.2.2 with ⟨_, hp⟩ | ⟨_, hp⟩ <;> simp [Worker.sel, Worker.prv, hp]

theorem Worker.WF.store_curr {w : Worker} (h : w.WF) (g : Grid) :
    w.store w.curr g = some (w.setCur g) := by
  rcases h.2.2 with ⟨hc, _⟩ | ⟨hc, _⟩ <;> simp [Worker.store, Worker.setCur, hc]

theorem Worker.WF.store_prev {w : Worker} (h : w.WF) (g : Grid) :
    w.store w.prev g = some (w.setPrv g) := by
  rcases h.2.2 with ⟨_, hp⟩ | ⟨_, hp⟩ <;> simp [Worker.store, Worker.setPrv, hp]

theorem Worker.WF.shaped_cur {w : Worker} (h : w.WF) :
    Shaped w.cur (w.myrows + 2) (w.gridsize + 2) := by
  unfold Worker.cur; split
  · exact h.1
  · exact h.2.1

theorem Worker.WF.shaped_prv {w : Worker} (h : w.WF) :
    Shaped w.prv (w.myrows + 2) (w.gridsize + 2) := by
  unfold Worker.prv; split
  · exact h.1
  · exact h.2.1

theorem Worker.WF.upd {w : Worker} (h : w.WF) {g : Grid}
    (hg : Shaped g (w.myrows + 2) (w.gridsize + 2)) (l b d : Int) : (w.upd g l b d).WF := by
  rcases h.2.2 with ⟨hc, hp⟩ | ⟨hc, hp⟩
  · exact ⟨by simpa [Worker.upd, Worker.setCur, hc] using hg,
      by simpa [Worker.upd, Worker.setCur, hc] using h.2.1,
      by simp [Worker.upd, Worker.setCur, hc, hp]⟩
  · exact ⟨by simpa [Worker.upd, Worker.setCur, hc] using h.1,
      by simpa [Worker.upd, Worker.setCur, hc] using hg,
      by simp [Worker.upd, Worker.setCur, hc, hp]⟩

theorem Worker.WF.upd_prv {w : Worker} (h : w.WF) (g : Grid) (l b d : Int) :
    (w.upd g l b d).prv = w.prv := by
  rcases h.2.2 with ⟨hc, hp⟩ | ⟨hc, hp⟩ <;> simp [Worker.upd, Worker.setCur, Worker.prv, hc, hp]

theorem Worker.upd_cur (w : Worker) (g : Grid) (l b d : Int) : (w.upd g l b d).cur = g := by
  by_cases hc : w.curr = 0 <;> simp [Worker.upd, Worker.setCur, Worker.cur, hc]

theorem Worker.upd_upd (w : Worker) (g g' : Grid) (l b d l' b' d' : Int) :
    (w.upd g l b d).upd g' l' b' d' = w.upd g' l' b' d' := by
  by_cases hc : w.curr = 0 <;> simp [Worker.upd, Worker.setCur, hc]

theorem Worker.upd_self (w : Worker) :
    w.upd w.cur w.live_count w.birth_count w.death_count = w := by
  cases w with
  | mk np pid gs mr g0 g1 c p lc bc dc gl gb gd r =>
    by_cases hc : c = 0 <;> simp [Worker.upd, Worker.setCur, Worker.cur, hc]

theorem Worker.WF.rd_prev {w : Worker} (h : w.WF) {i j : Nat} (hi : i < w.myrows + 2)
    (hj : j < w.gridsize + 2) : w.rd w.prev i j = some (w.prv.get i j) := by
  simp [Worker.rd, h.sel_prev, h.shaped_prv.read_get hi hj]

theorem Worker.WF.rd_curr {w : Worker} (h : w.WF) {i j : Nat} (hi : i < w.myrows + 2)
    (hj : j < w.gridsize + 2) : w.rd w.curr i j = some (w.cur.get i j) := by
  simp [Worker.rd, h.sel_curr, h.shaped_cur.read_get hi hj]

theorem Worker.WF.wr_curr {w : Worker} (h : w.WF) {i j : Nat} (hi : i < w.myrows + 2)
    (hj : j < w.gridsize + 2) (v : Int) :
    w.wr w.curr i j v = some (w.setCur (w.cur.put i j v)) := by
  simp [Worker.wr, h.sel_curr, h.shaped_cur.write_put hi hj, h.store_curr]

theorem Worker.WF.neigh_count_eq {w : Worker} (h : w.WF) {i j : Nat} (hi1 : 1 ≤ i)
    (hi2 : i ≤ w.myrows) (hj1 : 1 ≤ j) (hj2 : j ≤ w.gridsize) :
    neigh_count w i j = some (w.prv.nsum i j) := by
  unfold neigh_count
  rw [h.rd_prev (i := i - 1) (j := j - 1) (by omega) (by omega),
    h.rd_prev (i := i - 1) (j := j) (by omega) (by omega),
    h.rd_prev (i := i - 1) (j := j + 1) (by omega) (by omega),
    h.rd_prev (i := i) (j := j - 1) (by omega) (by omega),
    h.rd_prev (i := i) (j := j + 1) (by omega) (by omega),
    h.rd_prev (i := i + 1) (j := j - 1) (by omega) (by omega),
    h.rd_prev (i := i + 1) (j := j) (by omega) (by omega),
    h.rd_prev (i := i + 1) (j := j + 1) (by omega) (by omega)]
  rfl

theorem Worker.upd_myrows (w : Worker) (g : Grid) (l b d : Int) :
    (w.upd g l b d).myrows = w.myrows := by
  by_cases hc : w.curr = 0 <;> simp [Worker.upd, Worker.setCur, hc]

theorem Worker.upd_gridsize (w : Worker) (g : Grid) (l b d : Int) :
    (w.upd g l b d).gridsize = w.gridsize := by
  by_cases hc : w.curr = 0 <;> simp [Worker.upd, Worker.setCur, hc]

theorem Worker.upd_numprocs (w : Worker) (g : Grid) (l b d : Int) :
    (w.upd g l b d).numprocs = w.numprocs := by
  by_cases hc : w.curr = 0 <;> simp [Worker.upd, Worker.setCur, hc]

theorem Worker.upd_mypid (w : Worker) (g : Grid) (l b d : Int) :
    (w.upd g l b d).mypid = w.mypid := by
  by_cases hc : w.curr = 0 <;> simp [Worker.upd, Worker.setCur, hc]

theorem Worker.upd_curr (w : Worker) (g : Grid) (l b d : Int) :
    (w.upd g l b d).curr = w.curr := by
  by_cases hc : w.curr = 0 <;> simp [Worker.upd, Worker.setCur, hc]

theorem Worker.upd_prev (w : Worker) (g : Grid) (l b d : Int) :
    (w.upd g l b d).prev = w.prev := by
  by_cases hc : w.curr = 0 <;> simp [Worker.upd, Worker.setCur, hc]

theorem Worker.upd_live_count (w : Worker) (g : Grid) (l b d : Int) :
    (w.upd g l b d).live_count = l := by
  by_cases hc : w.curr = 0 <;> simp [Worker.upd, Worker.setCur, hc]

theorem Worker.upd_birth_count (w : Worker) (g : Grid) (l b d : Int) :
    (w.upd g l b d).birth_count = b := by
  by_cases hc : w.curr = 0 <;> simp [Worker.upd, Worker.setCur, hc]

theorem Worker.upd_death_count (w : Worker) (g : Grid) (l b d : Int) :
    (w.upd g l b d).death_count = d := by
  by_cases hc : w.curr = 0 <;> simp [Worker.upd, Worker.setCur, hc]

theorem Worker.upd_global_live (w : Worker) (g : Grid) (l b d : Int) :
    (w.upd g l b d).global_live = w.global_live := by
  by_cases hc : w.curr = 0 <;> simp [Worker.upd, Worker.setCur, hc]

theorem Worker.upd_global_birth (w : Worker) (g : Grid) (l b d : Int) :
    (w.upd g l b d).global_birth = w.global_birth := by
  by_cases hc : w.curr = 0 <;> simp [Worker.upd, Worker.setCur, hc]

theorem Worker.upd_global_death (w : Worker) (g : Grid) (l b d : Int) :
    (w.upd g l b d).global_death = w.global_death := by
  by_cases hc : w.curr = 0 <;> simp [Worker.upd, Worker.setCur, hc]

theorem Worker.upd_rng (w : Worker) (g : Grid) (l b d : Int) :
    (w.upd g l b d).rng = w.rng := by
  by_cases hc : w.curr = 0 <;> simp [Worker.upd, Worker.setCur, hc]

theorem Worker.setCur_eq_upd (w : Worker) (g : Grid) :
    w.setCur g = w.upd g w.live_count w.birth_count w.death_count := by
  by_cases hc : w.curr = 0 <;> simp [Worker.upd, Worker.setCur, hc]

theorem Worker.upd_birth (w : Worker) (g : Grid) (l b d x : Int) :
    { w.upd g l b d with birth_count := x } = w.upd g l x d := by
  by_cases hc : w.curr = 0 <;> simp [Worker.upd, Worker.setCur, hc]

theorem Worker.upd_death (w : Worker) (g : Grid) (l b d x : Int) :
    { w.upd g l b d with death_count := x } = w.upd g l b x := by
  by_cases hc : w.curr = 0 <;> simp [Worker.upd, Worker.setCur, hc]

theorem Worker.upd_live (w : Worker) (g : Grid) (l b d x : Int) :
    { w.upd g l b d with live_count := x } = w.upd g x b d := by
  by_cases hc : w.curr = 0 <;> simp [Worker.upd, Worker.setCur, hc]

theorem Worker.WF.cellStep_eq {w : Worker} (h : w.WF) {i j : Nat} (hi1 : 1 ≤ i)
    (hi2 : i ≤ w.myrows) (hj1 : 1 ≤ j) (hj2 : j ≤ w.gridsize) :
    cellStep i j w =
      some (w.upd (w.cur.put i j (w.prv.next i j)) (w.live_count + w.prv.next i j)
        (w.birth_count + w.prv.born i j) (w.death_count + w.prv.died i j)) := by
  have hn := h.neigh_count_eq hi1 hi2 hj1 hj2
  have hi : i < w.myrows + 2 := by omega
  have hj : j < w.gridsize + 2 := by omega
  have hrp := h.rd_prev hi hj
  have hgc := h.shaped_cur
  have hwr : ∀ v, w.cur.write i j v = some (w.cur.put i j v) := fun v => hgc.write_put hi hj v
  have hrd : ∀ v, (w.cur.put i j v).read i j = some v := fun v => by
    rw [(hgc.put i j v).read_get hi hj, hgc.get_put hi hj]; simp
  obtain ⟨np, pid, gs, mr, g0, g1, c, p, lc, bc, dc, gl, gb, gd, r⟩ := w
  unfold cellStep
  rw [hn]
  simp only [hrp]
  clear hn hrp
  rcases h.2.2 with ⟨hc, hp⟩ | ⟨hc, hp⟩
  · simp only at hc hp
    subst hc hp
    simp only [Worker.cur, Worker.prv, if_true] at hwr hrd ⊢
    by_cases c2 : Grid.nsum g1 i j = 2
    · simp [Worker.wr, Worker.sel, Worker.store, Worker.rd, Worker.upd, Worker.setCur, hwr,
        hrd, Grid.next, Grid.born, Grid.died, c2]
    · by_cases c3 : Grid.nsum g1 i j = 3 <;> by_cases p0 : Grid.get g1 i j = 0 <;>
        simp [Worker.wr, Worker.sel, Worker.store, Worker.rd, Worker.upd, Worker.setCur, hwr,
          hrd, Grid.next, Grid.born, Grid.died, c2, c3, p0]
  · simp only at hc hp
    subst hc hp
    simp only [Worker.cur, Worker.prv, if_true, one_ne_zero, if_false] at hwr hrd ⊢
    by_cases c2 : Grid.nsum g0 i j = 2
    · simp [Worker.wr, Worker.sel, Worker.store, Worker.rd, Worker.upd, Worker.setCur, hwr,
        hrd, Grid.next, Grid.born, Grid.died, c2]
    · by_cases c3 : Grid.nsum g0 i j = 3 <;> by_cases p0 : Grid.get g0 i j = 0 <;>
        simp [Worker.wr, Worker.sel, Worker.store, Worker.rd, Worker.upd, Worker.setCur, hwr,
          hrd, Grid.next, Grid.born, Grid.died, c2, c3, p0]

theorem Worker.WF.cellStep_upd {w : Worker} (h : w.WF) {g : Grid}
    (hg : Shaped g (w.myrows + 2) (w.gridsize + 2)) (l b d : Int) {i j : Nat} (hi1 : 1 ≤ i)
    (hi2 : i ≤ w.myrows) (hj1 : 1 ≤ j) (hj2 : j ≤ w.gridsize) :
    cellStep i j (w.upd g l b d) =
      some (w.upd (g.put i j (w.prv.next i j)) (l + w.prv.next i j) (b + w.prv.born i j)
        (d + w.prv.died i j)) := by
  rw [(h.upd hg l b d).cellStep_eq hi1 (by simpa [Worker.upd_myrows] using hi2) hj1
    (by simpa [Worker.upd_gridsize] using hj2)]
  rw [Worker.upd_upd, Worker.upd_cur, h.upd_prv, Worker.upd_live_count, Worker.upd_birth_count,
    Worker.upd_death_count]

/-! ## The compute loops -/

theorem sumTo_succ (f : Nat → Int) (n : Nat) : sumTo f (n + 1) = sumTo f n + f (n + 1) := rfl

theorem sumTo_congr {f g : Nat → Int} {n : Nat} (h : ∀ k, 1 ≤ k → k ≤ n → f k = g k) :
    sumTo f n = sumTo g n := by
  induction n with
  | zero => rfl
  | succ n ih =>
    rw [sumTo_succ, sumTo_succ, ih (fun k h1 h2 => h k h1 (by omega)), h (n + 1) (by omega)
      (Nat.le_refl _)]

theorem sumCells_congr {f g : Nat → Nat → Int} {m n : Nat}
    (h : ∀ i j, 1 ≤ i → i ≤ m → 1 ≤ j → j ≤ n → f i j = g i j) :
    sumCells m n f = sumCells m n g :=
  sumTo_congr (fun i hi1 hi2 => sumTo_congr (fun j hj1 hj2 => h i j hi1 hi2 hj1 hj2))

theorem Worker.WF.rowLoop {w : Worker} (h : w.WF) {i : Nat} (hi1 : 1 ≤ i) (hi2 : i ≤ w.myrows)
    {g : Grid} (hg : Shaped g (w.myrows + 2) (w.gridsize + 2)) (l b d : Int) :
    ∃ g', forLoop (fun j => cellStep i j) 1 w.gridsize (w.upd g l b d) =
        some (w.upd g' (l + sumTo (fun j => w.prv.next i j) w.gridsize)
          (b + sumTo (fun j => w.prv.born i j) w.gridsize)
          (d + sumTo (fun j => w.prv.died i j) w.gridsize)) ∧
      Shaped g' (w.myrows + 2) (w.gridsize + 2) ∧
      ∀ x y, g'.get x y =
        if x = i ∧ 1 ≤ y ∧ y ≤ w.gridsize then w.prv.next x y else g.get x y := by
  have key := forLoop_inv (fun j => cellStep i j)
    (fun j s => ∃ g', s = w.upd g' (l + sumTo (fun j => w.prv.next i j) (j - 1))
          (b + sumTo (fun j => w.prv.born i j) (j - 1))
          (d + sumTo (fun j => w.prv.died i j) (j - 1)) ∧
      Shaped g' (w.myrows + 2) (w.gridsize + 2) ∧
      ∀ x y, g'.get x y = if x = i ∧ 1 ≤ y ∧ y < j then w.prv.next x y else g.get x y)
    w.gridsize 1 (w.upd g l b d)
    ⟨g, by simp [sumTo], hg, fun x y => by
      have : ¬ (x = i ∧ 1 ≤ y ∧ y < 1) := by omega
      rw [if_neg this]⟩
    (by
      rintro j t hj1 hj2 ⟨g', rfl, hg', hget⟩
      obtain ⟨k, rfl⟩ : ∃ k, j = k + 1 := ⟨j - 1, by omega⟩
      dsimp only
      refine ⟨_, h.cellStep_upd hg' _ _ _ hi1 hi2 hj1 (by omega),
        g'.put i (k + 1) (w.prv.next i (k + 1)), ?_, hg'.put _ _ _, ?_⟩
      · have e : k + 1 + 1 - 1 = k + 1 := by omega
        rw [e, Nat.add_sub_cancel, sumTo_succ, sumTo_succ, sumTo_succ]
        simp only [add_assoc]
      · intro x y
        rw [hg'.get_put (by omega) (by omega), hget]
        by_cases hx : x = i
        · subst hx
          by_cases hy : y = k + 1
          · subst hy; simp
          · have e1 : (1 ≤ y ∧ y < k + 1 + 1) ↔ (1 ≤ y ∧ y < k + 1) := by omega
            simp [hy, e1]
        · simp [hx])
  obtain ⟨s', hs', g', rfl, hg', hget⟩ := key
  refine ⟨g', by simpa using hs', hg', fun x y => ?_⟩
  rw [hget]
  have e1 : (x = i ∧ 1 ≤ y ∧ y < 1 + w.gridsize) ↔ (x = i ∧ 1 ≤ y ∧ y ≤ w.gridsize) := by omega
  simp only [e1]

theorem Worker.reset_eq_upd (w : Worker) :
    { w with live_count := 0, birth_count := 0, death_count := 0 } = w.upd w.cur 0 0 0 := by
  obtain ⟨np, pid, gs, mr, g0, g1, c, p, lc, bc, dc, gl, gb, gd, r⟩ := w
  by_cases hc : c = 0 <;> simp [Worker.upd, Worker.setCur, Worker.cur, hc]

/-- Effect of the compute step on a well-formed worker. -/
theorem Worker.WF.compute_eq {w : Worker} (h : w.WF) :
    ∃ g', compute w =
        some (w.upd g' (sumCells w.myrows w.gridsize w.prv.next)
          (sumCells w.myrows w.gridsize w.prv.born)
          (sumCells w.myrows w.gridsize w.prv.died)) ∧
      Shaped g' (w.myrows + 2) (w.gridsize + 2) ∧
      ∀ x y, g'.get x y =
        if 1 ≤ x ∧ x ≤ w.myrows ∧ 1 ≤ y ∧ y ≤ w.gridsize then w.prv.next x y
        else w.cur.get x y := by
  have key := forLoop_inv (fun i => forLoop (fun j => cellStep i j) 1 w.gridsize)
    (fun i s => ∃ g', s = w.upd g'
          (sumTo (fun i => sumTo (fun j => w.prv.next i j) w.gridsize) (i - 1))
          (sumTo (fun i => sumTo (fun j => w.prv.born i j) w.gridsize) (i - 1))
          (sumTo (fun i => sumTo (fun j => w.prv.died i j) w.gridsize) (i - 1)) ∧
      Shaped g' (w.myrows + 2) (w.gridsize + 2) ∧
      ∀ x y, g'.get x y =
        if 1 ≤ x ∧ x < i ∧ 1 ≤ y ∧ y ≤ w.gridsize then w.prv.next x y else w.cur.get x y)
    w.myrows 1 (w.upd w.cur 0 0 0)
    ⟨w.cur, by simp [sumTo], h.shaped_cur, fun x y => by
      have : ¬ (1 ≤ x ∧ x < 1 ∧ 1 ≤ y ∧ y ≤ w.gridsize) := by omega
      rw [if_neg this]⟩
    (by
      rintro i t hi1 hi2 ⟨g', rfl, hg', hget⟩
      obtain ⟨k, rfl⟩ : ∃ k, i = k + 1 := ⟨i - 1, by omega⟩
      obtain ⟨g'', hrow, hg'', hget'⟩ := h.rowLoop hi1 (by omega) hg' _ _ _
      dsimp only
      refine ⟨_, hrow, g'', ?_, hg'', ?_⟩
      · have e : k + 1 + 1 - 1 = k + 1 := by omega
        rw [e, Nat.add_sub_cancel, sumTo_succ, sumTo_succ, sumTo_succ]
      · intro x y
        rw [hget', hget]
        by_cases hx : x = k + 1
        · subst hx
          by_cases hy : 1 ≤ y ∧ y ≤ w.gridsize
          · simp [hy]
          · have e1 : ¬ (1 ≤ y ∧ y ≤ w.gridsize) := hy
            have e2 : ¬ (k + 1 < k + 1 ∧ 1 ≤ y ∧ y ≤ w.gridsize) := by omega
            simp [e1, e2]
        · have e1 : (1 ≤ x ∧ x < k + 1 + 1 ∧ 1 ≤ y ∧ y ≤ w.gridsize) ↔
              (1 ≤ x ∧ x < k + 1 ∧ 1 ≤ y ∧ y ≤ w.gridsize) := by omega
          simp [hx, e1])
  obtain ⟨s', hs', g', rfl, hg', hget⟩ := key
  refine ⟨g', ?_, hg', fun x y => ?_⟩
  · unfold compute
    rw [Worker.reset_eq_upd]
    simpa [sumCells, Worker.upd_gridsize, Worker.upd_myrows] using hs'
  · rw [hget]
    have e1 : (1 ≤ x ∧ x < 1 + w.myrows ∧ 1 ≤ y ∧ y ≤ w.gridsize) ↔
        (1 ≤ x ∧ x ≤ w.myrows ∧ 1 ≤ y ∧ y ≤ w.gridsize) := by omega
    simp only [e1]

/-! ## Counting -/

theorem sumTo_eq_sum (f : Nat → Int) (n : Nat) : sumTo f n = ∑ k in Finset.Icc 1 n, f k := by
  induction n with
  | zero => simp [sumTo]
  | succ n ih => rw [sumTo_succ, ih, Finset.sum_Icc_succ_top (by omega)]

theorem countCells_eq_sumCells (m n : Nat) (P : Nat → Nat → Prop) [∀ i j, Decidable (P i j)] :
    ((countCells m n P : Nat) : Int) = sumCells m n (fun i j => if P i j then 1 else 0) := by
  unfold countCells interior sumCells
  rw [Finset.card_filter, Finset.sum_product, sumTo_eq_sum]
  push_cast
  refine Finset.sum_congr rfl (fun i _ => ?_)
  rw [sumTo_eq_sum]

theorem sumTo_add (f g : Nat → Int) (n : Nat) :
    sumTo (fun k => f k + g k) n = sumTo f n + sumTo g n := by
  induction n with
  | zero => simp [sumTo]
  | succ n ih => simp only [sumTo_succ, ih]; ring

theorem sumTo_sub (f g : Nat → Int) (n : Nat) :
    sumTo (fun k => f k - g k) n = sumTo f n - sumTo g n := by
  induction n with
  | zero => simp [sumTo]
  | succ n ih => simp only [sumTo_succ, ih]; ring

theorem sumCells_add (m n : Nat) (f g : Nat → Nat → Int) :
    sumCells m n (fun i j => f i j + g i j) = sumCells m n f + sumCells m n g := by
  unfold sumCells
  rw [← sumTo_add]
  exact sumTo_congr (fun i _ _ => sumTo_add _ _ n)

theorem sumCells_sub (m n : Nat) (f g : Nat → Nat → Int) :
    sumCells m n (fun i j => f i j - g i j) = sumCells m n f - sumCells m n g := by
  unfold sumCells
  rw [← sumTo_sub]
  exact sumTo_congr (fun i _ _ => sumTo_sub _ _ n)

/-! ## Neighbour counts of binary grids -/

theorem indicator_cast {v : Int} (hv : v = 0 ∨ v = 1) :
    (if decide (some v = some (1 : Int)) = true then (1 : Int) else 0) = v := by
  rcases hv with rfl | rfl <;> simp

theorem Worker.WF.liveNeighbours_eq {w : Worker} (h : w.WF) (hbin : Binary w.prv) {i j : Nat}
    (hi1 : 1 ≤ i) (hi2 : i ≤ w.myrows) (hj1 : 1 ≤ j) (hj2 : j ≤ w.gridsize) :
    ((liveNeighbours w i j : Nat) : Int) = w.prv.nsum i j := by
  unfold liveNeighbours neighbours Grid.nsum
  simp only [List.countP_cons, List.countP_nil, Nat.zero_add]
  rw [h.rd_prev (i := i - 1) (j := j - 1) (by omega) (by omega),
    h.rd_prev (i := i - 1) (j := j) (by omega) (by omega),
    h.rd_prev (i := i - 1) (j := j + 1) (by omega) (by omega),
    h.rd_prev (i := i) (j := j - 1) (by omega) (by omega),
    h.rd_prev (i := i) (j := j + 1) (by omega) (by omega),
    h.rd_prev (i := i + 1) (j := j - 1) (by omega) (by omega),
    h.rd_prev (i := i + 1) (j := j) (by omega) (by omega),
    h.rd_prev (i := i + 1) (j := j + 1) (by omega) (by omega)]
  push_cast
  rw [indicator_cast (hbin.get _ _), indicator_cast (hbin.get _ _),
    indicator_cast (hbin.get _ _), indicator_cast (hbin.get _ _),
    indicator_cast (hbin.get _ _), indicator_cast (hbin.get _ _),
    indicator_cast (hbin.get _ _), indicator_cast (hbin.get _ _)]
  ring

/-- Summary of the compute step on a well-formed worker, in terms of the total accessors. -/
theorem Worker.WF.compute_spec {w : Worker} (h : w.WF) :
    ∃ w', compute w = some w' ∧ w'.WF ∧
      w'.numprocs = w.numprocs ∧ w'.mypid = w.mypid ∧ w'.gridsize = w.gridsize ∧
      w'.myrows = w.myrows ∧ w'.curr = w.curr ∧ w'.prev = w.prev ∧ w'.prv = w.prv ∧
      (∀ x y, w'.cur.get x y =
        if 1 ≤ x ∧ x ≤ w.myrows ∧ 1 ≤ y ∧ y ≤ w.gridsize then w.prv.next x y
        else w.cur.get x y) ∧
      w'.live_count = sumCells w.myrows w.gridsize w.prv.next ∧
      w'.birth_count = sumCells w.myrows w.gridsize w.prv.born ∧
      w'.death_count = sumCells w.myrows w.gridsize w.prv.died := by
  obtain ⟨g', hc, hg', hget⟩ := h.compute_eq
  refine ⟨_, hc, h.upd hg' _ _ _, Worker.upd_numprocs .., Worker.upd_mypid ..,
    Worker.upd_gridsize .., Worker.upd_myrows .., Worker.upd_curr .., Worker.upd_prev ..,
    h.upd_prv .., ?_, Worker.upd_live_count .., Worker.upd_birth_count ..,
    Worker.upd_death_count ..⟩
  rw [Worker.upd_cur]
  exact hget

/-! ## The update rule (C1) -/

/-- C1. On a well-formed worker whose previous grid holds only 0 and 1, the compute step
returns, and every interior cell `(i,j)` of the new current grid is determined by the number
`n` of live cells among the eight neighbours in the previous grid: the previous value if
`n = 2`, alive if `n = 3`, dead otherwise.  Hence a live cell is alive afterwards iff `n` is
2 or 3 and a dead cell is alive afterwards iff `n = 3`. -/
theorem compute_applies_conway_rule (w : Worker) (hw : w.WF) (hbin : Binary w.prv) :
    ∃ w', compute w = some w' ∧
      ∀ i j, 1 ≤ i → i ≤ w.myrows → 1 ≤ j → j ≤ w.gridsize →
        ∃ p, w.rd w.prev i j = some p ∧ (p = 0 ∨ p = 1) ∧
          w'.rd w'.curr i j =
            some (if liveNeighbours w i j = 2 then p
              else if liveNeighbours w i j = 3 then 1 else 0) ∧
          (p = 1 → (w'.rd w'.curr i j = some 1 ↔
            (liveNeighbours w i j = 2 ∨ liveNeighbours w i j = 3))) ∧
          (p = 0 → (w'.rd w'.curr i j = some 1 ↔ liveNeighbours w i j = 3)) ∧
          (w'.rd w'.curr i j = some 0 ∨ w'.rd w'.curr i j = some 1) := by
  obtain ⟨w', hc, hw', -, -, hgs, hmr, -, -, -, hget, -, -, -⟩ := hw.compute_spec
  refine ⟨w', hc, fun i j hi1 hi2 hj1 hj2 => ?_⟩
  have hn := hw.liveNeighbours_eq hbin hi1 hi2 hj1 hj2
  have hcur : w'.rd w'.curr i j = some (w.prv.next i j) := by
    rw [hw'.rd_curr (by omega) (by omega), hget]
    simp [hi1, hi2, hj1, hj2]
  have hp := hbin.get i j
  refine ⟨w.prv.get i j, hw.rd_prev (by omega) (by omega), hp, ?_, ?_, ?_, ?_⟩
  · rw [hcur]
    unfold Grid.next
    rw [← hn]
    norm_cast
  · intro h1
    rw [hcur]
    unfold Grid.next
    rw [← hn, h1]
    by_cases c2 : liveNeighbours w i j = 2
    · simp [c2]
    · by_cases c3 : liveNeighbours w i j = 3
      · simp [c3]
      · have e2 : ¬ ((liveNeighbours w i j : Int) = 2) := by exact_mod_cast c2
        have e3 : ¬ ((liveNeighbours w i j : Int) = 3) := by exact_mod_cast c3
        simp [c2, c3, e2, e3]
  · intro h0
    rw [hcur]
    unfold Grid.next
    rw [← hn, h0]
    by_cases c2 : liveNeighbours w i j = 2
    · simp [c2]
    · by_cases c3 : liveNeighbours w i j = 3
      · simp [c3]
      · have e2 : ¬ ((liveNeighbours w i j : Int) = 2) := by exact_mod_cast c2
        have e3 : ¬ ((liveNeighbours w i j : Int) = 3) := by exact_mod_cast c3
        simp [c2, c3, e2, e3]
  · rw [hcur]
    unfold Grid.next
    split
    · rcases hp with h0 | h1
      · left; rw [h0]
      · right; rw [h1]
    · split
      · right; rfl
      · left; rfl

theorem compute_applies_conway_rule_witness :
    exampleWorker.WF ∧ Binary exampleWorker.prv ∧
    ∃ w', compute exampleWorker = some w' ∧
      ∀ i j, 1 ≤ i → i ≤ exampleWorker.myrows → 1 ≤ j → j ≤ exampleWorker.gridsize →
        ∃ p, exampleWorker.rd exampleWorker.prev i j = some p ∧ (p = 0 ∨ p = 1) ∧
          w'.rd w'.curr i j =
            some (if liveNeighbours exampleWorker i j = 2 then p
              else if liveNeighbours exampleWorker i j = 3 then 1 else 0) ∧
          (p = 1 → (w'.rd w'.curr i j = some 1 ↔
            (liveNeighbours exampleWorker i j = 2 ∨ liveNeighbours exampleWorker i j = 3))) ∧
          (p = 0 → (w'.rd w'.curr i j = some 1 ↔ liveNeighbours exampleWorker i j = 3)) ∧
          (w'.rd w'.curr i j = some 0 ∨ w'.rd w'.curr i j = some 1) :=
  ⟨by decide, by decide, compute_applies_conway_rule exampleWorker (by decide) (by decide)⟩

/-! ## The counters (C4, C5) -/

theorem Grid.next_binary {g : Grid} {i j : Nat} (hv : g.get i j = 0 ∨ g.get i j = 1) :
    g.next i j = 0 ∨ g.next i j = 1 := by
  unfold Grid.next
  split
  · exact hv
  · split
    · right; rfl
    · left; rfl

theorem Grid.next_indicator {g : Grid} {i j : Nat} (hv : g.get i j = 0 ∨ g.get i j = 1) :
    g.next i j = if some (g.next i j) = some (1 : Int) then 1 else 0 := by
  rcases Grid.next_binary hv with h | h <;> simp [h]

theorem Grid.born_indicator {g : Grid} {i j : Nat} :
    g.born i j = if some (g.get i j) = some (0 : Int) ∧ some (g.next i j) = some (1 : Int)
      then 1 else 0 := by
  unfold Grid.born Grid.next
  by_cases c2 : g.nsum i j = 2
  · by_cases p0 : g.get i j = 0 <;> simp [c2, p0]
  · by_cases c3 : g.nsum i j = 3 <;> by_cases p0 : g.get i j = 0 <;> simp [c2, c3, p0]

theorem Grid.died_indicator {g : Grid} {i j : Nat} (hv : g.get i j = 0 ∨ g.get i j = 1) :
    g.died i j = if some (g.get i j) = some (1 : Int) ∧ some (g.next i j) = some (0 : Int)
      then 1 else 0 := by
  unfold Grid.died Grid.next
  by_cases c2 : g.nsum i j = 2
  · rcases hv with p | p <;> simp [c2, p]
  · by_cases c3 : g.nsum i j = 3 <;> rcases hv with p | p <;> simp [c2, c3, p]

theorem Grid.next_balance {g : Grid} {i j : Nat} (hv : g.get i j = 0 ∨ g.get i j = 1) :
    g.next i j = g.get i j - g.died i j + g.born i j := by
  unfold Grid.died Grid.born Grid.next
  by_cases c2 : g.nsum i j = 2
  · rcases hv with p | p <;> simp [c2, p]
  · by_cases c3 : g.nsum i j = 3 <;> rcases hv with p | p <;> simp [c2, c3, p]

/-- C4. On a well-formed worker whose previous grid holds only 0 and 1, the compute step
returns with exact counters: `live_count` is the number of live interior cells of the new
current grid, `birth_count` the number of interior cells dead before and alive after,
`death_count` the number of interior cells alive before and dead after.  A cell with exactly
two live neighbours is counted neither as a birth nor as a death. -/
theorem compute_counters_exact (w : Worker) (hw : w.WF) (hbin : Binary w.prv) :
    ∃ w', compute w = some w' ∧
      w'.live_count =
        countCells w.myrows w.gridsize (fun i j => w'.rd w'.curr i j = some 1) ∧
      w'.birth_count =
        countCells w.myrows w.gridsize
          (fun i j => w.rd w.prev i j = some 0 ∧ w'.rd w'.curr i j = some 1) ∧
      w'.death_count =
        countCells w.myrows w.gridsize
          (fun i j => w.rd w.prev i j = some 1 ∧ w'.rd w'.curr i j = some 0) ∧
      ∀ i j, 1 ≤ i → i ≤ w.myrows → 1 ≤ j → j ≤ w.gridsize → liveNeighbours w i j = 2 →
        ¬ (w.rd w.prev i j = some 0 ∧ w'.rd w'.curr i j = some 1) ∧
        ¬ (w.rd w.prev i j = some 1 ∧ w'.rd w'.curr i j = some 0) := by
  obtain ⟨w', hc, hw', -, -, hgs, hmr, -, -, -, hget, hl, hb, hd⟩ := hw.compute_spec
  have hcur : ∀ i j, 1 ≤ i → i ≤ w.myrows → 1 ≤ j → j ≤ w.gridsize →
      w'.rd w'.curr i j = some (w.prv.next i j) := by
    intro i j hi1 hi2 hj1 hj2
    rw [hw'.rd_curr (by omega) (by omega), hget]
    simp [hi1, hi2, hj1, hj2]
  have hprev : ∀ i j, 1 ≤ i → i ≤ w.myrows → 1 ≤ j → j ≤ w.gridsize →
      w.rd w.prev i j = some (w.prv.get i j) :=
    fun i j hi1 hi2 hj1 hj2 => hw.rd_prev (by omega) (by omega)
  refine ⟨w', hc, ?_, ?_, ?_, ?_⟩
  · rw [hl, countCells_eq_sumCells]
    refine sumCells_congr (fun i j hi1 hi2 hj1 hj2 => ?_)
    rw [hcur i j hi1 hi2 hj1 hj2]
    exact Grid.next_indicator (hbin.get i j)
  · rw [hb, countCells_eq_sumCells]
    refine sumCells_congr (fun i j hi1 hi2 hj1 hj2 => ?_)
    rw [hcur i j hi1 hi2 hj1 hj2, hprev i j hi1 hi2 hj1 hj2]
    exact Grid.born_indicator
  · rw [hd, countCells_eq_sumCells]
    refine sumCells_congr (fun i j hi1 hi2 hj1 hj2 => ?_)
    rw [hcur i j hi1 hi2 hj1 hj2, hprev i j hi1 hi2 hj1 hj2]
    exact Grid.died_indicator (hbin.get i j)
  · intro i j hi1 hi2 hj1 hj2 h2
    have hn := hw.liveNeighbours_eq hbin hi1 hi2 hj1 hj2
    rw [h2] at hn
    have hnext : w.prv.next i j = w.prv.get i j := by
      unfold Grid.next
      rw [← hn]
      simp
    rw [hcur i j hi1 hi2 hj1 hj2, hprev i j hi1 hi2 hj1 hj2, hnext]
    constructor
    · rintro ⟨h0, h1⟩
      rw [h0] at h1
      exact absurd h1 (by decide)
    · rintro ⟨h1, h0⟩
      rw [h1] at h0
      exact absurd h0 (by decide)

theorem compute_counters_exact_witness :
    exampleWorker.WF ∧ Binary exampleWorker.prv ∧
    ∃ w', compute exampleWorker = some w' ∧
      w'.live_count =
        countCells exampleWorker.myrows exampleWorker.gridsize
          (fun i j => w'.rd w'.curr i j = some 1) ∧
      w'.birth_count =
        countCells exampleWorker.myrows exampleWorker.gridsize
          (fun i j => exampleWorker.rd exampleWorker.prev i j = some 0 ∧
            w'.rd w'.curr i j = some 1) ∧
      w'.death_count =
        countCells exampleWorker.myrows exampleWorker.gridsize
          (fun i j => exampleWorker.rd exampleWorker.prev i j = some 1 ∧
            w'.rd w'.curr i j = some 0) ∧
      ∀ i j, 1 ≤ i → i ≤ exampleWorker.myrows → 1 ≤ j → j ≤ exampleWorker.gridsize →
        liveNeighbours exampleWorker i j = 2 →
        ¬ (exampleWorker.rd exampleWorker.prev i j = some 0 ∧ w'.rd w'.curr i j = some 1) ∧
        ¬ (exampleWorker.rd exampleWorker.prev i j = some 1 ∧ w'.rd w'.curr i j = some 0) :=
  ⟨by decide, by decide, compute_counters_exact exampleWorker (by decide) (by decide)⟩

/-- C5. Local population balance: on a well-formed worker whose previous grid holds only 0
and 1, the compute step returns counters with
`live_count = L_prev - death_count + birth_count`, where `L_prev` is the number of live
interior cells of the previous grid. -/
theorem compute_population_balance (w : Worker) (hw : w.WF) (hbin : Binary w.prv) :
    ∃ w', compute w = some w' ∧
      w'.live_count =
        (countCells w.myrows w.gridsize (fun i j => w.rd w.prev i j = some 1) : Int)
          - w'.death_count + w'.birth_count := by
  obtain ⟨w', hc, hw', -, -, hgs, hmr, -, -, -, hget, hl, hb, hd⟩ := hw.compute_spec
  refine ⟨w', hc, ?_⟩
  have hprevcount :
      ((countCells w.myrows w.gridsize (fun i j => w.rd w.prev i j = some 1) : Nat) : Int) =
        sumCells w.myrows w.gridsize w.prv.get := by
    rw [countCells_eq_sumCells]
    refine sumCells_congr (fun i j hi1 hi2 hj1 hj2 => ?_)
    rw [hw.rd_prev (by omega) (by omega)]
    rcases hbin.get i j with h | h <;> simp [h]
  rw [hl, hb, hd, hprevcount, ← sumCells_sub, ← sumCells_add]
  exact sumCells_congr (fun i j _ _ _ _ => Grid.next_balance (hbin.get i j))

theorem compute_population_balance_witness :
    exampleWorker.WF ∧ Binary exampleWorker.prv ∧
    ∃ w', compute exampleWorker = some w' ∧
      w'.live_count =
        (countCells exampleWorker.myrows exampleWorker.gridsize
          (fun i j => exampleWorker.rd exampleWorker.prev i j = some 1) : Int)
          - w'.death_count + w'.birth_count :=
  ⟨by decide, by decide, compute_population_balance exampleWorker (by decide) (by decide)⟩

/-! ## Parameter validation (C8) -/

/-- C8. With the three startup parameters given (`argc = 4`) and a positive worker count,
`init` aborts if and only if `gridsize` is not an exact multiple of `numprocs`, the abort
being the one of line 59; and when it succeeds the number of rows it returns, which depends
on `gridsize` and `numprocs` only, is `gridsize / numprocs` and satisfies
`myrows * numprocs = gridsize`. -/
theorem init_aborts_iff_not_multiple (gridsize numprocs : Int) (hP : 1 ≤ numprocs) :
    ((∃ e, init 4 gridsize numprocs = Except.error e) ↔ ¬ numprocs ∣ gridsize) ∧
    (init 4 gridsize numprocs = Except.error Abort.notMultiple ↔ ¬ numprocs ∣ gridsize) ∧
    ∀ myrows, init 4 gridsize numprocs = Except.ok myrows →
      myrows = Int.tdiv gridsize numprocs ∧ myrows = gridsize / numprocs ∧
      myrows * numprocs = gridsize := by
  have _hpos : 0 < numprocs := by omega
  by_cases hd : numprocs ∣ gridsize
  · have hm : Int.tmod gridsize numprocs = 0 := Int.tmod_eq_zero_of_dvd hd
    refine ⟨?_, ?_, ?_⟩
    · simp [init, hm, hd]
    · simp [init, hm, hd]
    · intro myrows h
      simp only [init, hm, ne_eq, not_true_eq_false, if_false, Except.ok.injEq] at h
      subst h
      exact ⟨rfl, Int.tdiv_eq_ediv_of_dvd hd, Int.tdiv_mul_cancel hd⟩
  · have hm : ¬ Int.tmod gridsize numprocs = 0 := fun h => hd (Int.dvd_of_tmod_eq_zero h)
    refine ⟨?_, ?_, ?_⟩
    · simp [init, hm, hd]
    · simp [init, hm, hd]
    · intro myrows h
      simp [init, hm] at h

theorem init_aborts_iff_not_multiple_witness :
    (1 : Int) ≤ 2 ∧
    ((∃ e, init 4 6 2 = Except.error e) ↔ ¬ (2 : Int) ∣ 6) ∧
    (init 4 6 2 = Except.error Abort.notMultiple ↔ ¬ (2 : Int) ∣ 6) ∧
    ∀ myrows, init 4 6 2 = Except.ok myrows →
      myrows = Int.tdiv 6 2 ∧ myrows = 6 / 2 ∧ myrows * 2 = 6 :=
  ⟨by decide, init_aborts_iff_not_multiple 6 2 (by decide)⟩

/-! ## Allocation and clearing -/

theorem allocate_shaped (R C : Nat) (garbage : Nat → Nat → Int) :
    Shaped (allocate R C garbage) R C := by
  constructor
  · simp [allocate]
  · intro row hrow
    simp only [allocate, List.mem_map] at hrow
    obtain ⟨i, _, rfl⟩ := hrow
    simp

theorem Grid.get_oob {g : Grid} {R C : Nat} (h : Shaped g R C) {i j : Nat}
    (hij : ¬ (i < R ∧ j < C)) : g.get i j = 0 := by
  unfold Grid.get
  by_cases hi : i < R
  · obtain ⟨row, hrow, hlen⟩ := h.row hi
    rw [hrow]
    simp [List.getElem?_eq_none (show row.length ≤ j by omega)]
  · simp [List.getElem?_eq_none (show g.length ≤ i by rw [h.1]; omega)]

theorem zeroCell_eq (w : Worker) {R C i j : Nat} (h0 : Shaped w.grid0 R C)
    (h1 : Shaped w.grid1 R C) (hi : i < R) (hj : j < C) :
    zeroCell i j w =
      some { w with grid0 := w.grid0.put i j 0, grid1 := w.grid1.put i j 0 } := by
  simp [zeroCell, Worker.wr, Worker.sel, Worker.store, h0.write_put hi hj, h1.write_put hi hj]

theorem zeroGrids_eq (w : Worker) (h0 : Shaped w.grid0 (w.myrows + 2) (w.gridsize + 2))
    (h1 : Shaped w.grid1 (w.myrows + 2) (w.gridsize + 2)) :
    ∃ g0 g1, zeroGrids w = some { w with grid0 := g0, grid1 := g1 } ∧
      Shaped g0 (w.myrows + 2) (w.gridsize + 2) ∧ Shaped g1 (w.myrows + 2) (w.gridsize + 2) ∧
      (∀ x y, g0.get x y = 0) ∧ (∀ x y, g1.get x y = 0) := by
  have row : ∀ i, i < w.myrows + 2 → ∀ t,
      (∃ g0 g1, t = { w with grid0 := g0, grid1 := g1 } ∧
        Shaped g0 (w.myrows + 2) (w.gridsize + 2) ∧
        Shaped g1 (w.myrows + 2) (w.gridsize + 2) ∧
        (∀ x y, x < i → g0.get x y = 0 ∧ g1.get x y = 0)) →
      ∃ t', forLoop (fun j => zeroCell i j) 0 (w.gridsize + 2) t = some t' ∧
        ∃ g0 g1, t' = { w with grid0 := g0, grid1 := g1 } ∧
          Shaped g0 (w.myrows + 2) (w.gridsize + 2) ∧
          Shaped g1 (w.myrows + 2) (w.gridsize + 2) ∧
          (∀ x y, x < i + 1 → g0.get x y = 0 ∧ g1.get x y = 0) := by
    intro i hi t ht
    obtain ⟨t', ht', g0, g1, rfl, s0, s1, hz⟩ := forLoop_inv (fun j => zeroCell i j)
      (fun j s => ∃ g0 g1, s = { w with grid0 := g0, grid1 := g1 } ∧
        Shaped g0 (w.myrows + 2) (w.gridsize + 2) ∧
        Shaped g1 (w.myrows + 2) (w.gridsize + 2) ∧
        (∀ x y, x < i ∨ (x = i ∧ y < j) → g0.get x y = 0 ∧ g1.get x y = 0))
      (w.gridsize + 2) 0 t
      (by
        obtain ⟨g0, g1, rfl, s0, s1, hz⟩ := ht
        exact ⟨g0, g1, rfl, s0, s1, fun x y hxy => hz x y (by omega)⟩)
      (by
        rintro j s _ hj ⟨g0, g1, rfl, s0, s1, hz⟩
        refine ⟨_, zeroCell_eq _ s0 s1 hi (by omega), g0.put i j 0, g1.put i j 0, rfl,
          s0.put _ _ _, s1.put _ _ _, fun x y hxy => ?_⟩
        rw [s0.get_put hi (by omega), s1.get_put hi (by omega)]
        by_cases hc : x = i ∧ y = j
        · simp [hc]
        · rw [if_neg hc, if_neg hc]
          exact hz x y (by omega))
    refine ⟨_, ht', g0, g1, rfl, s0, s1, fun x y hx => ?_⟩
    by_cases hy : y < w.gridsize + 2
    · exact hz x y (by omega)
    · exact ⟨Grid.get_oob s0 (by omega), Grid.get_oob s1 (by omega)⟩
  obtain ⟨t', ht', g0, g1, rfl, s0, s1, hz⟩ :=
    forLoop_inv (fun i => forLoop (fun j => zeroCell i j) 0 (w.gridsize + 2))
      (fun i s => ∃ g0 g1, s = { w with grid0 := g0, grid1 := g1 } ∧
        Shaped g0 (w.myrows + 2) (w.gridsize + 2) ∧
        Shaped g1 (w.myrows + 2) (w.gridsize + 2) ∧
        (∀ x y, x < i → g0.get x y = 0 ∧ g1.get x y = 0))
      (w.myrows + 2) 0 w
      ⟨w.grid0, w.grid1, rfl, h0, h1, fun x y hx => absurd hx (by omega)⟩
      (fun i t _ hi ht => row i (by omega) t ht)
  refine ⟨g0, g1, ht', s0, s1, fun x y => ?_, fun x y => ?_⟩
  · by_cases hx : x < w.myrows + 2
    · exact (hz x y (by omega)).1
    · exact Grid.get_oob s0 (by omega)
  · by_cases hx : x < w.myrows + 2
    · exact (hz x y (by omega)).2
    · exact Grid.get_oob s1 (by omega)

/-! ## Seeding (C7) -/

section Seeding

variable {α : Type} [LT α] [DecidableRel (fun (a b : α) => a < b)]

theorem seedCell_seeded (samples : Nat → α) (init_pct : α) (w : Worker) {g : Grid}
    (hg : Shaped g (w.myrows + 2) (w.gridsize + 2)) (l : Int) (r : Nat) {i j : Nat}
    (hi : i < w.myrows + 2) (hj : j < w.gridsize + 2) :
    seedCell samples init_pct i j (w.seeded g l r) =
      some (w.seeded (g.put i j (if samples r < init_pct then 1 else 0))
        (l + (if samples r < init_pct then 1 else 0)) (r + 1)) := by
  by_cases hs : samples r < init_pct <;>
    simp [seedCell, Worker.seeded, Worker.wr, Worker.sel, Worker.store, hs,
      hg.write_put hi hj]

theorem seed_eq (samples : Nat → α) (init_pct : α) (w : Worker)
    (h0 : Shaped w.grid0 (w.myrows + 2) (w.gridsize + 2)) :
    ∃ g, seed samples init_pct w =
        some (w.seeded g (sumCells w.myrows w.gridsize
          (seedVal samples init_pct w.gridsize w.rng)) (w.rng + w.myrows * w.gridsize)) ∧
      Shaped g (w.myrows + 2) (w.gridsize + 2) ∧
      ∀ x y, g.get x y =
        if 1 ≤ x ∧ x ≤ w.myrows ∧ 1 ≤ y ∧ y ≤ w.gridsize
        then seedVal samples init_pct w.gridsize w.rng x y else w.grid0.get x y := by
  have row : ∀ i, 1 ≤ i → i ≤ w.myrows → ∀ g l, Shaped g (w.myrows + 2) (w.gridsize + 2) →
      ∃ g', forLoop (fun j => seedCell samples init_pct i j) 1 w.gridsize
            (w.seeded g l (w.rng + (i - 1) * w.gridsize)) =
          some (w.seeded g'
            (l + sumTo (fun j => seedVal samples init_pct w.gridsize w.rng i j) w.gridsize)
            (w.rng + i * w.gridsize)) ∧
        Shaped g' (w.myrows + 2) (w.gridsize + 2) ∧
        ∀ x y, g'.get x y =
          if x = i ∧ 1 ≤ y ∧ y ≤ w.gridsize
          then seedVal samples init_pct w.gridsize w.rng x y else g.get x y := by
    intro i hi1 hi2 g l hg
    obtain ⟨s', hs', g', rfl, hg', hget⟩ :=
      forLoop_inv (fun j => seedCell samples init_pct i j)
        (fun j s => ∃ g', s = w.seeded g'
            (l + sumTo (fun j => seedVal samples init_pct w.gridsize w.rng i j) (j - 1))
            (w.rng + (i - 1) * w.gridsize + (j - 1)) ∧
          Shaped g' (w.myrows + 2) (w.gridsize + 2) ∧
          ∀ x y, g'.get x y =
            if x = i ∧ 1 ≤ y ∧ y < j
            then seedVal samples init_pct w.gridsize w.rng x y else g.get x y)
        w.gridsize 1 (w.seeded g l (w.rng + (i - 1) * w.gridsize))
        ⟨g, by simp [sumTo], hg, fun x y => by
          have : ¬ (x = i ∧ 1 ≤ y ∧ y < 1) := by omega
          rw [if_neg this]⟩
        (by
          rintro j t hj1 hj2 ⟨g', rfl, hg', hget⟩
          obtain ⟨k, rfl⟩ : ∃ k, j = k + 1 := ⟨j - 1, by omega⟩
          dsimp only
          refine ⟨_, seedCell_seeded samples init_pct w hg' _ _ (by omega) (by omega),
            g'.put i (k + 1) (seedVal samples init_pct w.gridsize w.rng i (k + 1)), ?_,
            hg'.put _ _ _, ?_⟩
          · have e : k + 1 + 1 - 1 = k + 1 := by omega
            rw [e, Nat.add_sub_cancel, sumTo_succ]
            simp only [seedVal, Nat.add_sub_cancel, add_assoc]
          · intro x y
            rw [hg'.get_put (by omega) (by omega), hget]
            by_cases hx : x = i
            · subst hx
              by_cases hy : y = k + 1
              · subst hy; simp
              · have e1 : (1 ≤ y ∧ y < k + 1 + 1) ↔ (1 ≤ y ∧ y < k + 1) := by omega
                simp [hy, e1]
            · simp [hx])
    refine ⟨g', ?_, hg', fun x y => ?_⟩
    · rw [hs']
      have e1 : 1 + w.gridsize - 1 = w.gridsize := by omega
      have e2 : w.rng + (i - 1) * w.gridsize + w.gridsize = w.rng + i * w.gridsize := by
        obtain ⟨k, rfl⟩ : ∃ k, i = k + 1 := ⟨i - 1, by omega⟩
        rw [Nat.add_sub_cancel, Nat.succ_mul]
        omega
      rw [e1, e2]
    · rw [hget]
      have e1 : (x = i ∧ 1 ≤ y ∧ y < 1 + w.gridsize) ↔ (x = i ∧ 1 ≤ y ∧ y ≤ w.gridsize) := by
        omega
      simp only [e1]
  obtain ⟨s', hs', g', rfl, hg', hget⟩ :=
    forLoop_inv (fun i => forLoop (fun j => seedCell samples init_pct i j) 1 w.gridsize)
      (fun i s => ∃ g', s = w.seeded g'
          (sumTo (fun i => sumTo (fun j => seedVal samples init_pct w.gridsize w.rng i j)
            w.gridsize) (i - 1))
          (w.rng + (i - 1) * w.gridsize) ∧
        Shaped g' (w.myrows + 2) (w.gridsize + 2) ∧
        ∀ x y, g'.get x y =
          if 1 ≤ x ∧ x < i ∧ 1 ≤ y ∧ y ≤ w.gridsize
          then seedVal samples init_pct w.gridsize w.rng x y else w.grid0.get x y)
      w.myrows 1 (w.seeded w.grid0 0 w.rng)
      ⟨w.grid0, by simp [sumTo], h0, fun x y => by
        have : ¬ (1 ≤ x ∧ x < 1 ∧ 1 ≤ y ∧ y ≤ w.gridsize) := by omega
        rw [if_neg this]⟩
      (by
        rintro i t hi1 hi2 ⟨g', rfl, hg', hget⟩
        obtain ⟨k, rfl⟩ : ∃ k, i = k + 1 := ⟨i - 1, by omega⟩
        obtain ⟨g'', hrow, hg'', hget'⟩ := row (k + 1) hi1 (by omega) g' _ hg'
        dsimp only
        refine ⟨_, hrow, g'', ?_, hg'', ?_⟩
        · have e : k + 1 + 1 - 1 = k + 1 := by omega
          rw [e, Nat.add_sub_cancel, sumTo_succ]
        · intro x y
          rw [hget', hget]
          by_cases hx : x = k + 1
          · subst hx
            by_cases hy : 1 ≤ y ∧ y ≤ w.gridsize
            · simp [hy]
            · have e2 : ¬ (k + 1 < k + 1 ∧ 1 ≤ y ∧ y ≤ w.gridsize) := by omega
              simp [hy, e2]
          · have e1 : (1 ≤ x ∧ x < k + 1 + 1 ∧ 1 ≤ y ∧ y ≤ w.gridsize) ↔
                (1 ≤ x ∧ x < k + 1 ∧ 1 ≤ y ∧ y ≤ w.gridsize) := by omega
            simp [hx, e1])
  refine ⟨g', ?_, hg', fun x y => ?_⟩
  · have e1 : 1 + w.myrows - 1 = w.myrows := by omega
    rw [e1] at hs'
    exact hs'
  · rw [hget]
    have e1 : (1 ≤ x ∧ x < 1 + w.myrows ∧ 1 ≤ y ∧ y ≤ w.gridsize) ↔
        (1 ≤ x ∧ x ≤ w.myrows ∧ 1 ≤ y ∧ y ≤ w.gridsize) := by omega
    simp only [e1]

end Seeding

section Startup

variable {α : Type} [LT α] [DecidableRel (fun (a b : α) => a < b)]

/-- State after allocation, clearing and seeding, in terms of the total accessors. -/
theorem startup_spec (numprocs mypid gridsize myrows : Nat)
    (garbage0 garbage1 : Nat → Nat → Int) (junk : Int) (samples : Nat → α) (init_pct : α) :
    ∃ w, startup numprocs mypid gridsize myrows garbage0 garbage1 junk samples init_pct
        = some w ∧
      w.WF ∧ w.numprocs = numprocs ∧ w.mypid = mypid ∧ w.gridsize = gridsize ∧
      w.myrows = myrows ∧ w.curr = 0 ∧ w.prev = 1 ∧
      (∀ x y, w.cur.get x y =
        if 1 ≤ x ∧ x ≤ myrows ∧ 1 ≤ y ∧ y ≤ gridsize
        then seedVal samples init_pct gridsize 0 x y else 0) ∧
      (∀ x y, w.prv.get x y = 0) ∧
      w.live_count = sumCells myrows gridsize (seedVal samples init_pct gridsize 0) ∧
      w.rng = myrows * gridsize := by
  obtain ⟨g0, g1, hz, s0, s1, z0, z1⟩ := zeroGrids_eq
    { numprocs := numprocs, mypid := mypid, gridsize := gridsize, myrows := myrows,
      grid0 := allocate (myrows + 2) (gridsize + 2) garbage0,
      grid1 := allocate (myrows + 2) (gridsize + 2) garbage1,
      curr := junk, prev := junk,
      live_count := junk, birth_count := junk, death_count := junk,
      global_live := junk, global_birth := junk, global_death := junk,
      rng := 0 } (allocate_shaped _ _ _) (allocate_shaped _ _ _)
  obtain ⟨g, hs, hg, hget⟩ := seed_eq samples init_pct
    { numprocs := numprocs, mypid := mypid, gridsize := gridsize, myrows := myrows,
      grid0 := g0, grid1 := g1, curr := junk, prev := junk,
      live_count := junk, birth_count := junk, death_count := junk,
      global_live := junk, global_birth := junk, global_death := junk,
      rng := 0 } s0
  have hst : startup numprocs mypid gridsize myrows garbage0 garbage1 junk samples init_pct =
      seed samples init_pct
        { numprocs := numprocs, mypid := mypid, gridsize := gridsize, myrows := myrows,
          grid0 := g0, grid1 := g1, curr := junk, prev := junk,
          live_count := junk, birth_count := junk, death_count := junk,
          global_live := junk, global_birth := junk, global_death := junk,
          rng := 0 } := by
    unfold startup
    simp only [hz]
  rw [hst, hs]
  refine ⟨_, rfl, ?_, ?_, ?_, ?_, ?_, ?_, ?_, ?_, ?_, ?_, ?_⟩
  · exact ⟨hg, s1, Or.inl ⟨rfl, rfl⟩⟩
  · rfl
  · rfl
  · rfl
  · rfl
  · rfl
  · rfl
  · intro x y
    have := hget x y
    simp only [z0] at this
    simpa [Worker.cur, Worker.seeded] using this
  · intro x y
    simpa [Worker.prv, Worker.seeded] using z1 x y
  · rfl
  · simp [Worker.seeded]

/-- C7. Startup always returns.  In the resulting state `curr = 0` and `prev = 1`; interior
cell `(i,j)` of the current grid is alive iff sample number `(i-1)*gridsize + j` (index
`(i-1)*gridsize + (j-1)` counted from 0) is below `init_pct`, and dead otherwise; exactly
`myrows*gridsize` samples have been drawn; every border cell of both grids is dead; every
cell of the other grid is dead; and `live_count` is the number of live interior cells. -/
theorem startup_seeds_grid (numprocs mypid gridsize myrows : Nat)
    (garbage0 garbage1 : Nat → Nat → Int) (junk : Int) (samples : Nat → α) (init_pct : α) :
    ∃ w, startup numprocs mypid gridsize myrows garbage0 garbage1 junk samples init_pct
        = some w ∧
      w.curr = 0 ∧ w.prev = 1 ∧ w.myrows = myrows ∧ w.gridsize = gridsize ∧
      (∀ i j, 1 ≤ i → i ≤ myrows → 1 ≤ j → j ≤ gridsize →
        (samples ((i - 1) * gridsize + (j - 1)) < init_pct → w.rd w.curr i j = some 1) ∧
        (¬ samples ((i - 1) * gridsize + (j - 1)) < init_pct → w.rd w.curr i j = some 0)) ∧
      w.rng = myrows * gridsize ∧
      (∀ i j, i ≤ myrows + 1 → j ≤ gridsize + 1 →
        (i = 0 ∨ i = myrows + 1 ∨ j = 0 ∨ j = gridsize + 1) →
        w.rd w.curr i j = some 0 ∧ w.rd w.prev i j = some 0) ∧
      (∀ i j, i ≤ myrows + 1 → j ≤ gridsize + 1 → w.rd w.prev i j = some 0) ∧
      w.live_count = countCells myrows gridsize (fun i j => w.rd w.curr i j = some 1) := by
  obtain ⟨w, hw, hwf, -, -, hgs, hmr, hc, hp, hcur, hprv, hl, hr⟩ :=
    startup_spec numprocs mypid gridsize myrows garbage0 garbage1 junk samples init_pct
  have rdc : ∀ i j, i ≤ myrows + 1 → j ≤ gridsize + 1 →
      w.rd w.curr i j = some (w.cur.get i j) := fun i j hi hj =>
    hwf.rd_curr (by omega) (by omega)
  have rdp : ∀ i j, i ≤ myrows + 1 → j ≤ gridsize + 1 → w.rd w.prev i j = some 0 :=
    fun i j hi hj => by rw [hwf.rd_prev (by omega) (by omega), hprv]
  refine ⟨w, hw, hc, hp, hmr, hgs, ?_, hr, ?_, rdp, ?_⟩
  · intro i j hi1 hi2 hj1 hj2
    have hin : 1 ≤ i ∧ i ≤ myrows ∧ 1 ≤ j ∧ j ≤ gridsize := ⟨hi1, hi2, hj1, hj2⟩
    rw [rdc i j (by omega) (by omega), hcur, if_pos hin]
    constructor
    · intro hs; simp [seedVal, hs]
    · intro hs; simp [seedVal, hs]
  · intro i j hi hj hb
    refine ⟨?_, rdp i j hi hj⟩
    have hout : ¬ (1 ≤ i ∧ i ≤ myrows ∧ 1 ≤ j ∧ j ≤ gridsize) := by omega
    rw [rdc i j hi hj, hcur, if_neg hout]
  · rw [hl, countCells_eq_sumCells]
    refine sumCells_congr (fun i j hi1 hi2 hj1 hj2 => ?_)
    have hin : 1 ≤ i ∧ i ≤ myrows ∧ 1 ≤ j ∧ j ≤ gridsize := ⟨hi1, hi2, hj1, hj2⟩
    rw [rdc i j (by omega) (by omega), hcur, if_pos hin]
    by_cases hs : samples (0 + (i - 1) * gridsize + (j - 1)) < init_pct <;> simp [seedVal, hs]

end Startup

/-! ## Halo exchange (C3) -/

theorem mapOpt_eq_map {α β : Type} (f : α → Option β) (g : α → β) :
    ∀ (l : List α), (∀ a ∈ l, f a = some (g a)) → mapOpt f l = some (l.map g)
  | [], _ => rfl
  | a :: as, h => by
    have h1 := h a (List.mem_cons_self _ _)
    have h2 := mapOpt_eq_map f g as (fun b hb => h b (List.mem_cons_of_mem _ hb))
    simp [mapOpt, h1, h2]

theorem WorldWF.at {P n m : Nat} {ws : List Worker} (h : WorldWF P n m ws) {r : Nat}
    {w : Worker} (hw : ws[r]? = some w) :
    w.numprocs = P ∧ w.mypid = r ∧ w.gridsize = n ∧ w.myrows = m ∧ w.WF :=
  h.2 (r, w) (List.mk_mem_enum_iff_getElem?.2 hw)

theorem WorldWF.lt {P n m : Nat} {ws : List Worker} (h : WorldWF P n m ws) {r : Nat}
    {w : Worker} (hw : ws[r]? = some w) : r < P := by
  rw [← h.1]
  exact (List.getElem?_eq_some.1 hw).1

theorem WorldWF.exists_at {P n m : Nat} {ws : List Worker} (h : WorldWF P n m ws) {r : Nat}
    (hr : r < P) : ∃ w, ws[r]? = some w := by
  have hlt : r < ws.length := by rw [h.1]; exact hr
  exact ⟨ws[r], List.getElem?_eq_getElem hlt⟩

theorem WorldWF.of_mem {P n m : Nat} {ws : List Worker} (h : WorldWF P n m ws) {w : Worker}
    (hw : w ∈ ws) : ∃ r, ws[r]? = some w ∧ r < P := by
  obtain ⟨r, hr, rfl⟩ := List.getElem_of_mem hw
  exact ⟨r, List.getElem?_eq_getElem _, by rw [← h.1]; exact hr⟩

theorem Worker.WF.sends_eq {w : Worker} (h : w.WF) (hm : 1 ≤ w.myrows) :
    sends w = some w.outbox := by
  have hs := h.shaped_prv
  obtain ⟨rowm, hrowm, hlenm⟩ := hs.row (i := w.myrows) (by omega)
  obtain ⟨row1, hrow1, hlen1⟩ := hs.row (i := 1) (by omega)
  have e1 : isend w w.myrows (w.gridsize + 2) (w.mypid + 1) 1 =
      some { src := w.mypid, dst := w.mypid + 1, tag := 1, data := rowm } := by
    simp [isend, h.sel_prev, hrowm, hlenm, List.take_of_length_le]
  have e2 : isend w 1 (w.gridsize + 2) (w.mypid - 1) 2 =
      some { src := w.mypid, dst := w.mypid - 1, tag := 2, data := row1 } := by
    simp [isend, h.sel_prev, hrow1, hlen1, List.take_of_length_le]
  unfold sends Worker.outbox
  rw [e1, e2, hrowm, hrow1]
  by_cases c1 : w.mypid < w.numprocs - 1 <;> by_cases c2 : w.mypid > 0 <;> simp [c1, c2]

theorem find_data (l : List Msg) (p : Msg → Bool) (d : List Int)
    (hex : ∃ x ∈ l, p x = true) (huniq : ∀ x ∈ l, p x = true → x.data = d) :
    ∃ x, l.find? p = some x ∧ x.data = d := by
  cases hf : l.find? p with
  | none =>
    obtain ⟨x, hx, hpx⟩ := hex
    exact absurd hpx (List.find?_eq_none.1 hf x hx)
  | some x => exact ⟨x, rfl, huniq x (List.mem_of_find?_eq_some hf) (List.find?_some hf)⟩

theorem mem_outbox {w : Worker} {x : Msg} (hx : x ∈ w.outbox) :
    x.src = w.mypid ∧
    ((x.tag = 1 ∧ x.dst = w.mypid + 1 ∧ x.data = w.prv[w.myrows]?.getD []) ∨
     (x.tag = 2 ∧ x.dst = w.mypid - 1 ∧ x.data = w.prv[1]?.getD [])) := by
  unfold Worker.outbox at hx
  rcases List.mem_append.1 hx with h | h
  · split at h
    · rw [List.mem_singleton] at h; subst h; exact ⟨rfl, Or.inl ⟨rfl, rfl, rfl⟩⟩
    · exact absurd h (List.not_mem_nil _)
  · split at h
    · rw [List.mem_singleton] at h; subst h; exact ⟨rfl, Or.inr ⟨rfl, rfl, rfl⟩⟩
    · exact absurd h (List.not_mem_nil _)

/-- The receive from the higher neighbour finds that neighbour's row 1. -/
theorem WorldWF.find_from_above {P n m : Nat} {ws : List Worker} (h : WorldWF P n m ws)
    {r : Nat} (hr : r + 1 < P) :
    ∃ x, (ws.map Worker.outbox).flatten.find?
        (fun x => decide (x.src = r + 1 ∧ x.dst = r ∧ x.tag = 2)) = some x ∧
      x.data = prevRow ws (r + 1) 1 := by
  obtain ⟨v, hv⟩ := h.exists_at hr
  obtain ⟨hvP, hvr, -, -, -⟩ := h.at hv
  have hrow : prevRow ws (r + 1) 1 = v.prv[1]?.getD [] := by simp [prevRow, hv]
  apply find_data
  · refine ⟨{ src := v.mypid, dst := v.mypid - 1, tag := 2, data := v.prv[1]?.getD [] },
      ?_, ?_⟩
    · refine List.mem_flatten.2 ⟨v.outbox, List.mem_map.2 ⟨v, List.getElem?_mem hv, rfl⟩, ?_⟩
      unfold Worker.outbox
      have : v.mypid > 0 := by omega
      simp [this]
    · simp [hvr]
  · intro x hx hpx
    obtain ⟨l, hl, hxl⟩ := List.mem_flatten.1 hx
    obtain ⟨u, hu, rfl⟩ := List.mem_map.1 hl
    obtain ⟨q, hq, -⟩ := h.of_mem hu
    obtain ⟨-, hur, -, -, -⟩ := h.at hq
    obtain ⟨hsrc, hcase⟩ := mem_outbox hxl
    simp only [decide_eq_true_eq] at hpx
    have hqr : q = r + 1 := by omega
    subst hqr
    have huv : u = v := by rw [hq] at hv; exact Option.some.inj hv
    subst huv
    rcases hcase with ⟨ht, -, -⟩ | ⟨-, -, hd⟩
    · omega
    · rw [hd, hrow]

/-- The receive from the lower neighbour finds that neighbour's last row. -/
theorem WorldWF.find_from_below {P n m : Nat} {ws : List Worker} (h : WorldWF P n m ws)
    {r : Nat} (hr : r + 1 < P) :
    ∃ x, (ws.map Worker.outbox).flatten.find?
        (fun x => decide (x.src = r ∧ x.dst = r + 1 ∧ x.tag = 1)) = some x ∧
      x.data = prevRow ws r m := by
  obtain ⟨v, hv⟩ := h.exists_at (show r < P by omega)
  obtain ⟨hvP, hvr, -, hvm, -⟩ := h.at hv
  have hrow : prevRow ws r m = v.prv[v.myrows]?.getD [] := by simp [prevRow, hv, hvm]
  apply find_data
  · refine ⟨{ src := v.mypid, dst := v.mypid + 1, tag := 1, data := v.prv[v.myrows]?.getD [] },
      ?_, ?_⟩
    · refine List.mem_flatten.2 ⟨v.outbox, List.mem_map.2 ⟨v, List.getElem?_mem hv, rfl⟩, ?_⟩
      unfold Worker.outbox
      have : v.mypid < v.numprocs - 1 := by omega
      simp [this]
    · simp [hvr]
  · intro x hx hpx
    obtain ⟨l, hl, hxl⟩ := List.mem_flatten.1 hx
    obtain ⟨u, hu, rfl⟩ := List.mem_map.1 hl
    obtain ⟨q, hq, -⟩ := h.of_mem hu
    obtain ⟨-, hur, -, -, -⟩ := h.at hq
    obtain ⟨hsrc, hcase⟩ := mem_outbox hxl
    simp only [decide_eq_true_eq] at hpx
    have hqr : q = r := by omega
    subst hqr
    have huv : u = v := by rw [hq] at hv; exact Option.some.inj hv
    subst huv
    rcases hcase with ⟨-, -, hd⟩ | ⟨ht, -, -⟩
    · rw [hd, hrow]
    · omega

theorem Worker.setPrv_prv (w : Worker) (g : Grid) : (w.setPrv g).prv = g := by
  by_cases hp : w.prev = 0 <;> simp [Worker.setPrv, Worker.prv, hp]

theorem Worker.WF.setPrv_cur {w : Worker} (h : w.WF) (g : Grid) : (w.setPrv g).cur = w.cur := by
  rcases h.2.2 with ⟨hc, hp⟩ | ⟨hc, hp⟩ <;> simp [Worker.setPrv, Worker.cur, hc, hp]

theorem Worker.setPrv_fields (w : Worker) (g : Grid) :
    (w.setPrv g).numprocs = w.numprocs ∧ (w.setPrv g).mypid = w.mypid ∧
    (w.setPrv g).gridsize = w.gridsize ∧ (w.setPrv g).myrows = w.myrows ∧
    (w.setPrv g).curr = w.curr ∧ (w.setPrv g).prev = w.prev ∧
    (w.setPrv g).live_count = w.live_count ∧ (w.setPrv g).birth_count = w.birth_count ∧
    (w.setPrv g).death_count = w.death_count ∧ (w.setPrv g).global_live = w.global_live ∧
    (w.setPrv g).global_birth = w.global_birth ∧
    (w.setPrv g).global_death = w.global_death ∧ (w.setPrv g).rng = w.rng := by
  by_cases hp : w.prev = 0 <;> simp [Worker.setPrv, hp]

theorem Worker.setPrv_setPrv (w : Worker) (g g' : Grid) :
    (w.setPrv g).setPrv g' = w.setPrv g' := by
  by_cases hp : w.prev = 0 <;> simp [Worker.setPrv, hp]

theorem Worker.setPrv_self (w : Worker) : w.setPrv w.prv = w := by
  obtain ⟨np, pid, gs, mr, g0, g1, c, p, lc, bc, dc, gl, gb, gd, r⟩ := w
  by_cases hp : p = 0 <;> simp [Worker.setPrv, Worker.prv, hp]

theorem Worker.WF.setPrv {w : Worker} (h : w.WF) {g : Grid}
    (hg : Shaped g (w.myrows + 2) (w.gridsize + 2)) : (w.setPrv g).WF := by
  rcases h.2.2 with ⟨hc, hp⟩ | ⟨hc, hp⟩
  · exact ⟨by simpa [Worker.setPrv, hp] using h.1, by simpa [Worker.setPrv, hp] using hg,
      by simp [Worker.setPrv, hc, hp]⟩
  · exact ⟨by simpa [Worker.setPrv, hp] using hg, by simpa [Worker.setPrv, hp] using h.2.1,
      by simp [Worker.setPrv, hc, hp]⟩

theorem Shaped.setRow {g : Grid} {R C : Nat} (h : Shaped g R C) (i : Nat) {d : Row}
    (hd : d.length = C) : Shaped (g.set i d) R C := by
  refine ⟨by simp [h.1], fun row hrow => ?_⟩
  rcases List.mem_or_eq_of_mem_set hrow with hmem | heq
  · exact h.2 row hmem
  · rw [heq]; exact hd

theorem Shaped.get_setRow {g : Grid} {R C : Nat} (h : Shaped g R C) {i : Nat} (hi : i < R)
    (d : Row) (x y : Nat) :
    Grid.get (g.set i d) x y = if x = i then d[y]?.getD 0 else g.get x y := by
  have hi' : i < g.length := by rw [h.1]; exact hi
  unfold Grid.get
  by_cases hx : x = i
  · subst hx
    simp [List.getElem?_set, hi']
  · have hx' : ¬ i = x := fun e => hx e.symm
    simp [List.getElem?_set, hx, hx']

theorem Worker.WF.irecv_eq {w : Worker} (h : w.WF) {i : Nat} (hi : i < w.myrows + 2)
    (net : List Msg) (src tag : Nat) (x : Msg)
    (hfind : net.find? (fun x => decide (x.src = src ∧ x.dst = w.mypid ∧ x.tag = tag)) = some x)
    (hlen : x.data.length = w.gridsize + 2) :
    irecv net w i (w.gridsize + 2) src tag = some (w.setPrv (w.prv.set i x.data)) := by
  obtain ⟨row, hrow, hrlen⟩ := h.shaped_prv.row hi
  unfold irecv
  rw [hfind]
  simp [hlen, h.sel_prev, hrow, hrlen, h.store_prev, List.drop_of_length_le]

theorem WorldWF.prevRow_length {P n m : Nat} {ws : List Worker} (h : WorldWF P n m ws)
    {r i : Nat} (hr : r < P) (hi : i < m + 2) : (prevRow ws r i).length = n + 2 := by
  obtain ⟨v, hv⟩ := h.exists_at hr
  obtain ⟨-, -, hvn, hvm, hvwf⟩ := h.at hv
  obtain ⟨row, hrow, hrlen⟩ := hvwf.shaped_prv.row (i := i) (by omega)
  simp [prevRow, hv, hrow, hrlen, hvn]

/-- Completing the receives of the worker of rank `r`. -/
theorem WorldWF.recvs_eq {P n m : Nat} {ws : List Worker} (h : WorldWF P n m ws)
    {r : Nat} {w : Worker} (hw : ws[r]? = some w) :
    recvs (ws.map Worker.outbox).flatten w = some (w.setPrv (haloPrv ws w)) := by
  obtain ⟨hP, hr, hn, hm, hwf⟩ := h.at hw
  have hrP := h.lt hw
  unfold recvs haloPrv
  by_cases c1 : w.mypid < w.numprocs - 1
  · have hr1 : r + 1 < P := by omega
    obtain ⟨x, hx, hxd⟩ := h.find_from_above hr1
    have hxlen : x.data.length = w.gridsize + 2 := by
      rw [hxd, h.prevRow_length hr1 (by omega), hn]
    have e1 : irecv (ws.map Worker.outbox).flatten w (w.myrows + 1) (w.gridsize + 2)
        (w.mypid + 1) 2 = some (w.setPrv (w.prv.set (w.myrows + 1) x.data)) :=
      hwf.irecv_eq (by omega) _ _ _ x (by rw [hr]; exact hx) hxlen
    have hwf1 : (w.setPrv (w.prv.set (w.myrows + 1) x.data)).WF :=
      hwf.setPrv (hwf.shaped_prv.setRow _ hxlen)
    obtain ⟨f1, f2, f3, f4, -⟩ := Worker.setPrv_fields w (w.prv.set (w.myrows + 1) x.data)
    simp only [c1, if_true, e1, f2]
    by_cases c2 : w.mypid > 0
    · obtain ⟨k, hk⟩ : ∃ k, r = k + 1 := ⟨r - 1, by omega⟩
      obtain ⟨z, hz, hzd⟩ := h.find_from_below (r := k) (by omega)
      have hzlen : z.data.length = w.gridsize + 2 := by
        rw [hzd, h.prevRow_length (by omega) (by omega), hn]
      have e2 := hwf1.irecv_eq (i := 0) (by omega) (ws.map Worker.outbox).flatten
        (w.mypid - 1) 1 z
        (by rw [f2, hr, hk]; exact hz) (by rw [f3]; exact hzlen)
      simp only [c2, if_true, e2, Worker.setPrv_setPrv, Worker.setPrv_prv]
      rw [hxd, hzd, hr, hk, hm]
      rfl
    · simp only [c2, if_false]
      rw [hxd, hr]
  · simp only [c1, if_false]
    by_cases c2 : w.mypid > 0
    · obtain ⟨k, hk⟩ : ∃ k, r = k + 1 := ⟨r - 1, by omega⟩
      obtain ⟨z, hz, hzd⟩ := h.find_from_below (r := k) (by omega)
      have hzlen : z.data.length = w.gridsize + 2 := by
        rw [hzd, h.prevRow_length (by omega) (by omega), hn]
      have e2 := hwf.irecv_eq (i := 0) (by omega) (ws.map Worker.outbox).flatten
        (w.mypid - 1) 1 z
        (by rw [hr, hk]; exact hz) hzlen
      simp only [c2, if_true, e2]
      rw [hzd, hr, hk, hm]
      rfl
    · simp only [c2, if_false, Worker.setPrv_self]

/-- The exchange completes, and replaces each previous grid by `haloPrv`. -/
theorem WorldWF.exchange_eq {P n m : Nat} {ws : List Worker} (h : WorldWF P n m ws)
    (hm : 1 ≤ m) : exchange ws = some (ws.map (fun w => w.setPrv (haloPrv ws w))) := by
  have hs : mapOpt sends ws = some (ws.map Worker.outbox) := by
    apply mapOpt_eq_map
    intro w hw
    obtain ⟨r, hr, -⟩ := h.of_mem hw
    obtain ⟨-, -, -, hwm, hwf⟩ := h.at hr
    exact hwf.sends_eq (by omega)
  unfold exchange
  rw [hs]
  apply mapOpt_eq_map
  intro w hw
  obtain ⟨r, hr, -⟩ := h.of_mem hw
  exact h.recvs_eq hr

theorem prevRow_get {ws : List Worker} {q : Nat} {v : Worker} (hv : ws[q]? = some v)
    (i y : Nat) : (prevRow ws q i)[y]?.getD 0 = v.prv.get i y := by
  simp [prevRow, hv, Grid.get]

/-- Cells of the previous grid after the exchange. -/
theorem WorldWF.haloPrv_spec {P n m : Nat} {ws : List Worker} (h : WorldWF P n m ws)
    {r : Nat} {w : Worker} (hw : ws[r]? = some w) :
    Shaped (haloPrv ws w) (m + 2) (n + 2) ∧
    ∀ x y, (haloPrv ws w).get x y =
      if x = 0 ∧ 0 < r then (prevRow ws (r - 1) m)[y]?.getD 0
      else if x = m + 1 ∧ r + 1 < P then (prevRow ws (r + 1) 1)[y]?.getD 0
      else w.prv.get x y := by
  obtain ⟨hP, hr, hn, hm, hwf⟩ := h.at hw
  have hrP := h.lt hw
  have hs : Shaped w.prv (m + 2) (n + 2) := by
    have := hwf.shaped_prv
    rwa [hm, hn] at this
  unfold haloPrv
  rw [hP, hr, hm]
  by_cases c1 : r < P - 1
  · have hl1 : (prevRow ws (r + 1) 1).length = n + 2 :=
      h.prevRow_length (by omega) (by omega)
    have hs1 := hs.setRow (m + 1) hl1
    by_cases c2 : r > 0
    · have hl2 : (prevRow ws (r - 1) m).length = n + 2 :=
        h.prevRow_length (by omega) (by omega)
      simp only [c1, c2, if_true]
      refine ⟨hs1.setRow 0 hl2, fun x y => ?_⟩
      rw [hs1.get_setRow (by omega), hs.get_setRow (by omega)]
      by_cases hx0 : x = 0
      · simp [hx0, c2]
      · have e1 : r + 1 < P := by omega
        simp [hx0, e1]
    · simp only [c1, c2, if_true, if_false]
      refine ⟨hs1, fun x y => ?_⟩
      rw [hs.get_setRow (by omega)]
      have e0 : ¬ (x = 0 ∧ 0 < r) := by omega
      have e1 : r + 1 < P := by omega
      simp [e0, e1]
  · by_cases c2 : r > 0
    · have hl2 : (prevRow ws (r - 1) m).length = n + 2 :=
        h.prevRow_length (by omega) (by omega)
      simp only [c1, c2, if_true, if_false]
      refine ⟨hs.setRow 0 hl2, fun x y => ?_⟩
      rw [hs.get_setRow (by omega)]
      have e1 : ¬ (x = m + 1 ∧ r + 1 < P) := by omega
      by_cases hx0 : x = 0
      · simp [hx0, c2]
      · simp [hx0, e1]
    · simp only [c1, c2, if_false]
      refine ⟨hs, fun x y => ?_⟩
      have e1 : ¬ (x = m + 1 ∧ r + 1 < P) := by omega
      simp [e1]

/-- Summary of the exchange on a well-formed world, in terms of the total accessors. -/
theorem WorldWF.exchange_spec {P n m : Nat} {ws : List Worker} (h : WorldWF P n m ws)
    (hm : 1 ≤ m) :
    ∃ ws', exchange ws = some ws' ∧ WorldWF P n m ws' ∧
      ∀ r w, ws[r]? = some w → ∃ w', ws'[r]? = some w' ∧
        w' = w.setPrv (haloPrv ws w) ∧ w'.cur = w.cur ∧
        (∀ x y, w'.prv.get x y =
          if x = 0 ∧ 0 < r then (prevRow ws (r - 1) m)[y]?.getD 0
          else if x = m + 1 ∧ r + 1 < P then (prevRow ws (r + 1) 1)[y]?.getD 0
          else w.prv.get x y) := by
  refine ⟨_, h.exchange_eq hm, ⟨by simp [h.1], ?_⟩, ?_⟩
  · rintro ⟨r, w'⟩ hmem
    have hget := List.mk_mem_enum_iff_getElem?.1 hmem
    rw [List.getElem?_map] at hget
    cases hw : ws[r]? with
    | none => rw [hw] at hget; exact absurd hget (by simp)
    | some w =>
      rw [hw] at hget
      simp only [Option.map_some', Option.some.injEq] at hget
      subst hget
      obtain ⟨hP, hr, hn, hm', hwf⟩ := h.at hw
      obtain ⟨f1, f2, f3, f4, -⟩ := Worker.setPrv_fields w (haloPrv ws w)
      refine ⟨by rw [f1, hP], by rw [f2, hr], by rw [f3, hn], by rw [f4, hm'], ?_⟩
      apply hwf.setPrv
      rw [hm', hn]
      exact (h.haloPrv_spec hw).1
  · intro r w hw
    obtain ⟨-, -, -, -, hwf⟩ := h.at hw
    refine ⟨_, by rw [List.getElem?_map, hw]; rfl, rfl, hwf.setPrv_cur _, ?_⟩
    rw [Worker.setPrv_prv]
    exact (h.haloPrv_spec hw).2

/-- C3. On a well-formed world with at least one row per worker the halo exchange returns.
Afterwards, for the worker of every rank `r`: if `r > 0`, all `gridsize+2` cells of ghost
row 0 of its previous grid equal row `myrows` of the previous grid of rank `r-1`; if
`r < P-1`, all cells of ghost row `myrows+1` equal row 1 of the previous grid of rank `r+1`;
a ghost row on a side without neighbour is unchanged; rows `1..myrows` of the previous grid,
the whole current grid and the roles `curr`, `prev` are unchanged. -/
theorem exchange_fills_ghost_rows (P n m : Nat) (ws : List Worker) (hws : WorldWF P n m ws)
    (hm : 1 ≤ m) :
    ∃ ws', exchange ws = some ws' ∧ ws'.length = P ∧
      ∀ r w, ws[r]? = some w → ∃ w', ws'[r]? = some w' ∧
        (∀ v, 0 < r → ws[r - 1]? = some v → ∀ j, j ≤ n + 1 →
          w'.rd w'.prev 0 j = v.rd v.prev m j) ∧
        (∀ v, r + 1 < P → ws[r + 1]? = some v → ∀ j, j ≤ n + 1 →
          w'.rd w'.prev (m + 1) j = v.rd v.prev 1 j) ∧
        (r = 0 → ∀ j, j ≤ n + 1 → w'.rd w'.prev 0 j = w.rd w.prev 0 j) ∧
        (r + 1 = P → ∀ j, j ≤ n + 1 → w'.rd w'.prev (m + 1) j = w.rd w.prev (m + 1) j) ∧
        (∀ i j, 1 ≤ i → i ≤ m → j ≤ n + 1 → w'.rd w'.prev i j = w.rd w.prev i j) ∧
        w'.sel w'.curr = w.sel w.curr ∧ w'.curr = w.curr ∧ w'.prev = w.prev := by
  obtain ⟨ws', hex, hwf', hall⟩ := hws.exchange_spec hm
  refine ⟨ws', hex, hwf'.1, fun r w hw => ?_⟩
  obtain ⟨w', hw', heq, hcur, hget⟩ := hall r w hw
  obtain ⟨-, -, hn, hmr, hwf⟩ := hws.at hw
  obtain ⟨-, -, hn', hmr', hwfw'⟩ := hwf'.at hw'
  have rdw : ∀ i j, i ≤ m + 1 → j ≤ n + 1 → w.rd w.prev i j = some (w.prv.get i j) :=
    fun i j hi hj => hwf.rd_prev (by omega) (by omega)
  have rdw' : ∀ i j, i ≤ m + 1 → j ≤ n + 1 → w'.rd w'.prev i j = some (w'.prv.get i j) :=
    fun i j hi hj => hwfw'.rd_prev (by omega) (by omega)
  obtain ⟨-, -, -, -, fc, fp, -⟩ := Worker.setPrv_fields w (haloPrv ws w)
  refine ⟨w', hw', ?_, ?_, ?_, ?_, ?_, ?_, by rw [heq, fc], by rw [heq, fp]⟩
  · intro v hr hv j hj
    obtain ⟨-, -, hvn, hvm, hvwf⟩ := hws.at hv
    rw [rdw' 0 j (by omega) hj, hvwf.rd_prev (by omega) (by omega), hget,
      if_pos ⟨rfl, hr⟩, prevRow_get hv]
  · intro v hr hv j hj
    obtain ⟨-, -, hvn, hvm, hvwf⟩ := hws.at hv
    have e0 : ¬ (m + 1 = 0 ∧ 0 < r) := by omega
    rw [rdw' (m + 1) j (by omega) hj, hvwf.rd_prev (by omega) (by omega), hget,
      if_neg e0, if_pos ⟨rfl, hr⟩, prevRow_get hv]
  · intro hr j hj
    have e0 : ¬ ((0 : Nat) = 0 ∧ 0 < r) := by omega
    have e1 : ¬ ((0 : Nat) = m + 1 ∧ r + 1 < P) := by omega
    rw [rdw' 0 j (by omega) hj, rdw 0 j (by omega) hj, hget, if_neg e0, if_neg e1]
  · intro hr j hj
    have e0 : ¬ (m + 1 = 0 ∧ 0 < r) := by omega
    have e1 : ¬ (m + 1 = m + 1 ∧ r + 1 < P) := by omega
    rw [rdw' (m + 1) j (by omega) hj, rdw (m + 1) j (by omega) hj, hget, if_neg e0,
      if_neg e1]
  · intro i j hi1 hi2 hj
    have e0 : ¬ (i = 0 ∧ 0 < r) := by omega
    have e1 : ¬ (i = m + 1 ∧ r + 1 < P) := by omega
    rw [rdw' i j (by omega) hj, rdw i j (by omega) hj, hget, if_neg e0, if_neg e1]
  · rw [hwfw'.sel_curr, hwf.sel_curr, hcur]

theorem exchange_fills_ghost_rows_witness :
    WorldWF 2 2 1 exampleWorld ∧ 1 ≤ 1 ∧
    ∃ ws', exchange exampleWorld = some ws' ∧ ws'.length = 2 ∧
      ∀ r w, exampleWorld[r]? = some w → ∃ w', ws'[r]? = some w' ∧
        (∀ v, 0 < r → exampleWorld[r - 1]? = some v → ∀ j, j ≤ 2 + 1 →
          w'.rd w'.prev 0 j = v.rd v.prev 1 j) ∧
        (∀ v, r + 1 < 2 → exampleWorld[r + 1]? = some v → ∀ j, j ≤ 2 + 1 →
          w'.rd w'.prev (1 + 1) j = v.rd v.prev 1 j) ∧
        (r = 0 → ∀ j, j ≤ 2 + 1 → w'.rd w'.prev 0 j = w.rd w.prev 0 j) ∧
        (r + 1 = 2 → ∀ j, j ≤ 2 + 1 → w'.rd w'.prev (1 + 1) j = w.rd w.prev (1 + 1) j) ∧
        (∀ i j, 1 ≤ i → i ≤ 1 → j ≤ 2 + 1 → w'.rd w'.prev i j = w.rd w.prev i j) ∧
        w'.sel w'.curr = w.sel w.curr ∧ w'.curr = w.curr ∧ w'.prev = w.prev :=
  ⟨by decide, by decide, exchange_fills_ghost_rows 2 2 1 exampleWorld (by decide) (by decide)⟩

/-! ## Reference semantics -/

theorem mask_masked (n : Nat) (G : Nat → Nat → Int) : Masked n (mask n G) := by
  intro i j h
  simp only [mask, if_neg h]

theorem mask_inside {n : Nat} (G : Nat → Nat → Int) {i j : Nat}
    (h : 1 ≤ i ∧ i ≤ n ∧ 1 ≤ j ∧ j ≤ n) : mask n G i j = G i j := by
  simp only [mask, if_pos h]

theorem life_masked (n : Nat) (G : Nat → Nat → Int) : Masked n (life n G) :=
  mask_masked n _

theorem iterate_life_masked (n : Nat) (G : Nat → Nat → Int) (hG : Masked n G) (k : Nat) :
    Masked n ((life n)^[k] G) := by
  cases k with
  | zero => exact hG
  | succ k =>
    rw [Function.iterate_succ_apply']
    exact life_masked n _

theorem cellOf_masked (n : Nat) (G : Nat → Nat → Bool) : Masked n (cellOf n G) :=
  mask_masked n _

theorem cellOf_binary (n : Nat) (G : Nat → Nat → Bool) (i j : Nat) :
    cellOf n G i j = 0 ∨ cellOf n G i j = 1 := by
  unfold cellOf mask
  split
  · by_cases h : G i j = true
    · right; simp [h]
    · left; simp [h]
  · left; rfl

theorem nextF_binary {G : Nat → Nat → Int} {i j : Nat} (hv : G i j = 0 ∨ G i j = 1) :
    nextF G i j = 0 ∨ nextF G i j = 1 := by
  unfold nextF
  split
  · exact hv
  · split
    · right; rfl
    · left; rfl

theorem life_binary (n : Nat) {G : Nat → Nat → Int} (hG : ∀ i j, G i j = 0 ∨ G i j = 1)
    (i j : Nat) : life n G i j = 0 ∨ life n G i j = 1 := by
  unfold life mask
  split
  · exact nextF_binary (hG i j)
  · left; rfl

theorem iterate_life_binary (n : Nat) {G : Nat → Nat → Int}
    (hG : ∀ i j, G i j = 0 ∨ G i j = 1) (k : Nat) :
    ∀ i j, (life n)^[k] G i j = 0 ∨ (life n)^[k] G i j = 1 := by
  induction k with
  | zero => exact hG
  | succ k ih =>
    intro i j
    rw [Function.iterate_succ_apply']
    exact life_binary n ih i j

theorem nextF_balance {G : Nat → Nat → Int} {i j : Nat} (hv : G i j = 0 ∨ G i j = 1) :
    nextF G i j = G i j - diedF G i j + bornF G i j := by
  unfold diedF bornF nextF
  by_cases c2 : nsumF G i j = 2
  · rcases hv with p | p <;> simp [c2, p]
  · by_cases c3 : nsumF G i j = 3 <;> rcases hv with p | p <;> simp [c2, c3, p]

theorem bornF_diedF_of_fixed {G : Nat → Nat → Int} {i j : Nat}
    (hv : G i j = 0 ∨ G i j = 1) (hfix : nextF G i j = G i j) :
    bornF G i j = 0 ∧ diedF G i j = 0 := by
  unfold nextF at hfix
  unfold diedF bornF
  by_cases c2 : nsumF G i j = 2
  · rcases hv with p | p <;> simp [c2, p]
  · by_cases c3 : nsumF G i j = 3 <;> rcases hv with p | p <;> simp_all

/-- The neighbour sum of a grid that agrees with `G` around `(x,y)`. -/
theorem Grid.nsum_eq_nsumF {g : Grid} {G : Nat → Nat → Int} {off x y : Nat} (hx : 1 ≤ x)
    (h : ∀ a b, x - 1 ≤ a → a ≤ x + 1 → g.get a b = G (off + a) b) :
    g.nsum x y = nsumF G (off + x) y := by
  unfold Grid.nsum nsumF
  have e1 : off + x - 1 = off + (x - 1) := by omega
  have e2 : off + x + 1 = off + (x + 1) := by omega
  rw [e1, e2, h (x - 1) _ (by omega) (by omega), h (x - 1) _ (by omega) (by omega),
    h (x - 1) _ (by omega) (by omega), h x _ (by omega) (by omega),
    h x _ (by omega) (by omega), h (x + 1) _ (by omega) (by omega),
    h (x + 1) _ (by omega) (by omega), h (x + 1) _ (by omega) (by omega)]

theorem Grid.next_eq_nextF {g : Grid} {G : Nat → Nat → Int} {off x y : Nat} (hx : 1 ≤ x)
    (h : ∀ a b, x - 1 ≤ a → a ≤ x + 1 → g.get a b = G (off + a) b) :
    g.next x y = nextF G (off + x) y := by
  unfold Grid.next nextF
  rw [Grid.nsum_eq_nsumF hx h, h x y (by omega) (by omega)]

theorem Grid.born_eq_bornF {g : Grid} {G : Nat → Nat → Int} {off x y : Nat} (hx : 1 ≤ x)
    (h : ∀ a b, x - 1 ≤ a → a ≤ x + 1 → g.get a b = G (off + a) b) :
    g.born x y = bornF G (off + x) y := by
  unfold Grid.born bornF
  rw [Grid.nsum_eq_nsumF hx h, h x y (by omega) (by omega)]

theorem Grid.died_eq_diedF {g : Grid} {G : Nat → Nat → Int} {off x y : Nat} (hx : 1 ≤ x)
    (h : ∀ a b, x - 1 ≤ a → a ≤ x + 1 → g.get a b = G (off + a) b) :
    g.died x y = diedF G (off + x) y := by
  unfold Grid.died diedF
  rw [Grid.nsum_eq_nsumF hx h, h x y (by omega) (by omega)]

/-! ## Lists of workers -/

theorem mapOpt_spec {α β : Type} (f : α → Option β) :
    ∀ (l : List α), (∀ a ∈ l, ∃ b, f a = some b) →
      ∃ bs, mapOpt f l = some bs ∧ bs.length = l.length ∧
        ∀ (i : Nat) (a : α), l[i]? = some a → ∃ b, bs[i]? = some b ∧ f a = some b
  | [], _ => ⟨[], rfl, rfl, fun i a h => by simp at h⟩
  | a :: as, h => by
    obtain ⟨b, hb⟩ := h a (List.mem_cons_self _ _)
    obtain ⟨bs, hbs, hlen, hall⟩ :=
      mapOpt_spec f as (fun c hc => h c (List.mem_cons_of_mem _ hc))
    refine ⟨b :: bs, by simp [mapOpt, hb, hbs], by simp [hlen], fun i c hc => ?_⟩
    cases i with
    | zero =>
      simp only [List.getElem?_cons_zero, Option.some.injEq] at hc
      subst hc
      exact ⟨b, by simp, hb⟩
    | succ i =>
      simp only [List.getElem?_cons_succ] at hc
      simpa using hall i c hc

theorem WorldWF.of_forall {P n m : Nat} {ws : List Worker} (hlen : ws.length = P)
    (h : ∀ (r : Nat) (w : Worker), ws[r]? = some w →
      w.numprocs = P ∧ w.mypid = r ∧ w.gridsize = n ∧ w.myrows = m ∧ w.WF) :
    WorldWF P n m ws :=
  ⟨hlen, fun p hp => h p.1 p.2 (List.mem_enum_iff_getElem?.1 hp)⟩

/-! ## Swapping the roles -/

theorem Worker.WF.swap {w : Worker} (h : w.WF) : (MpiLife.swap w).WF := by
  refine ⟨h.1, h.2.1, ?_⟩
  rcases h.2.2 with ⟨hc, hp⟩ | ⟨hc, hp⟩
  · right; simp [MpiLife.swap, hc, hp]
  · left; simp [MpiLife.swap, hc, hp]

theorem Worker.WF.swap_cur {w : Worker} (h : w.WF) : (MpiLife.swap w).cur = w.prv := by
  rcases h.2.2 with ⟨hc, hp⟩ | ⟨hc, hp⟩ <;>
    simp [MpiLife.swap, Worker.cur, Worker.prv, hc, hp]

theorem Worker.WF.swap_prv {w : Worker} (h : w.WF) : (MpiLife.swap w).prv = w.cur := by
  rcases h.2.2 with ⟨hc, hp⟩ | ⟨hc, hp⟩ <;>
    simp [MpiLife.swap, Worker.cur, Worker.prv, hc, hp]

theorem WorldWF.map_swap {P n m : Nat} {ws : List Worker} (h : WorldWF P n m ws) :
    WorldWF P n m (ws.map swap) := by
  apply WorldWF.of_forall (by simp [h.1])
  intro r w hw
  rw [List.getElem?_map] at hw
  cases hv : ws[r]? with
  | none => rw [hv] at hw; exact absurd hw (by simp)
  | some v =>
    rw [hv] at hw
    simp only [Option.map_some', Option.some.injEq] at hw
    subst hw
    obtain ⟨hP, hr, hn, hm, hwf⟩ := h.at hv
    exact ⟨hP, hr, hn, hm, hwf.swap⟩

/-! ## The invariant of the main loop -/

theorem block_le {P m r x : Nat} (hr : r < P) (hx : x ≤ m) : r * m + x ≤ P * m := by
  have h1 : (r + 1) * m ≤ P * m := Nat.mul_le_mul_right m hr
  rw [Nat.succ_mul] at h1
  omega

theorem Worker.WF.get_zero_oob {w : Worker} (h : w.WF) {x y : Nat}
    (hxy : ¬ (x ≤ w.myrows + 1 ∧ y ≤ w.gridsize + 1)) :
    w.cur.get x y = 0 ∧ w.prv.get x y = 0 :=
  ⟨Grid.get_oob h.shaped_cur (by omega), Grid.get_oob h.shaped_prv (by omega)⟩

/-- The world right after startup satisfies the invariant for the initial pattern. -/
theorem InitialWorld.inv {P n m : Nat} {G : Nat → Nat → Bool} {ws : List Worker}
    (h : InitialWorld P n m G ws) (hdiv : P * m = n) : WorldInv P n m (cellOf n G) ws := by
  refine ⟨h.1, fun r w hw => ?_⟩
  obtain ⟨hP, hr, hn, hm, hwf⟩ := h.1.at hw
  have hrP := h.1.lt hw
  obtain ⟨hc, hp, hcells, hlive⟩ := h.2 (r, w) (List.mk_mem_enum_iff_getElem?.2 hw)
  simp only at hc hp hcells hlive
  rw [hm, hn] at hcells hlive
  have hcur : ∀ x y, x ≤ m + 1 → y ≤ n + 1 → w.cur.get x y =
      if 1 ≤ x ∧ x ≤ m ∧ 1 ≤ y ∧ y ≤ n ∧ G (r * m + x) y = true then 1 else 0 := by
    intro x y hx hy
    have h1 := (hcells x hx y hy).2
    have h2 := hwf.rd_curr (i := x) (j := y) (by omega) (by omega)
    rw [hc, h1] at h2
    exact (Option.some.inj h2).symm
  have hprv : ∀ x y, w.prv.get x y = 0 := by
    intro x y
    by_cases hxy : x ≤ m + 1 ∧ y ≤ n + 1
    · have h1 := (hcells x hxy.1 y hxy.2).1
      have h2 := hwf.rd_prev (i := x) (j := y) (by omega) (by omega)
      rw [hp, h1] at h2
      exact (Option.some.inj h2).symm
    · exact (hwf.get_zero_oob (by rw [hm, hn]; exact hxy)).2
  have hcur0 : ∀ x y, ¬ (1 ≤ x ∧ x ≤ m ∧ 1 ≤ y ∧ y ≤ n) → w.cur.get x y = 0 := by
    intro x y hout
    by_cases hxy : x ≤ m + 1 ∧ y ≤ n + 1
    · rw [hcur x y hxy.1 hxy.2]
      have : ¬ (1 ≤ x ∧ x ≤ m ∧ 1 ≤ y ∧ y ≤ n ∧ G (r * m + x) y = true) :=
        fun hh => hout ⟨hh.1, hh.2.1, hh.2.2.1, hh.2.2.2.1⟩
      rw [if_neg this]
    · exact (hwf.get_zero_oob (by rw [hm, hn]; exact hxy)).1
  have hinside : ∀ x y, 1 ≤ x → x ≤ m → 1 ≤ y → y ≤ n →
      cellOf n G (r * m + x) y = if G (r * m + x) y = true then 1 else 0 := by
    intro x y hx1 hx2 hy1 hy2
    have := block_le hrP hx2
    exact mask_inside _ ⟨by omega, by omega, hy1, hy2⟩
  refine ⟨fun x y hx1 hx2 hy1 hy2 => ?_, fun x => ?_, fun _ y => ?_, fun _ y => ?_, ?_⟩
  · rw [hcur x y (by omega) (by omega), hinside x y hx1 hx2 hy1 hy2]
    by_cases hg : G (r * m + x) y = true
    · simp [hg, hx1, hx2, hy1, hy2]
    · simp [hg]
  · exact ⟨hcur0 x 0 (by omega), hcur0 x (n + 1) (by omega), hprv x 0, hprv x (n + 1)⟩
  · exact ⟨hcur0 0 y (by omega), hprv 0 y⟩
  · exact ⟨hcur0 (m + 1) y (by omega), hprv (m + 1) y⟩
  · rw [hlive]
    exact sumCells_congr (fun x y hx1 hx2 hy1 hy2 => (hinside x y hx1 hx2 hy1 hy2).symm)

/-- State of every worker between the exchange and the compute step: the whole previous
grid, ghost rows and borders included, shows the matching part of `G`. -/
theorem WorldInv.pre_compute {P n m : Nat} {G : Nat → Nat → Int} {ws : List Worker}
    (h : WorldInv P n m G ws) (hG : Masked n G) (hdiv : P * m = n) (hm : 1 ≤ m) :
    ∃ ws1, exchange (ws.map swap) = some ws1 ∧ WorldWF P n m ws1 ∧
      ∀ r w, ws[r]? = some w → ∃ w1, ws1[r]? = some w1 ∧
        w1.cur = w.prv ∧ w1.live_count = w.live_count ∧
        ∀ x y, x ≤ m + 1 → w1.prv.get x y = G (r * m + x) y := by
  obtain ⟨ws1, hex, hwf1, hall⟩ := h.1.map_swap.exchange_spec hm
  refine ⟨ws1, hex, hwf1, fun r w hw => ?_⟩
  have hsw : (ws.map swap)[r]? = some (swap w) := by rw [List.getElem?_map, hw]; rfl
  obtain ⟨w1, hw1, heq, hcur, hget⟩ := hall r (swap w) hsw
  obtain ⟨hP, hr, hn, hmr, hwf⟩ := h.1.at hw
  have hrP := h.1.lt hw
  -- the current grid of any worker, as a part of `G`
  have whole : ∀ q v, ws[q]? = some v → ∀ x y, 1 ≤ x → x ≤ m →
      v.cur.get x y = G (q * m + x) y := by
    intro q v hv x y hx1 hx2
    obtain ⟨hint, hcol, -, -, -⟩ := h.2 q v hv
    obtain ⟨-, -, hvn, hvm, hvwf⟩ := h.1.at hv
    have hqP := h.1.lt hv
    by_cases hy : 1 ≤ y ∧ y ≤ n
    · exact hint x y hx1 hx2 hy.1 hy.2
    · rw [hG _ _ (by omega)]
      by_cases hy0 : y = 0
      · rw [hy0]; exact (hcol x).1
      · by_cases hy1 : y = n + 1
        · rw [hy1]; exact (hcol x).2.1
        · exact (hvwf.get_zero_oob (by omega)).1
  obtain ⟨-, -, -, -, -, -, fl, -⟩ := Worker.setPrv_fields (swap w) (haloPrv (ws.map swap) (swap w))
  refine ⟨w1, hw1, by rw [hcur, hwf.swap_cur], by rw [heq, fl]; rfl, fun x y hx => ?_⟩
  rw [hget]
  obtain ⟨-, -, htop, hbot, -⟩ := h.2 r w hw
  by_cases c0 : x = 0 ∧ 0 < r
  · rw [if_pos c0]
    obtain ⟨k, hk⟩ : ∃ k, r = k + 1 := ⟨r - 1, by omega⟩
    obtain ⟨v, hv⟩ := h.1.exists_at (show k < P by omega)
    obtain ⟨-, -, -, -, hvwf⟩ := h.1.at hv
    have hsv : (ws.map swap)[r - 1]? = some (swap v) := by
      rw [List.getElem?_map, hk, Nat.add_sub_cancel, hv]; rfl
    rw [prevRow_get hsv, hvwf.swap_prv, whole k v hv m y hm (Nat.le_refl _), c0.1, hk,
      Nat.succ_mul]
    rfl
  · rw [if_neg c0]
    by_cases c1 : x = m + 1 ∧ r + 1 < P
    · rw [if_pos c1]
      obtain ⟨v, hv⟩ := h.1.exists_at c1.2
      obtain ⟨-, -, -, -, hvwf⟩ := h.1.at hv
      have hsv : (ws.map swap)[r + 1]? = some (swap v) := by
        rw [List.getElem?_map, hv]; rfl
      have e : (r + 1) * m + 1 = r * m + (m + 1) := by rw [Nat.succ_mul]; omega
      rw [prevRow_get hsv, hvwf.swap_prv, whole (r + 1) v hv 1 y (Nat.le_refl _) hm, c1.1, e]
    · rw [if_neg c1, hwf.swap_prv]
      by_cases hx0 : x = 0
      · have hr0 : r = 0 := by omega
        rw [hx0, (htop hr0 y).1, hr0, Nat.zero_mul, hG _ _ (by omega)]
      · by_cases hxm : x = m + 1
        · have hrl : r + 1 = P := by omega
          have hb := block_le hrP (Nat.le_refl m)
          have hrow : r * m + m = n := by
            rw [← hdiv, ← hrl, Nat.succ_mul]
          rw [hxm, (hbot hrl y).1, hG _ _ (by omega)]
        · exact whole r w hw x y (by omega) (by omega)

/-- A worker after the reductions of lines 201-206: only the global totals of rank 0 are
written. -/
theorem reduceStats_at {ws : List Worker} {r : Nat} {w' : Worker}
    (h : (reduceStats ws)[r]? = some w') :
    ∃ w, ws[r]? = some w ∧ w'.cur = w.cur ∧ w'.prv = w.prv ∧ (w.WF → w'.WF) ∧
      w'.numprocs = w.numprocs ∧ w'.mypid = w.mypid ∧ w'.gridsize = w.gridsize ∧
      w'.myrows = w.myrows ∧ w'.live_count = w.live_count ∧
      w'.birth_count = w.birth_count ∧ w'.death_count = w.death_count ∧
      (w.mypid = 0 → w'.global_live = reduceSum ws Worker.live_count ∧
        w'.global_death = reduceSum ws Worker.death_count ∧
        w'.global_birth = reduceSum ws Worker.birth_count) := by
  unfold reduceStats at h
  rw [List.getElem?_map] at h
  cases hw : ws[r]? with
  | none => rw [hw] at h; exact absurd h (by simp)
  | some w =>
    rw [hw] at h
    simp only [Option.map_some', Option.some.injEq] at h
    subst h
    refine ⟨w, rfl, ?_⟩
    by_cases h0 : w.mypid = 0
    · rw [if_pos h0]
      exact ⟨rfl, rfl, fun hwf => hwf, rfl, rfl, rfl, rfl, rfl, rfl, rfl,
        fun _ => ⟨rfl, rfl, rfl⟩⟩
    · rw [if_neg h0]
      exact ⟨rfl, rfl, fun hwf => hwf, rfl, rfl, rfl, rfl, rfl, rfl, rfl,
        fun hh => absurd hh h0⟩

theorem reduceSum_congr {ws ws' : List Worker} {f : Worker → Int}
    (hlen : ws'.length = ws.length)
    (h : ∀ (r : Nat) (w w' : Worker), ws[r]? = some w → ws'[r]? = some w' → f w' = f w) :
    reduceSum ws' f = reduceSum ws f := by
  unfold reduceSum
  congr 1
  apply List.ext_getElem?
  intro r
  rw [List.getElem?_map, List.getElem?_map]
  by_cases hr : r < ws.length
  · have hr' : r < ws'.length := by omega
    rw [List.getElem?_eq_getElem hr, List.getElem?_eq_getElem hr']
    simp only [Option.map_some', Option.some.injEq]
    exact h r _ _ (List.getElem?_eq_getElem hr) (List.getElem?_eq_getElem hr')
  · rw [List.getElem?_eq_none (by omega), List.getElem?_eq_none (by omega)]

theorem reduceStats_length (ws : List Worker) : (reduceStats ws).length = ws.length := by
  simp [reduceStats]

/-- One iteration of the main loop carries the invariant from `G` to `life n G`, and its
counters are those of the step from `G`. -/
theorem WorldInv.iteration {P n m : Nat} {G : Nat → Nat → Int} {ws : List Worker}
    (h : WorldInv P n m G ws) (hG : Masked n G) (hdiv : P * m = n) (hm : 1 ≤ m) :
    ∃ ws', MpiLife.iteration ws = some ws' ∧ WorldInv P n m (life n G) ws' ∧
      ∀ (r : Nat) (w' : Worker), ws'[r]? = some w' →
        w'.birth_count = sumCells m n (fun x y => bornF G (r * m + x) y) ∧
        w'.death_count = sumCells m n (fun x y => diedF G (r * m + x) y) ∧
        (r = 0 → w'.global_live = reduceSum ws' Worker.live_count ∧
          w'.global_death = reduceSum ws' Worker.death_count ∧
          w'.global_birth = reduceSum ws' Worker.birth_count) := by
  obtain ⟨ws1, hex, hwf1, hall1⟩ := h.pre_compute hG hdiv hm
  obtain ⟨ws2, hc2, hlen2, hall2⟩ := mapOpt_spec compute ws1 (fun w1 hw1 => by
    obtain ⟨r, hr, -⟩ := hwf1.of_mem hw1
    obtain ⟨-, -, -, -, hwf⟩ := hwf1.at hr
    obtain ⟨w2, hw2, -⟩ := hwf.compute_spec
    exact ⟨w2, hw2⟩)
  -- every worker after the compute step
  have key : ∀ (r : Nat) (w2 : Worker), ws2[r]? = some w2 →
      w2.numprocs = P ∧ w2.mypid = r ∧ w2.gridsize = n ∧ w2.myrows = m ∧ w2.WF ∧
      w2.Holds P n m r (life n G) ∧
      w2.birth_count = sumCells m n (fun x y => bornF G (r * m + x) y) ∧
      w2.death_count = sumCells m n (fun x y => diedF G (r * m + x) y) := by
    intro r w2 hw2
    have hr2 : r < ws2.length := (List.getElem?_eq_some.1 hw2).1
    have hrP : r < P := by rw [← hwf1.1, ← hlen2]; exact hr2
    obtain ⟨w1, hw1⟩ := hwf1.exists_at hrP
    obtain ⟨w, hw⟩ := h.1.exists_at hrP
    obtain ⟨w1', hw1', hcur1, -, hprv1⟩ := hall1 r w hw
    rw [hw1] at hw1'
    obtain rfl := Option.some.inj hw1'
    obtain ⟨b, hb, hcomp⟩ := hall2 r w1 hw1
    rw [hw2] at hb
    obtain rfl := Option.some.inj hb
    obtain ⟨hP1, hr1, hn1, hm1, hwf1w⟩ := hwf1.at hw1
    obtain ⟨w2', hcomp', hwf2, f1, f2, f3, f4, -, -, hprv2, hget2, hl, hbc, hdc⟩ :=
      hwf1w.compute_spec
    rw [hcomp] at hcomp'
    obtain rfl := Option.some.inj hcomp'
    rw [hm1, hn1] at hget2 hl hbc hdc
    obtain ⟨-, hcol, htop, hbot, -⟩ := h.2 r w hw
    have hnear : ∀ x, 1 ≤ x → x ≤ m → ∀ a b, x - 1 ≤ a → a ≤ x + 1 →
        w1.prv.get a b = G (r * m + a) b :=
      fun x hx1 hx2 a b ha1 ha2 => hprv1 a b (by omega)
    have hlifeIn : ∀ x y, 1 ≤ x → x ≤ m → 1 ≤ y → y ≤ n →
        life n G (r * m + x) y = nextF G (r * m + x) y := by
      intro x y hx1 hx2 hy1 hy2
      have := block_le hrP hx2
      exact mask_inside _ ⟨by omega, by omega, hy1, hy2⟩
    have hprvcol : ∀ x y, ¬ (1 ≤ y ∧ y ≤ n) → w2.prv.get x y = 0 := by
      intro x y hy
      rw [hprv2]
      by_cases hx : x ≤ m + 1
      · rw [hprv1 x y hx]
        exact hG _ _ (by omega)
      · exact (hwf1w.get_zero_oob (by omega)).2
    refine ⟨by rw [f1, hP1], by rw [f2, hr1], by rw [f3, hn1], by rw [f4, hm1], hwf2,
      ⟨?_, ?_, ?_, ?_, ?_⟩, ?_, ?_⟩
    · intro x y hx1 hx2 hy1 hy2
      rw [hget2, if_pos ⟨hx1, hx2, hy1, hy2⟩, hlifeIn x y hx1 hx2 hy1 hy2]
      exact Grid.next_eq_nextF hx1 (hnear x hx1 hx2)
    · intro x
      have e0 : ¬ (1 ≤ x ∧ x ≤ m ∧ 1 ≤ (0 : Nat) ∧ 0 ≤ n) := by omega
      have e1 : ¬ (1 ≤ x ∧ x ≤ m ∧ 1 ≤ n + 1 ∧ n + 1 ≤ n) := by omega
      refine ⟨?_, ?_, hprvcol x 0 (by omega), hprvcol x (n + 1) (by omega)⟩
      · rw [hget2, if_neg e0, hcur1]; exact (hcol x).2.2.1
      · rw [hget2, if_neg e1, hcur1]; exact (hcol x).2.2.2
    · intro hr0 y
      have e0 : ¬ (1 ≤ (0 : Nat) ∧ 0 ≤ m ∧ 1 ≤ y ∧ y ≤ n) := by omega
      refine ⟨?_, ?_⟩
      · rw [hget2, if_neg e0, hcur1]; exact (htop hr0 y).2
      · rw [hprv2, hprv1 0 y (by omega), hr0, Nat.zero_mul]
        exact hG _ _ (by omega)
    · intro hrl y
      have e0 : ¬ (1 ≤ m + 1 ∧ m + 1 ≤ m ∧ 1 ≤ y ∧ y ≤ n) := by omega
      have hrow : r * m + m = n := by rw [← hdiv, ← hrl, Nat.succ_mul]
      refine ⟨?_, ?_⟩
      · rw [hget2, if_neg e0, hcur1]; exact (hbot hrl y).2
      · rw [hprv2, hprv1 (m + 1) y (by omega)]
        exact hG _ _ (by omega)
    · rw [hl]
      refine sumCells_congr (fun x y hx1 hx2 hy1 hy2 => ?_)
      rw [hlifeIn x y hx1 hx2 hy1 hy2]
      exact Grid.next_eq_nextF hx1 (hnear x hx1 hx2)
    · rw [hbc]
      exact sumCells_congr (fun x y hx1 hx2 _ _ => Grid.born_eq_bornF hx1 (hnear x hx1 hx2))
    · rw [hdc]
      exact sumCells_congr (fun x y hx1 hx2 _ _ => Grid.died_eq_diedF hx1 (hnear x hx1 hx2))
  have hlen3 : (reduceStats ws2).length = P := by
    rw [reduceStats_length, hlen2, hwf1.1]
  have hsum : ∀ f : Worker → Int,
      (∀ (r : Nat) (w w' : Worker), ws2[r]? = some w → (reduceStats ws2)[r]? = some w' →
        f w' = f w) →
      reduceSum (reduceStats ws2) f = reduceSum ws2 f :=
    fun f hf => reduceSum_congr (reduceStats_length ws2) hf
  refine ⟨reduceStats ws2, ?_, ⟨WorldWF.of_forall hlen3 ?_, ?_⟩, ?_⟩
  · unfold MpiLife.iteration
    rw [hex]
    simp only [hc2]
  · intro r w' hw'
    obtain ⟨w2, hw2, -, -, hwf, g1, g2, g3, g4, -⟩ := reduceStats_at hw'
    obtain ⟨k1, k2, k3, k4, k5, -⟩ := key r w2 hw2
    exact ⟨by rw [g1, k1], by rw [g2, k2], by rw [g3, k3], by rw [g4, k4], hwf k5⟩
  · intro r w' hw'
    obtain ⟨w2, hw2, hcur, hprv, -, -, -, -, -, gl, -⟩ := reduceStats_at hw'
    obtain ⟨-, -, -, -, -, hh, -⟩ := key r w2 hw2
    refine ⟨?_, ?_, ?_, ?_, ?_⟩
    · rw [hcur]; exact hh.1
    · rw [hcur, hprv]; exact hh.2.1
    · rw [hcur, hprv]; exact hh.2.2.1
    · rw [hcur, hprv]; exact hh.2.2.2.1
    · rw [gl]; exact hh.2.2.2.2
  · intro r w' hw'
    obtain ⟨w2, hw2, -, -, -, -, -, -, -, -, gb, gd, hglob⟩ := reduceStats_at hw'
    obtain ⟨-, k2, -, -, -, -, hb, hd⟩ := key r w2 hw2
    refine ⟨by rw [gb, hb], by rw [gd, hd], fun hr0 => ?_⟩
    obtain ⟨e1, e2, e3⟩ := hglob (by rw [k2, hr0])
    rw [e1, e2, e3]
    refine ⟨(hsum _ ?_).symm, (hsum _ ?_).symm, (hsum _ ?_).symm⟩
    · intro q v v' hv hv'
      obtain ⟨v2, hv2, -, -, -, -, -, -, -, x1, -⟩ := reduceStats_at hv'
      rw [hv] at hv2
      obtain rfl := Option.some.inj hv2
      exact x1
    · intro q v v' hv hv'
      obtain ⟨v2, hv2, -, -, -, -, -, -, -, -, -, x3, -⟩ := reduceStats_at hv'
      rw [hv] at hv2
      obtain rfl := Option.some.inj hv2
      exact x3
    · intro q v v' hv hv'
      obtain ⟨v2, hv2, -, -, -, -, -, -, -, -, x2, -⟩ := reduceStats_at hv'
      rw [hv] at hv2
      obtain rfl := Option.some.inj hv2
      exact x2

/-! ## Running several iterations -/

theorem forLoop_const {σ : Type} (f : σ → Option σ) :
    ∀ (n lo lo' : Nat) (s : σ), forLoop (fun _ => f) lo n s = forLoop (fun _ => f) lo' n s := by
  intro n
  induction n with
  | zero => intro lo lo' s; rfl
  | succ n ih =>
    intro lo lo' s
    simp only [forLoop]
    cases f s with
    | none => rfl
    | some s' => exact ih (lo + 1) (lo' + 1) s'

theorem run_zero (ws : List Worker) : run 0 ws = some ws := rfl

theorem run_succ (k : Nat) (ws : List Worker) :
    run (k + 1) ws = (iteration ws).bind (run k) := by
  unfold run
  simp only [forLoop]
  cases iteration ws with
  | none => rfl
  | some ws' => exact forLoop_const iteration k 2 1 ws'

theorem run_succ_last (k : Nat) : ∀ ws : List Worker,
    run (k + 1) ws = (run k ws).bind iteration := by
  induction k with
  | zero =>
    intro ws
    rw [run_succ]
    show (iteration ws).bind (run 0) = (some ws).bind iteration
    cases hi : iteration ws with
    | none => simp [hi]
    | some ws' => simp [hi, run_zero]
  | succ k ih =>
    intro ws
    rw [run_succ, run_succ k ws]
    cases iteration ws with
    | none => rfl
    | some ws' => exact ih ws'

/-- After `k` iterations the invariant holds for the `k`-th generation of `G`. -/
theorem WorldInv.run {P n m : Nat} (hdiv : P * m = n) (hm : 1 ≤ m) (k : Nat) :
    ∀ (G : Nat → Nat → Int) (ws : List Worker), WorldInv P n m G ws → Masked n G →
      ∃ ws', MpiLife.run k ws = some ws' ∧ WorldInv P n m ((life n)^[k] G) ws' := by
  induction k with
  | zero => intro G ws h _; exact ⟨ws, rfl, h⟩
  | succ k ih =>
    intro G ws h hG
    obtain ⟨ws1, h1, hinv1, -⟩ := h.iteration hG hdiv hm
    obtain ⟨ws', h', hinv'⟩ := ih (life n G) ws1 hinv1 (life_masked n G)
    refine ⟨ws', ?_, ?_⟩
    · rw [run_succ, h1]; exact h'
    · rw [Function.iterate_succ_apply]; exact hinv'

/-- The states before and after iteration `k+1`, with the counters of that iteration. -/
theorem WorldInv.run_step {P n m : Nat} {G : Nat → Nat → Int} {ws : List Worker}
    (h : WorldInv P n m G ws) (hG : Masked n G) (hdiv : P * m = n) (hm : 1 ≤ m) (k : Nat) :
    ∃ wsA wsB, MpiLife.run k ws = some wsA ∧ MpiLife.run (k + 1) ws = some wsB ∧
      MpiLife.iteration wsA = some wsB ∧
      WorldInv P n m ((life n)^[k] G) wsA ∧ WorldInv P n m ((life n)^[k + 1] G) wsB ∧
      ∀ (r : Nat) (w' : Worker), wsB[r]? = some w' →
        w'.birth_count = sumCells m n (fun x y => bornF ((life n)^[k] G) (r * m + x) y) ∧
        w'.death_count = sumCells m n (fun x y => diedF ((life n)^[k] G) (r * m + x) y) ∧
        (r = 0 → w'.global_live = reduceSum wsB Worker.live_count ∧
          w'.global_death = reduceSum wsB Worker.death_count ∧
          w'.global_birth = reduceSum wsB Worker.birth_count) := by
  obtain ⟨wsA, hA, hinvA⟩ := WorldInv.run hdiv hm k G ws h hG
  obtain ⟨wsB, hB, hinvB, hcnt⟩ := hinvA.iteration (iterate_life_masked n G hG k) hdiv hm
  refine ⟨wsA, wsB, hA, ?_, hB, hinvA, ?_, hcnt⟩
  · rw [run_succ_last, hA]; exact hB
  · rw [Function.iterate_succ_apply']; exact hinvB

/-! ## Sums over the workers -/

theorem list_sum_range_map (F : Nat → Int) (P : Nat) :
    ((List.range P).map F).sum = ∑ r in Finset.range P, F r := by
  induction P with
  | zero => simp
  | succ P ih => rw [List.range_succ, List.map_append, List.sum_append, ih,
      Finset.sum_range_succ]; simp

theorem reduceSum_eq {P : Nat} {ws : List Worker} (hlen : ws.length = P) {f : Worker → Int}
    {F : Nat → Int} (h : ∀ (r : Nat) (w : Worker), ws[r]? = some w → f w = F r) :
    reduceSum ws f = ∑ r in Finset.range P, F r := by
  rw [← list_sum_range_map]
  unfold reduceSum
  congr 1
  apply List.ext_getElem?
  intro r
  rw [List.getElem?_map, List.getElem?_map]
  by_cases hr : r < P
  · have hr' : r < ws.length := by omega
    rw [List.getElem?_eq_getElem hr', List.getElem?_range hr]
    simp only [Option.map_some', Option.some.injEq]
    exact h r _ (List.getElem?_eq_getElem hr')
  · rw [List.getElem?_eq_none (by omega), List.getElem?_eq_none (by simp; omega)]
    rfl

theorem sumTo_shift (f : Nat → Int) (a b : Nat) :
    sumTo f (a + b) = sumTo f a + sumTo (fun x => f (a + x)) b := by
  induction b with
  | zero => simp [sumTo]
  | succ b ih =>
    rw [← Nat.add_assoc, sumTo_succ, sumTo_succ, ih, Nat.add_assoc a b 1, add_assoc]

/-- Summing over the blocks of all workers is summing over the whole grid. -/
theorem sum_blocks (H : Nat → Nat → Int) (m n : Nat) (P : Nat) :
    ∑ r in Finset.range P, sumCells m n (fun x y => H (r * m + x) y) =
      sumCells (P * m) n H := by
  induction P with
  | zero => simp [sumCells, sumTo]
  | succ P ih =>
    rw [Finset.sum_range_succ, ih, Nat.succ_mul]
    unfold sumCells
    rw [sumTo_shift]

/-! ## Partition invariance (C2) -/

theorem WorldInv.read_curr {P n m : Nat} {G : Nat → Nat → Int} {ws : List Worker}
    (h : WorldInv P n m G ws) {r : Nat} {w : Worker} (hw : ws[r]? = some w) {i j : Nat}
    (hi1 : 1 ≤ i) (hi2 : i ≤ m) (hj1 : 1 ≤ j) (hj2 : j ≤ n) :
    w.rd w.curr i j = some (G (r * m + i) j) := by
  obtain ⟨-, -, hn, hm, hwf⟩ := h.1.at hw
  rw [hwf.rd_curr (by omega) (by omega), (h.2 r w hw).1 i j hi1 hi2 hj1 hj2]

theorem WorldInv.reassembled_eq {P n m : Nat} {G : Nat → Nat → Int} {ws : List Worker}
    (h : WorldInv P n m G ws) (hdiv : P * m = n) (hm : 1 ≤ m) {i j : Nat}
    (hi1 : 1 ≤ i) (hi2 : i ≤ n) (hj1 : 1 ≤ j) (hj2 : j ≤ n) :
    reassembled ws m i j = some (G i j) := by
  have hr : (i - 1) / m < P := by
    rw [Nat.div_lt_iff_lt_mul (by omega)]
    omega
  obtain ⟨w, hw⟩ := h.1.exists_at hr
  have hx : (i - 1) % m < m := Nat.mod_lt _ (by omega)
  have hrow : (i - 1) / m * m + ((i - 1) % m + 1) = i := by
    have := Nat.div_add_mod (i - 1) m
    rw [Nat.mul_comm] at this
    omega
  unfold reassembled
  rw [hw]
  simp only
  rw [h.read_curr hw (by omega) (by omega) hj1 hj2, hrow]

theorem WorldInv.sum_live {P n m : Nat} {G : Nat → Nat → Int} {ws : List Worker}
    (h : WorldInv P n m G ws) (hdiv : P * m = n) :
    reduceSum ws Worker.live_count = sumCells n n G := by
  rw [reduceSum_eq h.1.1 (F := fun r => sumCells m n (fun x y => G (r * m + x) y))
    (fun r w hw => (h.2 r w hw).2.2.2.2), sum_blocks, hdiv]

theorem single_world {n : Nat} {G : Nat → Nat → Int} {ws : List Worker}
    (h : WorldInv 1 n n G ws) : ∃ w, ws = [w] ∧ ws[0]? = some w := by
  match ws, h.1.1 with
  | [w], _ => exact ⟨w, rfl, rfl⟩

/-- C2. Partition invariance.  Let `P ≥ 1` workers with `m` rows each share a grid of side
`n = P*m > 0`, started with the rows of a pattern `G` of live and dead cells, and let a
single worker be started with the whole of `G`.  Then for every `k` both `k`-iteration runs
return; the grid reassembled from the current interiors of the `P` workers in rank order is
cell for cell the current interior of the single worker; the sum of the `live_count` of
the workers is the number of live cells of the reassembled grid and is the `live_count` of
the single worker; and, `birth_count` and `death_count` being set by an iteration, for
`k ≥ 1` their sums over the workers are those of the single worker. -/
theorem partition_invariance (P n m : Nat) (hn : 0 < n) (_hP : 1 ≤ P) (hdiv : P * m = n)
    (G : Nat → Nat → Bool) (ws : List Worker) (w1 : Worker)
    (hws : InitialWorld P n m G ws) (hw1 : InitialWorld 1 n n G [w1]) (k : Nat) :
    ∃ ws' w1', run k ws = some ws' ∧ run k [w1] = some [w1'] ∧
      (∀ i j, 1 ≤ i → i ≤ n → 1 ≤ j → j ≤ n →
        reassembled ws' m i j = w1'.rd w1'.curr i j) ∧
      (∀ (r : Nat) (w : Worker), ws'[r]? = some w →
        ∀ i j, 1 ≤ i → i ≤ m → 1 ≤ j → j ≤ n →
          w.rd w.curr i j = w1'.rd w1'.curr (r * m + i) j) ∧
      reduceSum ws' Worker.live_count =
        countCells n n (fun i j => reassembled ws' m i j = some 1) ∧
      reduceSum ws' Worker.live_count = w1'.live_count ∧
      (1 ≤ k → reduceSum ws' Worker.birth_count = w1'.birth_count ∧
        reduceSum ws' Worker.death_count = w1'.death_count) := by
  have hm : 1 ≤ m := by
    rcases Nat.eq_zero_or_pos m with h0 | h0
    · rw [h0, Nat.mul_zero] at hdiv; omega
    · exact h0
  have hdiv1 : 1 * n = n := Nat.one_mul n
  have invP := hws.inv hdiv
  have inv1 := hw1.inv hdiv1
  have hG := cellOf_masked n G
  obtain ⟨ws', hrun, hinv⟩ := WorldInv.run hdiv hm k _ _ invP hG
  obtain ⟨ws1', hrun1, hinv1⟩ := WorldInv.run hdiv1 hn k _ _ inv1 hG
  obtain ⟨w1', rfl, hw1'⟩ := single_world hinv1
  have hbin := iterate_life_binary n (cellOf_binary n G) k
  have hsingle : ∀ i j, 1 ≤ i → i ≤ n → 1 ≤ j → j ≤ n →
      w1'.rd w1'.curr i j = some ((life n)^[k] (cellOf n G) i j) := by
    intro i j hi1 hi2 hj1 hj2
    rw [hinv1.read_curr hw1' hi1 hi2 hj1 hj2, Nat.zero_mul, Nat.zero_add]
  have hlive1 : w1'.live_count = sumCells n n ((life n)^[k] (cellOf n G)) := by
    rw [(hinv1.2 0 w1' hw1').2.2.2.2]
    exact sumCells_congr (fun x y _ _ _ _ => by rw [Nat.zero_mul, Nat.zero_add])
  refine ⟨ws', w1', hrun, hrun1, ?_, ?_, ?_, ?_, ?_⟩
  · intro i j hi1 hi2 hj1 hj2
    rw [hinv.reassembled_eq hdiv hm hi1 hi2 hj1 hj2, hsingle i j hi1 hi2 hj1 hj2]
  · intro r w hw i j hi1 hi2 hj1 hj2
    have hrP := hinv.1.lt hw
    have := block_le hrP hi2
    rw [hinv.read_curr hw hi1 hi2 hj1 hj2, hsingle _ j (by omega) (by omega) hj1 hj2]
  · rw [hinv.sum_live hdiv, countCells_eq_sumCells]
    refine sumCells_congr (fun i j hi1 hi2 hj1 hj2 => ?_)
    rw [hinv.reassembled_eq hdiv hm hi1 hi2 hj1 hj2]
    rcases hbin i j with h0 | h0 <;> simp [h0]
  · rw [hinv.sum_live hdiv, hlive1]
  · intro hk
    obtain ⟨k', rfl⟩ : ∃ k', k = k' + 1 := ⟨k - 1, by omega⟩
    obtain ⟨-, wsB, -, hB, -, -, hinvB, hcnt⟩ := invP.run_step hG hdiv hm k'
    obtain ⟨-, wsB1, -, hB1, -, -, hinvB1, hcnt1⟩ := inv1.run_step hG hdiv1 hn k'
    rw [hrun] at hB
    obtain rfl := Option.some.inj hB
    rw [hrun1] at hB1
    obtain rfl := Option.some.inj hB1
    obtain ⟨hb1, hd1, -⟩ := hcnt1 0 w1' hw1'
    constructor
    · rw [reduceSum_eq hinv.1.1 (fun r w hw => (hcnt r w hw).1), sum_blocks, hdiv, hb1]
      exact sumCells_congr (fun x y _ _ _ _ => by rw [Nat.zero_mul, Nat.zero_add])
    · rw [reduceSum_eq hinv.1.1 (fun r w hw => (hcnt r w hw).2.1), sum_blocks, hdiv, hd1]
      exact sumCells_congr (fun x y _ _ _ _ => by rw [Nat.zero_mul, Nat.zero_add])

theorem partition_invariance_witness :
    0 < 2 ∧ 1 ≤ 2 ∧ 2 * 1 = 2 ∧ InitialWorld 2 2 1 corner cornerWorld2 ∧
    InitialWorld 1 2 2 corner [cornerWorker1] ∧
    ∃ ws' w1', run 3 cornerWorld2 = some ws' ∧ run 3 [cornerWorker1] = some [w1'] ∧
      (∀ i j, 1 ≤ i → i ≤ 2 → 1 ≤ j → j ≤ 2 →
        reassembled ws' 1 i j = w1'.rd w1'.curr i j) ∧
      (∀ (r : Nat) (w : Worker), ws'[r]? = some w →
        ∀ i j, 1 ≤ i → i ≤ 1 → 1 ≤ j → j ≤ 2 →
          w.rd w.curr i j = w1'.rd w1'.curr (r * 1 + i) j) ∧
      reduceSum ws' Worker.live_count =
        countCells 2 2 (fun i j => reassembled ws' 1 i j = some 1) ∧
      reduceSum ws' Worker.live_count = w1'.live_count ∧
      (1 ≤ 3 → reduceSum ws' Worker.birth_count = w1'.birth_count ∧
        reduceSum ws' Worker.death_count = w1'.death_count) :=
  ⟨by decide, by decide, by decide, by decide, by decide,
    partition_invariance 2 2 1 (by decide) (by decide) (by decide) corner cornerWorld2
      cornerWorker1 (by decide) (by decide) 3⟩

/-! ## Global population balance (C6) -/

/-- A worker after the initial reduction of lines 99-100: only `global_live` of rank 0 is
written. -/
theorem reduceInitial_at {ws : List Worker} {r : Nat} {w' : Worker}
    (h : (reduceInitial ws)[r]? = some w') :
    ∃ w, ws[r]? = some w ∧ w'.cur = w.cur ∧ w'.prv = w.prv ∧ (w.WF → w'.WF) ∧
      w'.numprocs = w.numprocs ∧ w'.mypid = w.mypid ∧ w'.gridsize = w.gridsize ∧
      w'.myrows = w.myrows ∧ w'.live_count = w.live_count ∧
      (w.mypid = 0 → w'.global_live = reduceSum ws Worker.live_count) := by
  unfold reduceInitial at h
  rw [List.getElem?_map] at h
  cases hw : ws[r]? with
  | none => rw [hw] at h; exact absurd h (by simp)
  | some w =>
    rw [hw] at h
    simp only [Option.map_some', Option.some.injEq] at h
    subst h
    refine ⟨w, rfl, ?_⟩
    by_cases h0 : w.mypid = 0
    · rw [if_pos h0]
      exact ⟨rfl, rfl, fun hwf => hwf, rfl, rfl, rfl, rfl, rfl, fun _ => rfl⟩
    · rw [if_neg h0]
      exact ⟨rfl, rfl, fun hwf => hwf, rfl, rfl, rfl, rfl, rfl, fun hh => absurd hh h0⟩

theorem reduceInitial_length (ws : List Worker) : (reduceInitial ws).length = ws.length := by
  simp [reduceInitial]

theorem WorldInv.reduceInitial {P n m : Nat} {G : Nat → Nat → Int} {ws : List Worker}
    (h : WorldInv P n m G ws) : WorldInv P n m G (MpiLife.reduceInitial ws) := by
  refine ⟨WorldWF.of_forall (by rw [reduceInitial_length, h.1.1]) ?_, ?_⟩
  · intro r w' hw'
    obtain ⟨w, hw, -, -, hwf, g1, g2, g3, g4, -⟩ := reduceInitial_at hw'
    obtain ⟨k1, k2, k3, k4, k5⟩ := h.1.at hw
    exact ⟨by rw [g1, k1], by rw [g2, k2], by rw [g3, k3], by rw [g4, k4], hwf k5⟩
  · intro r w' hw'
    obtain ⟨w, hw, hcur, hprv, -, -, -, -, -, gl, -⟩ := reduceInitial_at hw'
    have hh := h.2 r w hw
    refine ⟨?_, ?_, ?_, ?_, ?_⟩
    · rw [hcur]; exact hh.1
    · rw [hcur, hprv]; exact hh.2.1
    · rw [hcur, hprv]; exact hh.2.2.1
    · rw [hcur, hprv]; exact hh.2.2.2.1
    · rw [gl]; exact hh.2.2.2.2

theorem reduceSum_reduceInitial (ws : List Worker) :
    reduceSum (reduceInitial ws) Worker.live_count = reduceSum ws Worker.live_count := by
  apply reduceSum_congr (reduceInitial_length ws)
  intro r w w' hw hw'
  obtain ⟨v, hv, -, -, -, -, -, -, -, gl, -⟩ := reduceInitial_at hw'
  rw [hw] at hv
  obtain rfl := Option.some.inj hv
  exact gl

theorem sumCells_life {n : Nat} {G : Nat → Nat → Int} (hbin : ∀ i j, G i j = 0 ∨ G i j = 1) :
    sumCells n n (life n G) = sumCells n n G - sumCells n n (diedF G) + sumCells n n (bornF G) := by
  rw [← sumCells_sub, ← sumCells_add]
  refine sumCells_congr (fun i j hi1 hi2 hj1 hj2 => ?_)
  unfold life
  rw [mask_inside _ ⟨hi1, hi2, hj1, hj2⟩]
  exact nextF_balance (hbin i j)

/-- C6. Global population balance.  For `P ≥ 1` workers with `m ≥ 1` rows each on a grid of
side `n = P*m`, started from any pattern, the totals reduced at rank 0 satisfy, for every
iteration `k+1`, `global_live(k+1) = global_live(k) - global_death(k+1) + global_birth(k+1)`;
here `global_live(0)` is the total reduced after seeding, and each total is the sum over the
workers of the local counter of that iteration. -/
theorem global_population_balance (P n m : Nat) (hP : 1 ≤ P) (hm : 1 ≤ m) (hdiv : P * m = n)
    (G : Nat → Nat → Bool) (ws0 : List Worker) (h0 : InitialWorld P n m G ws0) (k : Nat) :
    ∃ wsA wsB a b, run k (reduceInitial ws0) = some wsA ∧
      run (k + 1) (reduceInitial ws0) = some wsB ∧
      wsA[0]? = some a ∧ wsB[0]? = some b ∧
      a.global_live = reduceSum wsA Worker.live_count ∧
      b.global_live = reduceSum wsB Worker.live_count ∧
      b.global_death = reduceSum wsB Worker.death_count ∧
      b.global_birth = reduceSum wsB Worker.birth_count ∧
      b.global_live = a.global_live - b.global_death + b.global_birth ∧
      (k = 0 → a.global_live = reduceSum ws0 Worker.live_count) := by
  have inv0 := (h0.inv hdiv).reduceInitial
  have hG := cellOf_masked n G
  obtain ⟨wsA, wsB, hA, hB, -, hinvA, hinvB, hcnt⟩ := inv0.run_step hG hdiv hm k
  obtain ⟨a, ha⟩ := hinvA.1.exists_at (show 0 < P by omega)
  obtain ⟨b, hb⟩ := hinvB.1.exists_at (show 0 < P by omega)
  obtain ⟨hbl, hbd, hbb⟩ := (hcnt 0 b hb).2.2 rfl
  have hbin := iterate_life_binary n (cellOf_binary n G) k
  have haglob : a.global_live = reduceSum wsA Worker.live_count := by
    cases k with
    | zero =>
      rw [run_zero] at hA
      obtain rfl := Option.some.inj hA
      obtain ⟨v, hv, -, -, -, -, pid, -, -, -, hgl⟩ := reduceInitial_at ha
      obtain ⟨-, hv0, -⟩ := (h0.inv hdiv).1.at hv
      rw [hgl hv0, reduceSum_reduceInitial]
    | succ k' =>
      obtain ⟨-, wsA', -, hA', -, -, -, hcnt'⟩ := inv0.run_step hG hdiv hm k'
      rw [hA] at hA'
      obtain rfl := Option.some.inj hA'
      exact ((hcnt' 0 a ha).2.2 rfl).1
  refine ⟨wsA, wsB, a, b, hA, hB, ha, hb, haglob, hbl, hbd, hbb, ?_, ?_⟩
  · rw [hbl, hbd, hbb, haglob, hinvB.sum_live hdiv, hinvA.sum_live hdiv,
      reduceSum_eq hinvB.1.1 (fun r w hw => (hcnt r w hw).2.1),
      reduceSum_eq hinvB.1.1 (fun r w hw => (hcnt r w hw).1), sum_blocks, sum_blocks, hdiv,
      Function.iterate_succ_apply']
    exact sumCells_life hbin
  · intro hk
    subst hk
    rw [run_zero] at hA
    obtain rfl := Option.some.inj hA
    rw [haglob, reduceSum_reduceInitial]

theorem global_population_balance_witness :
    1 ≤ 2 ∧ 1 ≤ 1 ∧ 2 * 1 = 2 ∧ InitialWorld 2 2 1 corner cornerWorld2 ∧
    ∃ wsA wsB a b, run 1 (reduceInitial cornerWorld2) = some wsA ∧
      run (1 + 1) (reduceInitial cornerWorld2) = some wsB ∧
      wsA[0]? = some a ∧ wsB[0]? = some b ∧
      a.global_live = reduceSum wsA Worker.live_count ∧
      b.global_live = reduceSum wsB Worker.live_count ∧
      b.global_death = reduceSum wsB Worker.death_count ∧
      b.global_birth = reduceSum wsB Worker.birth_count ∧
      b.global_live = a.global_live - b.global_death + b.global_birth ∧
      (1 = 0 → a.global_live = reduceSum cornerWorld2 Worker.live_count) :=
  ⟨by decide, by decide, by decide, by decide,
    global_population_balance 2 2 1 (by decide) (by decide) (by decide) corner cornerWorld2
      (by decide) 1⟩

/-! ## No wraparound (C9) -/

theorem liveAmong_five {w : Worker} (h : w.WF) {c1 c2 c3 c4 c5 : Nat × Nat}
    (hb : ∀ c, c ∈ [c1, c2, c3, c4, c5] →
      c.1 < w.myrows + 2 ∧ c.2 < w.gridsize + 2 ∧
      (w.prv.get c.1 c.2 = 0 ∨ w.prv.get c.1 c.2 = 1)) :
    ((liveAmong w [c1, c2, c3, c4, c5] : Nat) : Int) =
      w.prv.get c1.1 c1.2 + w.prv.get c2.1 c2.2 + w.prv.get c3.1 c3.2 +
        w.prv.get c4.1 c4.2 + w.prv.get c5.1 c5.2 := by
  have e : ∀ c, c ∈ [c1, c2, c3, c4, c5] →
      (if decide (w.rd w.prev c.1 c.2 = some 1) = true then (1 : Int) else 0) =
        w.prv.get c.1 c.2 := by
    intro c hc
    obtain ⟨hi, hj, hv⟩ := hb c hc
    rw [h.rd_prev hi hj]
    exact indicator_cast hv
  unfold liveAmong
  simp only [List.countP_cons, List.countP_nil, Nat.zero_add]
  push_cast
  rw [e c1 (by simp), e c2 (by simp), e c3 (by simp), e c4 (by simp), e c5 (by simp)]
  ring

/-- The next value of an interior cell depends only on the 3 x 3 block around it. -/
theorem Worker.WF.compute_local {w w2 : Worker} (h : w.WF) (h2 : w2.WF)
    (hm : w2.myrows = w.myrows) (hn : w2.gridsize = w.gridsize) {c : Nat}
    (hagree : ∀ i j, c - 1 ≤ j → j ≤ c + 1 → w2.rd w2.prev i j = w.rd w.prev i j)
    (hc1 : 1 ≤ c) (hc2 : c ≤ w.gridsize) :
    ∃ w' w2', compute w = some w' ∧ compute w2 = some w2' ∧
      ∀ i, 1 ≤ i → i ≤ w.myrows → w2'.rd w2'.curr i c = w'.rd w'.curr i c := by
  obtain ⟨w', hc, hwf', -, -, hgs, hmr, -, -, -, hget, -⟩ := h.compute_spec
  obtain ⟨w2', hc', hwf2', -, -, hgs2, hmr2, -, -, -, hget2, -⟩ := h2.compute_spec
  refine ⟨w', w2', hc, hc', fun i hi1 hi2 => ?_⟩
  have hg : ∀ a b, a ≤ i + 1 → c - 1 ≤ b → b ≤ c + 1 → w2.prv.get a b = w.prv.get a b := by
    intro a b ha hb1 hb2
    have := hagree a b hb1 hb2
    rw [h2.rd_prev (by omega) (by omega), h.rd_prev (by omega) (by omega)] at this
    exact Option.some.inj this
  rw [hwf2'.rd_curr (by omega) (by omega), hwf'.rd_curr (by omega) (by omega), hget2, hget,
    hm, hn, if_pos ⟨hi1, hi2, hc1, hc2⟩, if_pos ⟨hi1, hi2, hc1, hc2⟩]
  unfold Grid.next Grid.nsum
  rw [hg (i - 1) (c - 1) (by omega) (by omega) (by omega),
    hg (i - 1) c (by omega) (by omega) (by omega),
    hg (i - 1) (c + 1) (by omega) (by omega) (by omega),
    hg i (c - 1) (by omega) (by omega) (by omega),
    hg i (c + 1) (by omega) (by omega) (by omega),
    hg (i + 1) (c - 1) (by omega) (by omega) (by omega),
    hg (i + 1) c (by omega) (by omega) (by omega),
    hg (i + 1) (c + 1) (by omega) (by omega) (by omega),
    hg i c (by omega) (by omega) (by omega)]

/-- C9. No wraparound.  Take `P ≥ 1` workers with `m ≥ 1` rows each on a grid of side
`n = P*m`, started from any pattern, any number `k` of completed iterations, and the state
in which the next compute step runs (after the swap and the exchange).  There, for every
worker: the neighbour count of an interior cell `(i,1)` is the number of live cells among
`(i-1,1),(i-1,2),(i,2),(i+1,1),(i+1,2)`, and that of `(i,n)` the number of live cells among
`(i-1,n-1),(i-1,n),(i,n-1),(i+1,n-1),(i+1,n)`; when `n ≥ 3`, replacing the cells of column
`n` of the previous grid by anything leaves the next value of every cell `(i,1)` the same,
and likewise for column 1 and the cells `(i,n)`; ghost row 0 of rank 0 and ghost row `m+1`
of rank `P-1` are entirely dead. -/
theorem no_wraparound (P n m : Nat) (hP : 1 ≤ P) (hm : 1 ≤ m) (hdiv : P * m = n)
    (G : Nat → Nat → Bool) (ws0 : List Worker) (h0 : InitialWorld P n m G ws0) (k : Nat) :
    ∃ ws ws1, run k ws0 = some ws ∧ exchange (ws.map swap) = some ws1 ∧ ws1.length = P ∧
      ∀ (r : Nat) (w : Worker), ws1[r]? = some w →
        (∀ i, 1 ≤ i → i ≤ m →
          neigh_count w i 1 = some ((liveAmong w
            [(i - 1, 1), (i - 1, 2), (i, 2), (i + 1, 1), (i + 1, 2)] : Nat) : Int) ∧
          neigh_count w i n = some ((liveAmong w
            [(i - 1, n - 1), (i - 1, n), (i, n - 1), (i + 1, n - 1), (i + 1, n)] : Nat)
              : Int)) ∧
        (3 ≤ n → ∀ w2 : Worker, w2.WF → w2.myrows = m → w2.gridsize = n →
          (∀ i j, j ≠ n → w2.rd w2.prev i j = w.rd w.prev i j) →
          ∃ w' w2', compute w = some w' ∧ compute w2 = some w2' ∧
            ∀ i, 1 ≤ i → i ≤ m → w2'.rd w2'.curr i 1 = w'.rd w'.curr i 1) ∧
        (3 ≤ n → ∀ w2 : Worker, w2.WF → w2.myrows = m → w2.gridsize = n →
          (∀ i j, j ≠ 1 → w2.rd w2.prev i j = w.rd w.prev i j) →
          ∃ w' w2', compute w = some w' ∧ compute w2 = some w2' ∧
            ∀ i, 1 ≤ i → i ≤ m → w2'.rd w2'.curr i n = w'.rd w'.curr i n) ∧
        (r = 0 → ∀ j, j ≤ n + 1 → w.rd w.prev 0 j = some 0) ∧
        (r + 1 = P → ∀ j, j ≤ n + 1 → w.rd w.prev (m + 1) j = some 0) := by
  have hG := cellOf_masked n G
  have hn1 : 1 ≤ n := by
    have := Nat.mul_le_mul hP hm
    omega
  obtain ⟨ws, hrun, hinv⟩ := WorldInv.run hdiv hm k _ _ (h0.inv hdiv) hG
  have hGk := iterate_life_masked n _ hG k
  have hbin := iterate_life_binary n (cellOf_binary n G) k
  obtain ⟨ws1, hex, hwf1, hall⟩ := hinv.pre_compute hGk hdiv hm
  refine ⟨ws, ws1, hrun, hex, hwf1.1, fun r w hw => ?_⟩
  have hrP := hwf1.lt hw
  obtain ⟨v, hv⟩ := hinv.1.exists_at hrP
  obtain ⟨w', hw', -, -, hprv⟩ := hall r v hv
  rw [hw] at hw'
  obtain rfl := Option.some.inj hw'
  obtain ⟨-, -, hwn, hwm, hwf⟩ := hwf1.at hw
  have hzero : ∀ x y, x ≤ m + 1 → ¬ (1 ≤ y ∧ y ≤ n) → w.prv.get x y = 0 :=
    fun x y hx hy => by rw [hprv x y hx]; exact hGk _ _ (by omega)
  have hbinw : ∀ x y, x ≤ m + 1 → w.prv.get x y = 0 ∨ w.prv.get x y = 1 :=
    fun x y hx => by rw [hprv x y hx]; exact hbin _ _
  refine ⟨fun i hi1 hi2 => ⟨?_, ?_⟩, ?_, ?_, ?_, ?_⟩
  · rw [hwf.neigh_count_eq hi1 (by omega) (Nat.le_refl 1) (by omega), liveAmong_five hwf
      (fun c hc => by
        simp only [List.mem_cons, List.mem_singleton, List.not_mem_nil, or_false] at hc
        rcases hc with rfl | rfl | rfl | rfl | rfl <;>
          exact ⟨by simp only; omega, by simp only; omega, hbinw _ _ (by simp only; omega)⟩)]
    unfold Grid.nsum
    rw [show (1 : Nat) - 1 = 0 from rfl, hzero (i - 1) 0 (by omega) (by omega),
      hzero i 0 (by omega) (by omega), hzero (i + 1) 0 (by omega) (by omega)]
    congr 1
    ring
  · rw [hwf.neigh_count_eq hi1 (by omega) (by omega) (by omega), liveAmong_five hwf
      (fun c hc => by
        simp only [List.mem_cons, List.mem_singleton, List.not_mem_nil, or_false] at hc
        rcases hc with rfl | rfl | rfl | rfl | rfl <;>
          exact ⟨by simp only; omega, by simp only; omega, hbinw _ _ (by simp only; omega)⟩)]
    unfold Grid.nsum
    rw [hzero (i - 1) (n + 1) (by omega) (by omega),
      hzero i (n + 1) (by omega) (by omega), hzero (i + 1) (n + 1) (by omega) (by omega)]
    congr 1
    ring
  · intro hn3 w2 hwf2 hm2 hn2 hagree
    have := hwf.compute_local hwf2 (by rw [hm2, hwm]) (by rw [hn2, hwn]) (c := 1)
      (fun i j hj1 hj2 => hagree i j (by omega)) (Nat.le_refl 1) (by omega)
    rw [hwm] at this
    exact this
  · intro hn3 w2 hwf2 hm2 hn2 hagree
    have := hwf.compute_local hwf2 (by rw [hm2, hwm]) (by rw [hn2, hwn]) (c := n)
      (fun i j hj1 hj2 => hagree i j (by omega)) (by omega) (by omega)
    rw [hwm] at this
    exact this
  · intro hr0 j hj
    rw [hwf.rd_prev (by omega) (by omega), hprv 0 j (by omega), hr0, Nat.zero_mul]
    rw [hGk _ _ (by omega)]
  · intro hrl j hj
    have hrow : r * m + m = n := by rw [← hdiv, ← hrl, Nat.succ_mul]
    rw [hwf.rd_prev (by omega) (by omega), hprv (m + 1) j (by omega)]
    rw [hGk _ _ (by omega)]

theorem no_wraparound_witness :
    1 ≤ 3 ∧ 1 ≤ 1 ∧ 3 * 1 = 3 ∧ InitialWorld 3 3 1 leftColumn columnWorld3 ∧
    ∃ ws ws1, run 2 columnWorld3 = some ws ∧ exchange (ws.map swap) = some ws1 ∧
      ws1.length = 3 ∧
      ∀ (r : Nat) (w : Worker), ws1[r]? = some w →
        (∀ i, 1 ≤ i → i ≤ 1 →
          neigh_count w i 1 = some ((liveAmong w
            [(i - 1, 1), (i - 1, 2), (i, 2), (i + 1, 1), (i + 1, 2)] : Nat) : Int) ∧
          neigh_count w i 3 = some ((liveAmong w
            [(i - 1, 3 - 1), (i - 1, 3), (i, 3 - 1), (i + 1, 3 - 1), (i + 1, 3)] : Nat)
              : Int)) ∧
        (3 ≤ 3 → ∀ w2 : Worker, w2.WF → w2.myrows = 1 → w2.gridsize = 3 →
          (∀ i j, j ≠ 3 → w2.rd w2.prev i j = w.rd w.prev i j) →
          ∃ w' w2', compute w = some w' ∧ compute w2 = some w2' ∧
            ∀ i, 1 ≤ i → i ≤ 1 → w2'.rd w2'.curr i 1 = w'.rd w'.curr i 1) ∧
        (3 ≤ 3 → ∀ w2 : Worker, w2.WF → w2.myrows = 1 → w2.gridsize = 3 →
          (∀ i j, j ≠ 1 → w2.rd w2.prev i j = w.rd w.prev i j) →
          ∃ w' w2', compute w = some w' ∧ compute w2 = some w2' ∧
            ∀ i, 1 ≤ i → i ≤ 1 → w2'.rd w2'.curr i 3 = w'.rd w'.curr i 3) ∧
        (r = 0 → ∀ j, j ≤ 3 + 1 → w.rd w.prev 0 j = some 0) ∧
        (r + 1 = 3 → ∀ j, j ≤ 3 + 1 → w.rd w.prev (1 + 1) j = some 0) :=
  ⟨by decide, by decide, by decide, by decide,
    no_wraparound 3 3 1 (by decide) (by decide) (by decide) leftColumn columnWorld3
      (by decide) 2⟩

/-! ## A block across the boundary of two workers (C10) -/

theorem band_mem (i a : Nat) (hi : 1 ≤ i) (ha : 1 ≤ a) :
    (decide (i - 1 = a ∨ i - 1 = a + 1), decide (i = a ∨ i = a + 1),
      decide (i + 1 = a ∨ i + 1 = a + 1)) ∈ bandPatterns := by
  have hcases : i + 1 = a ∨ i = a ∨ i = a + 1 ∨ i = a + 2 ∨ (i + 1 < a ∨ a + 2 < i) := by
    omega
  rcases hcases with h | h | h | h | h
  · have h0 : ¬ (i - 1 = a ∨ i - 1 = a + 1) := by omega
    have h1 : ¬ (i = a ∨ i = a + 1) := by omega
    have h2 : (i + 1 = a ∨ i + 1 = a + 1) := by omega
    rw [decide_eq_false h0, decide_eq_false h1, decide_eq_true h2]
    decide
  · have h0 : ¬ (i - 1 = a ∨ i - 1 = a + 1) := by omega
    have h1 : (i = a ∨ i = a + 1) := by omega
    have h2 : (i + 1 = a ∨ i + 1 = a + 1) := by omega
    rw [decide_eq_false h0, decide_eq_true h1, decide_eq_true h2]
    decide
  · have h0 : (i - 1 = a ∨ i - 1 = a + 1) := by omega
    have h1 : (i = a ∨ i = a + 1) := by omega
    have h2 : ¬ (i + 1 = a ∨ i + 1 = a + 1) := by omega
    rw [decide_eq_true h0, decide_eq_true h1, decide_eq_false h2]
    decide
  · have h0 : (i - 1 = a ∨ i - 1 = a + 1) := by omega
    have h1 : ¬ (i = a ∨ i = a + 1) := by omega
    have h2 : ¬ (i + 1 = a ∨ i + 1 = a + 1) := by omega
    rw [decide_eq_true h0, decide_eq_false h1, decide_eq_false h2]
    decide
  · have h0 : ¬ (i - 1 = a ∨ i - 1 = a + 1) := by omega
    have h1 : ¬ (i = a ∨ i = a + 1) := by omega
    have h2 : ¬ (i + 1 = a ∨ i + 1 = a + 1) := by omega
    rw [decide_eq_false h0, decide_eq_false h1, decide_eq_false h2]
    decide

theorem band_rule : ∀ p ∈ bandPatterns, ∀ q ∈ bandPatterns,
    (if boolCell p.1 q.1 + boolCell p.1 q.2.1 + boolCell p.1 q.2.2 + boolCell p.2.1 q.1 +
          boolCell p.2.1 q.2.2 + boolCell p.2.2 q.1 + boolCell p.2.2 q.2.1 +
          boolCell p.2.2 q.2.2 = 2 then boolCell p.2.1 q.2.1
      else if boolCell p.1 q.1 + boolCell p.1 q.2.1 + boolCell p.1 q.2.2 +
          boolCell p.2.1 q.1 + boolCell p.2.1 q.2.2 + boolCell p.2.2 q.1 +
          boolCell p.2.2 q.2.1 + boolCell p.2.2 q.2.2 = 3 then 1 else 0) =
      boolCell p.2.1 q.2.1 := by
  intro p hp q hq
  simp only [bandPatterns, List.mem_cons, List.mem_singleton, List.not_mem_nil,
    or_false] at hp hq
  rcases hp with rfl | rfl | rfl | rfl | rfl <;>
    rcases hq with rfl | rfl | rfl | rfl | rfl <;> decide

theorem block_cell (n a c : Nat) (ha1 : 1 ≤ a) (ha2 : a + 1 ≤ n) (hc1 : 1 ≤ c)
    (hc2 : c + 1 ≤ n) (i j : Nat) :
    cellOf n (blockAt a c) i j =
      boolCell (decide (i = a ∨ i = a + 1)) (decide (j = c ∨ j = c + 1)) := by
  unfold cellOf mask blockAt boolCell
  by_cases hin : 1 ≤ i ∧ i ≤ n ∧ 1 ≤ j ∧ j ≤ n
  · rw [if_pos hin]
    simp only [decide_eq_true_eq]
  · rw [if_neg hin, if_neg (by simp only [decide_eq_true_eq]; omega)]

theorem block_fixed (n a c : Nat) (ha1 : 1 ≤ a) (ha2 : a + 1 ≤ n) (hc1 : 1 ≤ c)
    (hc2 : c + 1 ≤ n) (i j : Nat) (hi : 1 ≤ i) (hj : 1 ≤ j) :
    nextF (cellOf n (blockAt a c)) i j = cellOf n (blockAt a c) i j := by
  unfold nextF nsumF
  simp only [block_cell n a c ha1 ha2 hc1 hc2]
  have := band_rule _ (band_mem i a hi ha1) _ (band_mem j c hj hc1)
  simp only at this
  exact this

theorem block_life (n a c : Nat) (ha1 : 1 ≤ a) (ha2 : a + 1 ≤ n) (hc1 : 1 ≤ c)
    (hc2 : c + 1 ≤ n) : life n (cellOf n (blockAt a c)) = cellOf n (blockAt a c) := by
  funext i j
  unfold life
  by_cases hin : 1 ≤ i ∧ i ≤ n ∧ 1 ≤ j ∧ j ≤ n
  · rw [mask_inside _ hin]
    exact block_fixed n a c ha1 ha2 hc1 hc2 i j hin.1 hin.2.2.1
  · rw [mask_masked n _ i j hin, cellOf_masked n _ i j hin]

theorem sumTo_zero (n : Nat) : sumTo (fun _ => 0) n = 0 := by
  induction n with
  | zero => rfl
  | succ n ih => rw [sumTo_succ, ih]; rfl

theorem sumCells_zero (m n : Nat) : sumCells m n (fun _ _ => 0) = 0 := by
  unfold sumCells
  rw [sumTo_congr (g := fun _ => 0) (fun _ _ _ => sumTo_zero n)]
  exact sumTo_zero m

theorem sumTo_point (c : Nat) (v : Int) (n : Nat) :
    sumTo (fun j => if j = c then v else 0) n = if 1 ≤ c ∧ c ≤ n then v else 0 := by
  induction n with
  | zero =>
    have : ¬ (1 ≤ c ∧ c ≤ 0) := by omega
    rw [if_neg this]; rfl
  | succ n ih =>
    rw [sumTo_succ, ih]
    by_cases h1 : n + 1 = c
    · have e1 : ¬ (1 ≤ c ∧ c ≤ n) := by omega
      have e2 : 1 ≤ c ∧ c ≤ n + 1 := by omega
      rw [if_neg e1, if_pos h1, if_pos e2, zero_add]
    · by_cases h2 : 1 ≤ c ∧ c ≤ n
      · have e2 : 1 ≤ c ∧ c ≤ n + 1 := by omega
        rw [if_pos h2, if_neg h1, if_pos e2, add_zero]
      · have e2 : ¬ (1 ≤ c ∧ c ≤ n + 1) := by omega
        rw [if_neg h2, if_neg h1, if_neg e2, add_zero]

theorem sumTo_pair (c : Nat) (v : Int) (n : Nat) (hc1 : 1 ≤ c) (hc2 : c + 1 ≤ n) :
    sumTo (fun j => if j = c ∨ j = c + 1 then v else 0) n = v + v := by
  have e : ∀ j, 1 ≤ j → j ≤ n → (if j = c ∨ j = c + 1 then v else 0) =
      (if j = c then v else 0) + (if j = c + 1 then v else 0) := by
    intro j _ _
    by_cases h1 : j = c
    · have h2 : ¬ j = c + 1 := by omega
      simp [h1]
    · by_cases h2 : j = c + 1
      · simp [h2]
      · simp [h1, h2]
  rw [sumTo_congr e, sumTo_add, sumTo_point, sumTo_point, if_pos (by omega), if_pos (by omega)]

theorem block_count (n a c : Nat) (ha1 : 1 ≤ a) (ha2 : a + 1 ≤ n) (hc1 : 1 ≤ c)
    (hc2 : c + 1 ≤ n) : sumCells n n (cellOf n (blockAt a c)) = 4 := by
  unfold sumCells
  have e : ∀ i, 1 ≤ i → i ≤ n →
      sumTo (fun j => cellOf n (blockAt a c) i j) n = if i = a ∨ i = a + 1 then 2 else 0 := by
    intro i _ _
    by_cases hi : i = a ∨ i = a + 1
    · rw [if_pos hi]
      have h2 : sumTo (fun j => if j = c ∨ j = c + 1 then (1 : Int) else 0) n = 1 + 1 :=
        sumTo_pair c 1 n hc1 hc2
      rw [show (2 : Int) = 1 + 1 from rfl, ← h2]
      refine sumTo_congr (fun j _ _ => ?_)
      rw [block_cell n a c ha1 ha2 hc1 hc2]
      simp [boolCell, hi]
    · rw [if_neg hi, ← sumTo_zero n]
      refine sumTo_congr (fun j _ _ => ?_)
      rw [block_cell n a c ha1 ha2 hc1 hc2]
      simp [boolCell, hi]
  rw [sumTo_congr e, sumTo_pair a 2 n ha1 ha2]
  rfl

/-- C10. Halo correctness on a still life.  Let `P ≥ 2` workers with `m` rows each share a
grid of side `n = P*m ≥ 2`, let `r < P-1` and `1 ≤ c < n`, and let the initial grid be dead
except for the 2 x 2 block made of cells `(m,c),(m,c+1)` of rank `r` and `(1,c),(1,c+1)` of
rank `r+1`.  Then for every `k ≥ 1` the run of `k` iterations returns, the current interior
of every worker is cell for cell its initial interior, and the totals reduced at rank 0 by
the last iteration are living 4, died 0, born 0. -/
theorem block_still_life (P n m : Nat) (hn : 2 ≤ n) (hP : 2 ≤ P) (hdiv : P * m = n)
    (r : Nat) (hr : r + 1 < P) (c : Nat) (hc1 : 1 ≤ c) (hc2 : c < n) (ws0 : List Worker)
    (h0 : InitialWorld P n m (blockAt (r * m + m) c) ws0) (k : Nat) (hk : 1 ≤ k) :
    ∃ ws, run k ws0 = some ws ∧
      (∀ (q : Nat) (w w0 : Worker), ws[q]? = some w → ws0[q]? = some w0 →
        ∀ i j, 1 ≤ i → i ≤ m → 1 ≤ j → j ≤ n → w.rd w.curr i j = w0.rd w0.curr i j) ∧
      ∃ w, ws[0]? = some w ∧ w.global_live = 4 ∧ w.global_death = 0 ∧ w.global_birth = 0 := by
  have hm : 1 ≤ m := by
    rcases Nat.eq_zero_or_pos m with hz | hz
    · rw [hz, Nat.mul_zero] at hdiv; omega
    · exact hz
  have hb := block_le hr (Nat.le_refl m)
  have ha1 : 1 ≤ r * m + m := by omega
  have ha2 : r * m + m + 1 ≤ n := by
    rw [Nat.succ_mul] at hb
    omega
  have hc2' : c + 1 ≤ n := hc2
  have hG := cellOf_masked n (blockAt (r * m + m) c)
  have hlife := block_life n (r * m + m) c ha1 ha2 hc1 hc2'
  have hfix : ∀ t, (life n)^[t] (cellOf n (blockAt (r * m + m) c)) =
      cellOf n (blockAt (r * m + m) c) := fun t => Function.iterate_fixed hlife t
  have inv0 := h0.inv hdiv
  obtain ⟨k', rfl⟩ : ∃ k', k = k' + 1 := ⟨k - 1, by omega⟩
  obtain ⟨-, ws, -, hrun, -, -, hinv, hcnt⟩ := inv0.run_step hG hdiv hm k'
  rw [hfix] at hinv
  rw [hfix] at hcnt
  obtain ⟨w, hw⟩ := hinv.1.exists_at (show 0 < P by omega)
  obtain ⟨hgl, hgd, hgb⟩ := (hcnt 0 w hw).2.2 rfl
  have hbin := cellOf_binary n (blockAt (r * m + m) c)
  have hzero : ∀ q : Nat, ∀ x y, 1 ≤ x → x ≤ m → 1 ≤ y → y ≤ n →
      bornF (cellOf n (blockAt (r * m + m) c)) (q * m + x) y = 0 ∧
      diedF (cellOf n (blockAt (r * m + m) c)) (q * m + x) y = 0 :=
    fun q x y hx1 _ hy1 _ => bornF_diedF_of_fixed (hbin _ _)
      (block_fixed n (r * m + m) c ha1 ha2 hc1 hc2' _ _ (by omega) hy1)
  refine ⟨ws, hrun, ?_, w, hw, ?_, ?_, ?_⟩
  · intro q v v0 hv hv0 i j hi1 hi2 hj1 hj2
    rw [hinv.read_curr hv hi1 hi2 hj1 hj2, inv0.read_curr hv0 hi1 hi2 hj1 hj2]
  · rw [hgl, hinv.sum_live hdiv]
    exact block_count n (r * m + m) c ha1 ha2 hc1 hc2'
  · rw [hgd, reduceSum_eq hinv.1.1 (F := fun _ => 0) (fun q v hv => by
      rw [(hcnt q v hv).2.1, ← sumCells_zero m n]
      exact sumCells_congr (fun x y hx1 hx2 hy1 hy2 => (hzero q x y hx1 hx2 hy1 hy2).2))]
    exact Finset.sum_const_zero
  · rw [hgb, reduceSum_eq hinv.1.1 (F := fun _ => 0) (fun q v hv => by
      rw [(hcnt q v hv).1, ← sumCells_zero m n]
      exact sumCells_congr (fun x y hx1 hx2 hy1 hy2 => (hzero q x y hx1 hx2 hy1 hy2).1))]
    exact Finset.sum_const_zero

theorem block_still_life_witness :
    2 ≤ 4 ∧ 2 ≤ 2 ∧ 2 * 2 = 4 ∧ 0 + 1 < 2 ∧ 1 ≤ 2 ∧ 2 < 4 ∧
    InitialWorld 2 4 2 (blockAt (0 * 2 + 2) 2) blockWorld2 ∧ 1 ≤ 5 ∧
    ∃ ws, run 5 blockWorld2 = some ws ∧
      (∀ (q : Nat) (w w0 : Worker), ws[q]? = some w → blockWorld2[q]? = some w0 →
        ∀ i j, 1 ≤ i → i ≤ 2 → 1 ≤ j → j ≤ 4 → w.rd w.curr i j = w0.rd w0.curr i j) ∧
      ∃ w, ws[0]? = some w ∧ w.global_live = 4 ∧ w.global_death = 0 ∧ w.global_birth = 0 :=
  ⟨by decide, by decide, by decide, by decide, by decide, by decide, by decide, by decide,
    block_still_life 2 4 2 (by decide) (by decide) (by decide) 0 (by decide) 2 (by decide)
      (by decide) blockWorld2 (by decide) 5 (by decide)⟩

/-! ## Startup establishes the initial state assumed above -/

/-- The state returned by `startup` is well formed and satisfies `Worker.SeededWith` for the
pattern drawn from the samples. -/
theorem startup_seededWith {α : Type} [LT α] [DecidableRel (fun (a b : α) => a < b)]
    (numprocs mypid gridsize myrows : Nat) (garbage0 garbage1 : Nat → Nat → Int) (junk : Int)
    (samples : Nat → α) (init_pct : α) :
    ∃ w, startup numprocs mypid gridsize myrows garbage0 garbage1 junk samples init_pct
        = some w ∧
      w.WF ∧ w.numprocs = numprocs ∧ w.mypid = mypid ∧ w.gridsize = gridsize ∧
      w.myrows = myrows ∧
      w.SeededWith (fun i j => decide (samples ((i - 1) * gridsize + (j - 1)) < init_pct)) := by
  obtain ⟨w, hw, hwf, hP, hr, hgs, hmr, hc, hp, hcur, hprv, hl, -⟩ :=
    startup_spec numprocs mypid gridsize myrows garbage0 garbage1 junk samples init_pct
  refine ⟨w, hw, hwf, hP, hr, hgs, hmr, hc, hp, ?_, ?_⟩
  · intro i hi j hj
    constructor
    · rw [← hp, hwf.rd_prev (by omega) (by omega), hprv]
    · have h1 := hwf.rd_curr (i := i) (j := j) (by omega) (by omega)
      rw [hc, hcur] at h1
      rw [h1, hmr, hgs]
      by_cases hin : 1 ≤ i ∧ i ≤ myrows ∧ 1 ≤ j ∧ j ≤ gridsize
      · by_cases hs : samples ((i - 1) * gridsize + (j - 1)) < init_pct
        · simp [seedVal, hin, hs]
        · simp [seedVal, hin, hs]
      · have hout : ¬ (1 ≤ i ∧ i ≤ myrows ∧ 1 ≤ j ∧ j ≤ gridsize ∧
            decide (samples ((i - 1) * gridsize + (j - 1)) < init_pct) = true) :=
          fun hh => hin ⟨hh.1, hh.2.1, hh.2.2.1, hh.2.2.2.1⟩
        rw [if_neg hin, if_neg hout]
  · rw [hl, hmr, hgs]
    refine sumCells_congr (fun i j _ _ _ _ => ?_)
    by_cases hs : samples ((i - 1) * gridsize + (j - 1)) < init_pct <;> simp [seedVal, hs]

/-- The initial reduction of lines 99-100 leaves the world in an initial state, so whatever
is proved of runs from an `InitialWorld` holds of the runs of the program. -/
theorem InitialWorld.after_reduce {P n m : Nat} {G : Nat → Nat → Bool} {ws : List Worker}
    (h : InitialWorld P n m G ws) : InitialWorld P n m G (reduceInitial ws) := by
  have key : ∀ (r : Nat) (w' : Worker), (reduceInitial ws)[r]? = some w' →
      ∃ w, ws[r]? = some w ∧
        (w' = w ∨ w' = { w with global_live := reduceSum ws Worker.live_count }) := by
    intro r w' hw'
    unfold reduceInitial at hw'
    rw [List.getElem?_map] at hw'
    cases hw : ws[r]? with
    | none => rw [hw] at hw'; exact absurd hw' (by simp)
    | some w =>
      rw [hw] at hw'
      simp only [Option.map_some', Option.some.injEq] at hw'
      refine ⟨w, rfl, ?_⟩
      by_cases h0 : w.mypid = 0
      · rw [if_pos h0] at hw'; exact Or.inr hw'.symm
      · rw [if_neg h0] at hw'; exact Or.inl hw'.symm
  refine ⟨WorldWF.of_forall (by rw [reduceInitial_length, h.1.1]) ?_, ?_⟩
  · intro r w' hw'
    obtain ⟨w, hw, hcase⟩ := key r w' hw'
    have hwf := h.1.at hw
    rcases hcase with e | e
    · rw [e]; exact hwf
    · rw [e]; exact hwf
  · rintro ⟨r, w'⟩ hmem
    obtain ⟨w, hw, hcase⟩ := key r w' (List.mk_mem_enum_iff_getElem?.1 hmem)
    have hs := h.2 (r, w) (List.mk_mem_enum_iff_getElem?.2 hw)
    rcases hcase with e | e
    · rw [e]; exact hs
    · rw [e]; exact hs

/-! ## The glider on the 4 x 4 grid (C11) -/

theorem life_eq_cellOf {n : Nat} {G : Nat → Nat → Int} {p : Nat → Nat → Bool}
    (h : ∀ i, i ≤ n → ∀ j, j ≤ n → life n G i j = cellOf n p i j) : life n G = cellOf n p := by
  funext i j
  by_cases hin : 1 ≤ i ∧ i ≤ n ∧ 1 ≤ j ∧ j ≤ n
  · exact h i hin.2.1 j hin.2.2.2
  · rw [life_masked n G i j hin, cellOf_masked n p i j hin]

theorem glider_step0 : life 4 (cellOf 4 (patternOf (gliderGen 0))) =
    cellOf 4 (patternOf (gliderGen 1)) :=
  life_eq_cellOf (by decide)

theorem glider_step1 : life 4 (cellOf 4 (patternOf (gliderGen 1))) =
    cellOf 4 (patternOf (gliderGen 2)) :=
  life_eq_cellOf (by decide)

theorem glider_step2 : life 4 (cellOf 4 (patternOf (gliderGen 2))) =
    cellOf 4 (patternOf (gliderGen 3)) :=
  life_eq_cellOf (by decide)

theorem glider_step3 : life 4 (cellOf 4 (patternOf (gliderGen 3))) =
    cellOf 4 (patternOf (gliderGen 4)) :=
  life_eq_cellOf (by decide)

/-- A single worker holding the whole grid, after `k` iterations from a seeded state. -/
theorem single_run {n : Nat} (hn : 1 ≤ n) {p : Nat → Nat → Bool} {w : Worker}
    (h0 : InitialWorld 1 n n p [w]) (k : Nat) :
    ∃ w', run k [w] = some [w'] ∧ w'.WF ∧
      w'.live_count = sumCells n n ((life n)^[k] (cellOf n p)) ∧
      (∀ i j, 1 ≤ i → i ≤ n → 1 ≤ j → j ≤ n →
        w'.rd w'.curr i j = some ((life n)^[k] (cellOf n p) i j)) ∧
      (1 ≤ k → w'.global_live = w'.live_count ∧ w'.global_death = w'.death_count ∧
        w'.global_birth = w'.birth_count ∧
        w'.birth_count = sumCells n n (bornF ((life n)^[k - 1] (cellOf n p))) ∧
        w'.death_count = sumCells n n (diedF ((life n)^[k - 1] (cellOf n p)))) := by
  have hdiv : 1 * n = n := Nat.one_mul n
  have inv0 := h0.inv hdiv
  have hG := cellOf_masked n p
  obtain ⟨ws', hrun, hinv⟩ := WorldInv.run hdiv hn k _ _ inv0 hG
  obtain ⟨w', rfl, hw'⟩ := single_world hinv
  refine ⟨w', hrun, (hinv.1.at hw').2.2.2.2, ?_, ?_, ?_⟩
  · rw [(hinv.2 0 w' hw').2.2.2.2]
    exact sumCells_congr (fun x y _ _ _ _ => by rw [Nat.zero_mul, Nat.zero_add])
  · intro i j hi1 hi2 hj1 hj2
    rw [hinv.read_curr hw' hi1 hi2 hj1 hj2, Nat.zero_mul, Nat.zero_add]
  · intro hk
    obtain ⟨k', rfl⟩ : ∃ k', k = k' + 1 := ⟨k - 1, by omega⟩
    obtain ⟨-, wsB, -, hB, -, -, -, hcnt⟩ := inv0.run_step hG hdiv hn k'
    rw [hrun] at hB
    obtain rfl := Option.some.inj hB
    obtain ⟨hb, hd, hglob⟩ := hcnt 0 w' hw'
    obtain ⟨gl, gd, gb⟩ := hglob rfl
    refine ⟨?_, ?_, ?_, ?_, ?_⟩
    · rw [gl]; simp [reduceSum]
    · rw [gd]; simp [reduceSum]
    · rw [gb]; simp [reduceSum]
    · rw [hb, Nat.add_sub_cancel]
      exact sumCells_congr (fun x y _ _ _ _ => by rw [Nat.zero_mul, Nat.zero_add])
    · rw [hd, Nat.add_sub_cancel]
      exact sumCells_congr (fun x y _ _ _ _ => by rw [Nat.zero_mul, Nat.zero_add])

theorem glider_iterates :
    (life 4)^[1] (cellOf 4 (patternOf (gliderGen 0))) = cellOf 4 (patternOf (gliderGen 1)) ∧
    (life 4)^[2] (cellOf 4 (patternOf (gliderGen 0))) = cellOf 4 (patternOf (gliderGen 2)) ∧
    (life 4)^[3] (cellOf 4 (patternOf (gliderGen 0))) = cellOf 4 (patternOf (gliderGen 3)) ∧
    (life 4)^[4] (cellOf 4 (patternOf (gliderGen 0))) = cellOf 4 (patternOf (gliderGen 4)) := by
  have e1 : (life 4)^[1] (cellOf 4 (patternOf (gliderGen 0))) =
      cellOf 4 (patternOf (gliderGen 1)) := by
    rw [Function.iterate_succ_apply', Function.iterate_zero_apply, glider_step0]
  have e2 : (life 4)^[2] (cellOf 4 (patternOf (gliderGen 0))) =
      cellOf 4 (patternOf (gliderGen 2)) := by
    rw [Function.iterate_succ_apply', e1, glider_step1]
  have e3 : (life 4)^[3] (cellOf 4 (patternOf (gliderGen 0))) =
      cellOf 4 (patternOf (gliderGen 3)) := by
    rw [Function.iterate_succ_apply', e2, glider_step2]
  have e4 : (life 4)^[4] (cellOf 4 (patternOf (gliderGen 0))) =
      cellOf 4 (patternOf (gliderGen 4)) := by
    rw [Function.iterate_succ_apply', e3, glider_step3]
  exact ⟨e1, e2, e3, e4⟩

theorem glider_counts :
    sumCells 4 4 (cellOf 4 (patternOf (gliderGen 1))) = 5 ∧
    sumCells 4 4 (cellOf 4 (patternOf (gliderGen 2))) = 5 ∧
    sumCells 4 4 (cellOf 4 (patternOf (gliderGen 3))) = 5 ∧
    sumCells 4 4 (cellOf 4 (patternOf (gliderGen 4))) = 5 := by
  decide

theorem glider_final : ∀ i, i ≤ 4 → ∀ j, j ≤ 4 →
    cellOf 4 (patternOf (gliderGen 4)) i j =
      if (i, j) ∈ [(2, 3), (3, 4), (4, 2), (4, 3), (4, 4)] then 1 else 0 := by
  decide

theorem glider_shift : ∀ i, i ≤ 3 → ∀ j, j ≤ 3 →
    cellOf 4 (patternOf (gliderGen 4)) (i + 1) (j + 1) =
      cellOf 4 (patternOf (gliderGen 0)) i j := by
  decide

/-- C11. End-to-end glider scenario.  One worker holds the 4 x 4 grid, seeded dead except
for the glider at `(1,2),(2,3),(3,1),(3,2),(3,3)`.  The runs of 1, 2, 3 and 4 iterations
return with `live_count` (and the total reduced at rank 0) equal to 5 each time; after 4
iterations the live interior cells are exactly `(2,3),(3,4),(4,2),(4,3),(4,4)`, which is the
initial shape moved one cell down and one cell right. -/
theorem glider_advances_diagonally (w : Worker)
    (h0 : InitialWorld 1 4 4 (patternOf [(1, 2), (2, 3), (3, 1), (3, 2), (3, 3)]) [w]) :
    ∃ w1 w2 w3 w4, run 1 [w] = some [w1] ∧ run 2 [w] = some [w2] ∧ run 3 [w] = some [w3] ∧
      run 4 [w] = some [w4] ∧
      w1.live_count = 5 ∧ w2.live_count = 5 ∧ w3.live_count = 5 ∧ w4.live_count = 5 ∧
      w1.global_live = 5 ∧ w2.global_live = 5 ∧ w3.global_live = 5 ∧ w4.global_live = 5 ∧
      (∀ i j, 1 ≤ i → i ≤ 4 → 1 ≤ j → j ≤ 4 →
        w4.rd w4.curr i j =
          some (if (i, j) ∈ [(2, 3), (3, 4), (4, 2), (4, 3), (4, 4)] then 1 else 0)) ∧
      (∀ i j, 1 ≤ i → i ≤ 3 → 1 ≤ j → j ≤ 3 →
        w4.rd w4.curr (i + 1) (j + 1) = w.rd w.curr i j) := by
  have h0' : InitialWorld 1 4 4 (patternOf (gliderGen 0)) [w] := h0
  obtain ⟨e1, e2, e3, e4⟩ := glider_iterates
  obtain ⟨c1, c2, c3, c4⟩ := glider_counts
  obtain ⟨w0, hr0, -, -, hcell0, -⟩ := single_run (by decide) h0' 0
  rw [run_zero] at hr0
  have hw0 : w0 = w := by
    have := Option.some.inj hr0
    exact (List.cons.inj this).1.symm
  subst hw0
  obtain ⟨w1, hr1, -, hl1, -, hg1⟩ := single_run (by decide) h0' 1
  obtain ⟨w2, hr2, -, hl2, -, hg2⟩ := single_run (by decide) h0' 2
  obtain ⟨w3, hr3, -, hl3, -, hg3⟩ := single_run (by decide) h0' 3
  obtain ⟨w4, hr4, -, hl4, hcell4, hg4⟩ := single_run (by decide) h0' 4
  rw [e1, c1] at hl1
  rw [e2, c2] at hl2
  rw [e3, c3] at hl3
  rw [e4, c4] at hl4
  refine ⟨w1, w2, w3, w4, hr1, hr2, hr3, hr4, hl1, hl2, hl3, hl4,
    by rw [(hg1 (by decide)).1, hl1], by rw [(hg2 (by decide)).1, hl2],
    by rw [(hg3 (by decide)).1, hl3], by rw [(hg4 (by decide)).1, hl4], ?_, ?_⟩
  · intro i j hi1 hi2 hj1 hj2
    rw [hcell4 i j hi1 hi2 hj1 hj2, e4, glider_final i hi2 j hj2]
  · intro i j hi1 hi2 hj1 hj2
    rw [hcell4 (i + 1) (j + 1) (by omega) (by omega) (by omega) (by omega), e4,
      hcell0 i j hi1 (by omega) hj1 (by omega), Function.iterate_zero_apply,
      glider_shift i hi2 j hj2]

theorem glider_advances_diagonally_witness :
    InitialWorld 1 4 4 (patternOf [(1, 2), (2, 3), (3, 1), (3, 2), (3, 3)]) [gliderWorker] ∧
    ∃ w1 w2 w3 w4, run 1 [gliderWorker] = some [w1] ∧ run 2 [gliderWorker] = some [w2] ∧
      run 3 [gliderWorker] = some [w3] ∧ run 4 [gliderWorker] = some [w4] ∧
      w1.live_count = 5 ∧ w2.live_count = 5 ∧ w3.live_count = 5 ∧ w4.live_count = 5 ∧
      w1.global_live = 5 ∧ w2.global_live = 5 ∧ w3.global_live = 5 ∧ w4.global_live = 5 ∧
      (∀ i j, 1 ≤ i → i ≤ 4 → 1 ≤ j → j ≤ 4 →
        w4.rd w4.curr i j =
          some (if (i, j) ∈ [(2, 3), (3, 4), (4, 2), (4, 3), (4, 4)] then 1 else 0)) ∧
      (∀ i j, 1 ≤ i → i ≤ 3 → 1 ≤ j → j ≤ 3 →
        w4.rd w4.curr (i + 1) (j + 1) = gliderWorker.rd gliderWorker.curr i j) :=
  ⟨by decide, glider_advances_diagonally gliderWorker (by decide)⟩

/-! ## Frame of the compute step (C18) -/

/-- C18. Frame of the compute step.  On a well-formed worker the compute step returns; the
whole previous grid is left as it was, and so is every cell of the current grid outside
rows `1..myrows` and columns `1..gridsize`, in particular ghost rows `0` and `myrows+1` and
columns `0` and `gridsize+1`; the roles and the dimensions are unchanged. -/
theorem compute_frame (w : Worker) (hw : w.WF) :
    ∃ w', compute w = some w' ∧
      w'.sel w'.prev = w.sel w.prev ∧
      (∀ i j, w'.rd w'.prev i j = w.rd w.prev i j) ∧
      (∀ i j, ¬ (1 ≤ i ∧ i ≤ w.myrows ∧ 1 ≤ j ∧ j ≤ w.gridsize) →
        w'.rd w'.curr i j = w.rd w.curr i j) ∧
      (∀ j, j ≤ w.gridsize + 1 →
        w'.rd w'.curr 0 j = w.rd w.curr 0 j ∧
        w'.rd w'.curr (w.myrows + 1) j = w.rd w.curr (w.myrows + 1) j) ∧
      (∀ i, i ≤ w.myrows + 1 →
        w'.rd w'.curr i 0 = w.rd w.curr i 0 ∧
        w'.rd w'.curr i (w.gridsize + 1) = w.rd w.curr i (w.gridsize + 1)) ∧
      w'.curr = w.curr ∧ w'.prev = w.prev ∧ w'.myrows = w.myrows ∧
      w'.gridsize = w.gridsize := by
  obtain ⟨w', hc, hwf', -, -, hgs, hmr, hcurr, hprev, hprv, hget, -⟩ := hw.compute_spec
  have hout : ∀ i j, ¬ (1 ≤ i ∧ i ≤ w.myrows ∧ 1 ≤ j ∧ j ≤ w.gridsize) →
      w'.rd w'.curr i j = w.rd w.curr i j := by
    intro i j hij
    by_cases hb : i < w.myrows + 2 ∧ j < w.gridsize + 2
    · rw [hwf'.rd_curr (by omega) (by omega), hw.rd_curr hb.1 hb.2, hget, if_neg hij]
    · have e1 : w'.rd w'.curr i j = none := by
        unfold Worker.rd
        rw [hwf'.sel_curr]
        exact hwf'.shaped_cur.read_none (by omega)
      have e2 : w.rd w.curr i j = none := by
        unfold Worker.rd
        rw [hw.sel_curr]
        exact hw.shaped_cur.read_none hb
      rw [e1, e2]
  have hsel : w'.sel w'.prev = w.sel w.prev := by rw [hwf'.sel_prev, hw.sel_prev, hprv]
  refine ⟨w', hc, hsel, ?_, hout, ?_, ?_, hcurr, hprev, hmr, hgs⟩
  · intro i j
    unfold Worker.rd
    rw [hsel]
  · intro j _
    exact ⟨hout 0 j (by omega), hout (w.myrows + 1) j (by omega)⟩
  · intro i _
    exact ⟨hout i 0 (by omega), hout i (w.gridsize + 1) (by omega)⟩

theorem compute_frame_witness :
    exampleWorker.WF ∧
    ∃ w', compute exampleWorker = some w' ∧
      w'.sel w'.prev = exampleWorker.sel exampleWorker.prev ∧
      (∀ i j, w'.rd w'.prev i j = exampleWorker.rd exampleWorker.prev i j) ∧
      (∀ i j, ¬ (1 ≤ i ∧ i ≤ exampleWorker.myrows ∧ 1 ≤ j ∧ j ≤ exampleWorker.gridsize) →
        w'.rd w'.curr i j = exampleWorker.rd exampleWorker.curr i j) ∧
      (∀ j, j ≤ exampleWorker.gridsize + 1 →
        w'.rd w'.curr 0 j = exampleWorker.rd exampleWorker.curr 0 j ∧
        w'.rd w'.curr (exampleWorker.myrows + 1) j =
          exampleWorker.rd exampleWorker.curr (exampleWorker.myrows + 1) j) ∧
      (∀ i, i ≤ exampleWorker.myrows + 1 →
        w'.rd w'.curr i 0 = exampleWorker.rd exampleWorker.curr i 0 ∧
        w'.rd w'.curr i (exampleWorker.gridsize + 1) =
          exampleWorker.rd exampleWorker.curr i (exampleWorker.gridsize + 1)) ∧
      w'.curr = exampleWorker.curr ∧ w'.prev = exampleWorker.prev ∧
      w'.myrows = exampleWorker.myrows ∧ w'.gridsize = exampleWorker.gridsize :=
  ⟨by decide, compute_frame exampleWorker (by decide)⟩

/-! ## Determinism (C13) -/

/-- C13. Determinism.  (1) Two well-formed workers of the same dimensions whose previous
grids are identical, whatever their current grids, counters and roles, come out of the
compute step with the same current interior and the same three counters.  (2) Two worlds
started with the same pattern, the same number of workers and the same dimensions give, for
every number `k` of iterations, the same current interiors and the same `live_count`, and
for `k ≥ 1` the same `birth_count`, `death_count` and totals at rank 0. -/
theorem compute_and_run_deterministic (w1 w2 : Worker) (h1 : w1.WF) (h2 : w2.WF)
    (hm12 : w1.myrows = w2.myrows) (hn12 : w1.gridsize = w2.gridsize)
    (hprev : w1.sel w1.prev = w2.sel w2.prev)
    (P n m : Nat) (hm : 1 ≤ m) (hdiv : P * m = n) (G : Nat → Nat → Bool)
    (ws ws' : List Worker) (hws : InitialWorld P n m G ws) (hws' : InitialWorld P n m G ws') :
    (∃ w1' w2', compute w1 = some w1' ∧ compute w2 = some w2' ∧
      (∀ i j, 1 ≤ i → i ≤ w1.myrows → 1 ≤ j → j ≤ w1.gridsize →
        w1'.rd w1'.curr i j = w2'.rd w2'.curr i j) ∧
      w1'.live_count = w2'.live_count ∧ w1'.birth_count = w2'.birth_count ∧
      w1'.death_count = w2'.death_count) ∧
    ∀ k, ∃ a b, run k ws = some a ∧ run k ws' = some b ∧ a.length = P ∧ b.length = P ∧
      ∀ (r : Nat) (wa wb : Worker), a[r]? = some wa → b[r]? = some wb →
        (∀ i j, 1 ≤ i → i ≤ m → 1 ≤ j → j ≤ n → wa.rd wa.curr i j = wb.rd wb.curr i j) ∧
        wa.live_count = wb.live_count ∧
        (1 ≤ k → wa.birth_count = wb.birth_count ∧ wa.death_count = wb.death_count ∧
          (r = 0 → wa.global_live = wb.global_live ∧ wa.global_death = wb.global_death ∧
            wa.global_birth = wb.global_birth)) := by
  constructor
  · obtain ⟨w1', hc1, hwf1, -, -, gs1, mr1, -, -, -, hget1, hl1, hb1, hd1⟩ := h1.compute_spec
    obtain ⟨w2', hc2, hwf2, -, -, gs2, mr2, -, -, -, hget2, hl2, hb2, hd2⟩ := h2.compute_spec
    have hp : w1.prv = w2.prv := by
      rw [h1.sel_prev, h2.sel_prev] at hprev
      exact Option.some.inj hprev
    refine ⟨w1', w2', hc1, hc2, ?_, ?_, ?_, ?_⟩
    · intro i j hi1 hi2 hj1 hj2
      rw [hwf1.rd_curr (by omega) (by omega), hwf2.rd_curr (by omega) (by omega), hget1, hget2,
        if_pos ⟨hi1, hi2, hj1, hj2⟩, if_pos ⟨hi1, by omega, hj1, by omega⟩, hp]
    · rw [hl1, hl2, hp, hm12, hn12]
    · rw [hb1, hb2, hp, hm12, hn12]
    · rw [hd1, hd2, hp, hm12, hn12]
  · intro k
    have hG := cellOf_masked n G
    have inv := hws.inv hdiv
    have inv' := hws'.inv hdiv
    obtain ⟨a, hra, hinva⟩ := WorldInv.run hdiv hm k _ _ inv hG
    obtain ⟨b, hrb, hinvb⟩ := WorldInv.run hdiv hm k _ _ inv' hG
    refine ⟨a, b, hra, hrb, hinva.1.1, hinvb.1.1, fun r wa wb hwa hwb => ⟨?_, ?_, ?_⟩⟩
    · intro i j hi1 hi2 hj1 hj2
      rw [hinva.read_curr hwa hi1 hi2 hj1 hj2, hinvb.read_curr hwb hi1 hi2 hj1 hj2]
    · rw [(hinva.2 r wa hwa).2.2.2.2, (hinvb.2 r wb hwb).2.2.2.2]
    · intro hk
      obtain ⟨k', rfl⟩ : ∃ k', k = k' + 1 := ⟨k - 1, by omega⟩
      obtain ⟨-, a', -, hA, -, -, hiA, hcntA⟩ := inv.run_step hG hdiv hm k'
      obtain ⟨-, b', -, hB, -, -, hiB, hcntB⟩ := inv'.run_step hG hdiv hm k'
      rw [hra] at hA
      obtain rfl := Option.some.inj hA
      rw [hrb] at hB
      obtain rfl := Option.some.inj hB
      obtain ⟨ba, da, ga⟩ := hcntA r wa hwa
      obtain ⟨bb, db, gb⟩ := hcntB r wb hwb
      refine ⟨by rw [ba, bb], by rw [da, db], fun hr0 => ?_⟩
      obtain ⟨x1, x2, x3⟩ := ga hr0
      obtain ⟨y1, y2, y3⟩ := gb hr0
      refine ⟨?_, ?_, ?_⟩
      · rw [x1, y1, hiA.sum_live hdiv, hiB.sum_live hdiv]
      · rw [x2, y2, reduceSum_eq hiA.1.1 (fun q v hv => (hcntA q v hv).2.1),
          reduceSum_eq hiB.1.1 (fun q v hv => (hcntB q v hv).2.1)]
      · rw [x3, y3, reduceSum_eq hiA.1.1 (fun q v hv => (hcntA q v hv).1),
          reduceSum_eq hiB.1.1 (fun q v hv => (hcntB q v hv).1)]

theorem compute_and_run_deterministic_witness :
    exampleWorker.WF ∧ exampleWorkerStale.WF ∧
    exampleWorker.myrows = exampleWorkerStale.myrows ∧
    exampleWorker.gridsize = exampleWorkerStale.gridsize ∧
    exampleWorker.sel exampleWorker.prev = exampleWorkerStale.sel exampleWorkerStale.prev ∧
    1 ≤ 1 ∧ 2 * 1 = 2 ∧ InitialWorld 2 2 1 corner cornerWorld2 ∧
    InitialWorld 2 2 1 corner cornerWorld2Junk ∧
    (∃ w1' w2', compute exampleWorker = some w1' ∧ compute exampleWorkerStale = some w2' ∧
      (∀ i j, 1 ≤ i → i ≤ exampleWorker.myrows → 1 ≤ j → j ≤ exampleWorker.gridsize →
        w1'.rd w1'.curr i j = w2'.rd w2'.curr i j) ∧
      w1'.live_count = w2'.live_count ∧ w1'.birth_count = w2'.birth_count ∧
      w1'.death_count = w2'.death_count) ∧
    ∀ k, ∃ a b, run k cornerWorld2 = some a ∧ run k cornerWorld2Junk = some b ∧
      a.length = 2 ∧ b.length = 2 ∧
      ∀ (r : Nat) (wa wb : Worker), a[r]? = some wa → b[r]? = some wb →
        (∀ i j, 1 ≤ i → i ≤ 1 → 1 ≤ j → j ≤ 2 → wa.rd wa.curr i j = wb.rd wb.curr i j) ∧
        wa.live_count = wb.live_count ∧
        (1 ≤ k → wa.birth_count = wb.birth_count ∧ wa.death_count = wb.death_count ∧
          (r = 0 → wa.global_live = wb.global_live ∧ wa.global_death = wb.global_death ∧
            wa.global_birth = wb.global_birth)) :=
  ⟨by decide, by decide, by decide, by decide, by decide, by decide, by decide, by decide,
    by decide,
    compute_and_run_deterministic exampleWorker exampleWorkerStale (by decide) (by decide)
      (by decide) (by decide) (by decide) 2 2 1 (by decide) (by decide) corner cornerWorld2
      cornerWorld2Junk (by decide) (by decide)⟩

/-! ## Cells and roles across an iteration -/

theorem reduceStats_roles {ws : List Worker} {r : Nat} {w' : Worker}
    (h : (reduceStats ws)[r]? = some w') :
    ∃ w, ws[r]? = some w ∧ w'.curr = w.curr ∧ w'.prev = w.prev ∧ w'.grid0 = w.grid0 ∧
      w'.grid1 = w.grid1 := by
  unfold reduceStats at h
  rw [List.getElem?_map] at h
  cases hw : ws[r]? with
  | none => rw [hw] at h; exact absurd h (by simp)
  | some w =>
    rw [hw] at h
    simp only [Option.map_some', Option.some.injEq] at h
    subst h
    refine ⟨w, rfl, ?_⟩
    by_cases h0 : w.mypid = 0
    · rw [if_pos h0]; exact ⟨rfl, rfl, rfl, rfl⟩
    · rw [if_neg h0]; exact ⟨rfl, rfl, rfl, rfl⟩

/-- What one iteration does to the grids and roles of the worker of rank `r`: the roles are
exchanged, the new previous grid shows the part of `G` around the block of the worker, and
outside the interior the new current grid is the old previous grid. -/
theorem WorldInv.iteration_cells {P n m : Nat} {G : Nat → Nat → Int} {ws ws' : List Worker}
    (h : WorldInv P n m G ws) (hG : Masked n G) (hdiv : P * m = n) (hm : 1 ≤ m)
    (hit : MpiLife.iteration ws = some ws') {r : Nat} {w w' : Worker}
    (hw : ws[r]? = some w) (hw' : ws'[r]? = some w') :
    (∀ x y, x ≤ m + 1 → w'.prv.get x y = G (r * m + x) y) ∧
    (∀ x y, ¬ (1 ≤ x ∧ x ≤ m ∧ 1 ≤ y ∧ y ≤ n) → w'.cur.get x y = w.prv.get x y) ∧
    w'.curr = 1 - w.curr ∧ w'.prev = 1 - w.prev ∧ w'.WF := by
  obtain ⟨ws1, hex, hwf1, hall1⟩ := h.pre_compute hG hdiv hm
  obtain ⟨ws1', hex', -, hall1'⟩ := h.1.map_swap.exchange_spec hm
  rw [hex] at hex'
  obtain rfl := Option.some.inj hex'
  obtain ⟨ws2, hc2, hlen2, hall2⟩ := mapOpt_spec compute ws1 (fun w1 hw1 => by
    obtain ⟨q, hq, -⟩ := hwf1.of_mem hw1
    obtain ⟨-, -, -, -, hwf⟩ := hwf1.at hq
    obtain ⟨w2, hw2, -⟩ := hwf.compute_spec
    exact ⟨w2, hw2⟩)
  unfold MpiLife.iteration at hit
  rw [hex] at hit
  simp only [hc2] at hit
  obtain rfl := Option.some.inj hit
  obtain ⟨w2, hw2, hcurr2, hprev2, hg0, hg1⟩ := reduceStats_roles hw'
  obtain ⟨-, -, hcur', hprv', hwfimp, -⟩ := reduceStats_at hw'
  obtain ⟨w1, hw1, hcur1, -, hprv1⟩ := hall1 r w hw
  have hsw : (ws.map swap)[r]? = some (swap w) := by rw [List.getElem?_map, hw]; rfl
  obtain ⟨w1', hw1', heq1, -, -⟩ := hall1' r (swap w) hsw
  rw [hw1] at hw1'
  obtain rfl := Option.some.inj hw1'
  obtain ⟨b, hb, hcomp⟩ := hall2 r w1 hw1
  obtain ⟨-, -, hn1, hm1, hwf1w⟩ := hwf1.at hw1
  obtain ⟨w2', hcomp', hwf2, -, -, -, -, fc, fp, hprv2, hget2, -⟩ := hwf1w.compute_spec
  rw [hcomp] at hcomp'
  obtain rfl := Option.some.inj hcomp'
  obtain ⟨v, hv, vcur, vprv, vwf, -⟩ := reduceStats_at hw'
  rw [hb] at hv
  obtain rfl := Option.some.inj hv
  rw [hb] at hw2
  obtain rfl := Option.some.inj hw2
  obtain ⟨-, -, -, -, sc, sp, -⟩ := Worker.setPrv_fields (swap w) (haloPrv (ws.map swap) (swap w))
  rw [hm1, hn1] at hget2
  refine ⟨?_, ?_, ?_, ?_, vwf hwf2⟩
  · intro x y hx
    rw [vprv, hprv2, hprv1 x y hx]
  · intro x y hxy
    rw [vcur, hget2, if_neg hxy, hcur1]
  · rw [hcurr2, fc, heq1, sc]; rfl
  · rw [hprev2, fp, heq1, sp]; rfl

/-! ## Both grids of every reachable worker -/

theorem Worker.WF.rd_cases {w : Worker} (h : w.WF) {b : Int} (hb : b = 0 ∨ b = 1) {i j : Nat}
    (hi : i < w.myrows + 2) (hj : j < w.gridsize + 2) :
    w.rd b i j = some (w.cur.get i j) ∨ w.rd b i j = some (w.prv.get i j) := by
  have hc := h.rd_curr hi hj
  have hp := h.rd_prev hi hj
  rcases h.2.2 with ⟨c, p⟩ | ⟨c, p⟩ <;> rw [c] at hc <;> rw [p] at hp <;>
    rcases hb with rfl | rfl
  · exact Or.inl hc
  · exact Or.inr hp
  · exact Or.inr hp
  · exact Or.inl hc

theorem Worker.Bin.grids {w : Worker} (hb : w.Bin) (h : w.WF) :
    Binary w.grid0 ∧ Binary w.grid1 := by
  rcases h.2.2 with ⟨c, p⟩ | ⟨c, p⟩
  · have e1 : w.cur = w.grid0 := by simp [Worker.cur, c]
    have e2 : w.prv = w.grid1 := by simp [Worker.prv, p]
    exact ⟨Binary.of_get (fun i j => by rw [← e1]; exact (hb i j).1),
      Binary.of_get (fun i j => by rw [← e2]; exact (hb i j).2)⟩
  · have e1 : w.cur = w.grid1 := by simp [Worker.cur, c]
    have e2 : w.prv = w.grid0 := by simp [Worker.prv, p]
    exact ⟨Binary.of_get (fun i j => by rw [← e2]; exact (hb i j).2),
      Binary.of_get (fun i j => by rw [← e1]; exact (hb i j).1)⟩

/-- Right after startup the previous grid is all zero and the current grid is zero outside
the interior and 0 or 1 inside. -/
theorem InitialWorld.cells {P n m : Nat} {G : Nat → Nat → Bool} {ws : List Worker}
    (h : InitialWorld P n m G ws) {r : Nat} {w : Worker} (hw : ws[r]? = some w) :
    (∀ x y, w.prv.get x y = 0) ∧
    (∀ x y, ¬ (1 ≤ x ∧ x ≤ m ∧ 1 ≤ y ∧ y ≤ n) → w.cur.get x y = 0) ∧ w.Bin := by
  obtain ⟨hP, hr, hn, hm, hwf⟩ := h.1.at hw
  obtain ⟨hc, hp, hcells, hlive⟩ := h.2 (r, w) (List.mk_mem_enum_iff_getElem?.2 hw)
  simp only at hc hp hcells hlive
  rw [hm, hn] at hcells hlive
  have hcur : ∀ x y, x ≤ m + 1 → y ≤ n + 1 → w.cur.get x y =
      if 1 ≤ x ∧ x ≤ m ∧ 1 ≤ y ∧ y ≤ n ∧ G (r * m + x) y = true then 1 else 0 := by
    intro x y hx hy
    have h1 := (hcells x hx y hy).2
    have h2 := hwf.rd_curr (i := x) (j := y) (by omega) (by omega)
    rw [hc, h1] at h2
    exact (Option.some.inj h2).symm
  have hprv : ∀ x y, w.prv.get x y = 0 := by
    intro x y
    by_cases hxy : x ≤ m + 1 ∧ y ≤ n + 1
    · have h1 := (hcells x hxy.1 y hxy.2).1
      have h2 := hwf.rd_prev (i := x) (j := y) (by omega) (by omega)
      rw [hp, h1] at h2
      exact (Option.some.inj h2).symm
    · exact (hwf.get_zero_oob (by rw [hm, hn]; exact hxy)).2
  have hcur0 : ∀ x y, ¬ (1 ≤ x ∧ x ≤ m ∧ 1 ≤ y ∧ y ≤ n) → w.cur.get x y = 0 := by
    intro x y hout
    by_cases hxy : x ≤ m + 1 ∧ y ≤ n + 1
    · rw [hcur x y hxy.1 hxy.2]
      have : ¬ (1 ≤ x ∧ x ≤ m ∧ 1 ≤ y ∧ y ≤ n ∧ G (r * m + x) y = true) :=
        fun hh => hout ⟨hh.1, hh.2.1, hh.2.2.1, hh.2.2.2.1⟩
      rw [if_neg this]
    · exact (hwf.get_zero_oob (by rw [hm, hn]; exact hxy)).1
  refine ⟨hprv, hcur0, fun x y => ⟨?_, Or.inl (hprv x y)⟩⟩
  by_cases hxy : x ≤ m + 1 ∧ y ≤ n + 1
  · rw [hcur x y hxy.1 hxy.2]
    split
    · exact Or.inr rfl
    · exact Or.inl rfl
  · exact Or.inl (hwf.get_zero_oob (by rw [hm, hn]; exact hxy)).1

/-- One iteration keeps every cell of both grids of every worker at 0 or 1. -/
theorem WorldInv.iteration_bin {P n m : Nat} {G : Nat → Nat → Int} {ws ws' : List Worker}
    (h : WorldInv P n m G ws) (hG : Masked n G) (hdiv : P * m = n) (hm : 1 ≤ m)
    (hbin : ∀ i j, G i j = 0 ∨ G i j = 1)
    (hb : ∀ (r : Nat) (w : Worker), ws[r]? = some w → w.Bin)
    (hit : MpiLife.iteration ws = some ws') (h' : WorldInv P n m (life n G) ws') :
    ∀ (r : Nat) (w : Worker), ws'[r]? = some w → w.Bin := by
  intro r w' hw'
  have hrP := h'.1.lt hw'
  obtain ⟨w, hw⟩ := h.1.exists_at hrP
  obtain ⟨hprv, hcur, -, -, hwf'⟩ := h.iteration_cells hG hdiv hm hit hw hw'
  obtain ⟨-, -, hn', hm', -⟩ := h'.1.at hw'
  intro x y
  constructor
  · by_cases hxy : 1 ≤ x ∧ x ≤ m ∧ 1 ≤ y ∧ y ≤ n
    · rw [(h'.2 r w' hw').1 x y hxy.1 hxy.2.1 hxy.2.2.1 hxy.2.2.2]
      exact life_binary n hbin _ _
    · rw [hcur x y hxy]
      exact (hb r w hw x y).2
  · by_cases hx : x ≤ m + 1
    · rw [hprv x y hx]
      exact hbin _ _
    · exact Or.inl (hwf'.get_zero_oob (by rw [hm']; omega)).2

theorem WorldInv.run_bin {P n m : Nat} (hdiv : P * m = n) (hm : 1 ≤ m) (k : Nat) :
    ∀ (G : Nat → Nat → Int) (ws : List Worker), WorldInv P n m G ws → Masked n G →
      (∀ i j, G i j = 0 ∨ G i j = 1) →
      (∀ (r : Nat) (w : Worker), ws[r]? = some w → w.Bin) →
      ∃ ws', MpiLife.run k ws = some ws' ∧ WorldInv P n m ((life n)^[k] G) ws' ∧
        ∀ (r : Nat) (w : Worker), ws'[r]? = some w → w.Bin := by
  induction k with
  | zero => intro G ws h _ _ hb; exact ⟨ws, rfl, h, hb⟩
  | succ k ih =>
    intro G ws h hG hbin hb
    obtain ⟨ws1, h1, hinv1, -⟩ := h.iteration hG hdiv hm
    have hb1 := h.iteration_bin hG hdiv hm hbin hb h1 hinv1
    obtain ⟨ws', h', hinv', hb'⟩ := ih (life n G) ws1 hinv1 (life_masked n G)
      (life_binary n hbin) hb1
    refine ⟨ws', ?_, ?_, hb'⟩
    · rw [run_succ, h1]; exact h'
    · rw [Function.iterate_succ_apply]; exact hinv'

/-- From the initial world, `k` iterations return a world that satisfies the invariant for
the `k`-th generation and has only 0 and 1 in its grids. -/
theorem InitialWorld.run_binary {P n m : Nat} {G : Nat → Nat → Bool} {ws : List Worker}
    (h : InitialWorld P n m G ws) (hdiv : P * m = n) (hm : 1 ≤ m) (k : Nat) :
    ∃ ws', MpiLife.run k ws = some ws' ∧ WorldInv P n m ((life n)^[k] (cellOf n G)) ws' ∧
      ∀ (r : Nat) (w : Worker), ws'[r]? = some w → w.Bin :=
  WorldInv.run_bin hdiv hm k (cellOf n G) ws (h.inv hdiv) (cellOf_masked n G)
    (cellOf_binary n G) (fun _ _ hw => (h.cells hw).2.2)

/-! ## The dead border (C14) -/

theorem Worker.WF.border_of_get {w : Worker} (h : w.WF) {P n m r : Nat} (hn : w.gridsize = n)
    (hm : w.myrows = m)
    (hcol : ∀ x, w.cur.get x 0 = 0 ∧ w.cur.get x (n + 1) = 0 ∧
      w.prv.get x 0 = 0 ∧ w.prv.get x (n + 1) = 0)
    (htop : r = 0 → ∀ y, w.cur.get 0 y = 0 ∧ w.prv.get 0 y = 0)
    (hbot : r + 1 = P → ∀ y, w.cur.get (m + 1) y = 0 ∧ w.prv.get (m + 1) y = 0) :
    w.BorderDead P n m r := by
  intro b hb
  have key : ∀ i j, i ≤ m + 1 → j ≤ n + 1 → w.cur.get i j = 0 → w.prv.get i j = 0 →
      w.rd b i j = some 0 := by
    intro i j hi hj hc hp
    rcases h.rd_cases hb (i := i) (j := j) (by omega) (by omega) with e | e
    · rw [e, hc]
    · rw [e, hp]
  refine ⟨fun i hi => ⟨key i 0 hi (by omega) (hcol i).1 (hcol i).2.2.1,
    key i (n + 1) hi (by omega) (hcol i).2.1 (hcol i).2.2.2⟩, fun h0 j hj => ?_,
    fun hP j hj => ?_⟩
  · exact key 0 j (by omega) hj (htop h0 j).1 (htop h0 j).2
  · exact key (m + 1) j (by omega) hj (hbot hP j).1 (hbot hP j).2

theorem Worker.rd_congr {a b : Worker} (h0 : a.grid0 = b.grid0) (h1 : a.grid1 = b.grid1)
    (k : Int) (i j : Nat) : a.rd k i j = b.rd k i j := by
  unfold Worker.rd Worker.sel
  rw [h0, h1]

theorem Worker.BorderDead.congr {a b : Worker} {P n m r : Nat} (h : a.BorderDead P n m r)
    (h0 : a.grid0 = b.grid0) (h1 : a.grid1 = b.grid1) : b.BorderDead P n m r := by
  intro k hk
  obtain ⟨c1, c2, c3⟩ := h k hk
  refine ⟨fun i hi => ?_, fun hr j hj => ?_, fun hr j hj => ?_⟩
  · rw [← Worker.rd_congr h0 h1, ← Worker.rd_congr h0 h1]; exact c1 i hi
  · rw [← Worker.rd_congr h0 h1]; exact c2 hr j hj
  · rw [← Worker.rd_congr h0 h1]; exact c3 hr j hj

theorem WorldInv.border_dead {P n m : Nat} {G : Nat → Nat → Int} {ws : List Worker}
    (h : WorldInv P n m G ws) {r : Nat} {w : Worker} (hw : ws[r]? = some w) :
    w.BorderDead P n m r ∧ (swap w).BorderDead P n m r := by
  obtain ⟨-, -, hn, hm, hwf⟩ := h.1.at hw
  obtain ⟨-, hcol, htop, hbot, -⟩ := h.2 r w hw
  refine ⟨hwf.border_of_get hn hm hcol htop hbot, ?_⟩
  refine hwf.swap.border_of_get hn hm (fun x => ?_) (fun h0 y => ?_) (fun hP y => ?_)
  · rw [hwf.swap_cur, hwf.swap_prv]
    exact ⟨(hcol x).2.2.1, (hcol x).2.2.2, (hcol x).1, (hcol x).2.1⟩
  · rw [hwf.swap_cur, hwf.swap_prv]
    exact ⟨(htop h0 y).2, (htop h0 y).1⟩
  · rw [hwf.swap_cur, hwf.swap_prv]
    exact ⟨(hbot hP y).2, (hbot hP y).1⟩

/-- C14. Fixed dead border. From the world right after startup, with any number of workers
`P`, block height `m ≥ 1` and `n = P * m`, every number `k` of iterations returns a world,
and there and in the three states the next iteration goes through (after the role swap,
after the ghost-row exchange, which is the state before the compute step, and after the
compute step) the border of the whole grid is dead in both grids of every worker: columns 0
and `n+1` of every local row `0..m+1`, row 0 of the worker of rank 0 and row `m+1` of the
worker of rank `P-1` all read 0. The state after the compute step differs from the state
after iteration `k+1` only in the global counters of rank 0. -/
theorem border_stays_dead (P n m : Nat) (hm : 1 ≤ m) (hdiv : P * m = n)
    (G : Nat → Nat → Bool) (ws0 : List Worker) (h0 : InitialWorld P n m G ws0) (k : Nat) :
    ∃ ws ws1 wsc, run k ws0 = some ws ∧ exchange (ws.map swap) = some ws1 ∧
      mapOpt compute ws1 = some wsc ∧ run (k + 1) ws0 = some (reduceStats wsc) ∧
      ws.length = P ∧ ws1.length = P ∧ wsc.length = P ∧
      ∀ (r : Nat),
        (∀ w, ws[r]? = some w → w.BorderDead P n m r ∧ (swap w).BorderDead P n m r) ∧
        (∀ w, ws1[r]? = some w → w.BorderDead P n m r) ∧
        (∀ w, wsc[r]? = some w → w.BorderDead P n m r) := by
  obtain ⟨wsA, wsB, hrA, hrB, hit, invA, invB, -⟩ :=
    (h0.inv hdiv).run_step (cellOf_masked n G) hdiv hm k
  have hGk := iterate_life_masked n _ (cellOf_masked n G) k
  obtain ⟨ws1, hex, hwf1, hall1⟩ := invA.pre_compute hGk hdiv hm
  unfold iteration at hit
  rw [hex] at hit
  simp only at hit
  cases hc : mapOpt compute ws1 with
  | none => rw [hc] at hit; exact absurd hit (by simp)
  | some wsc =>
    rw [hc] at hit
    simp only [Option.some.injEq] at hit
    subst hit
    have hlenc : wsc.length = P := by rw [← reduceStats_length]; exact invB.1.1
    refine ⟨wsA, ws1, wsc, hrA, hex, hc, hrB, invA.1.1, hwf1.1, hlenc, fun r => ⟨?_, ?_, ?_⟩⟩
    · intro w hw
      exact invA.border_dead hw
    · intro w1 hw1
      have hrP := hwf1.lt hw1
      obtain ⟨w, hw⟩ := invA.1.exists_at hrP
      obtain ⟨w1', hw1', hcur1, -, hprv1⟩ := hall1 r w hw
      rw [hw1] at hw1'
      obtain rfl := Option.some.inj hw1'
      obtain ⟨-, -, hn1, hm1, hwfw1⟩ := hwf1.at hw1
      obtain ⟨-, hcol, htop, hbot, -⟩ := invA.2 r w hw
      have hprv0 : ∀ x y, ¬ (1 ≤ r * m + x ∧ r * m + x ≤ n ∧ 1 ≤ y ∧ y ≤ n) →
          w1.prv.get x y = 0 := by
        intro x y hxy
        by_cases hx : x ≤ m + 1
        · rw [hprv1 x y hx]
          exact hGk _ _ hxy
        · exact (hwfw1.get_zero_oob (by rw [hm1]; omega)).2
      refine hwfw1.border_of_get hn1 hm1 (fun x => ?_) (fun hr0 y => ?_) (fun hP y => ?_)
      · rw [hcur1]
        exact ⟨(hcol x).2.2.1, (hcol x).2.2.2, hprv0 x 0 (by omega), hprv0 x (n + 1) (by omega)⟩
      · rw [hcur1]
        exact ⟨(htop hr0 y).2, hprv0 0 y (by subst hr0; omega)⟩
      · rw [hcur1]
        refine ⟨(hbot hP y).2, hprv0 (m + 1) y ?_⟩
        have : r * m + m = n := by rw [← hdiv, ← hP, Nat.succ_mul]
        omega
    · intro wc hwc
      have hrP : r < P := by
        rw [← hlenc]
        exact (List.getElem?_eq_some_iff.1 hwc).1
      obtain ⟨w2, hw2⟩ := invB.1.exists_at hrP
      obtain ⟨wc', hwc', -, -, hg0, hg1⟩ := reduceStats_roles hw2
      rw [hwc] at hwc'
      obtain rfl := Option.some.inj hwc'
      exact (invB.border_dead hw2).1.congr hg0 hg1

theorem border_stays_dead_witness :
    1 ≤ 1 ∧ 3 * 1 = 3 ∧ InitialWorld 3 3 1 leftColumn columnWorld3 ∧
    ∃ ws ws1 wsc, run 5 columnWorld3 = some ws ∧ exchange (ws.map swap) = some ws1 ∧
      mapOpt compute ws1 = some wsc ∧ run (5 + 1) columnWorld3 = some (reduceStats wsc) ∧
      ws.length = 3 ∧ ws1.length = 3 ∧ wsc.length = 3 ∧
      ∀ (r : Nat),
        (∀ w, ws[r]? = some w → w.BorderDead 3 3 1 r ∧ (swap w).BorderDead 3 3 1 r) ∧
        (∀ w, ws1[r]? = some w → w.BorderDead 3 3 1 r) ∧
        (∀ w, wsc[r]? = some w → w.BorderDead 3 3 1 r) :=
  ⟨by decide, by decide, by decide,
    border_stays_dead 3 3 1 (by decide) (by decide) leftColumn columnWorld3 (by decide) 5⟩

/-! ## The role swap (C15) -/

theorem swap_swap (w : Worker) : swap (swap w) = w := by
  cases w
  simp [swap]

theorem Worker.WF.swap_sel {w : Worker} (h : w.WF) :
    (MpiLife.swap w).sel (MpiLife.swap w).prev = w.sel w.curr ∧
      (MpiLife.swap w).sel (MpiLife.swap w).curr = w.sel w.prev := by
  rcases h.2.2 with ⟨hc, hp⟩ | ⟨hc, hp⟩ <;> simp [MpiLife.swap, Worker.sel, hc, hp]

theorem Worker.WF.roles_ne {w : Worker} (h : w.WF) : w.curr ≠ w.prev := by
  rcases h.2.2 with ⟨hc, hp⟩ | ⟨hc, hp⟩ <;> rw [hc, hp] <;> decide

/-- C15. The swap exchanges the roles without touching data. For every worker, swapping
leaves both grids unchanged and swapping twice gives the worker back. From the world right
after startup, every number `k` of iterations returns a world in which every worker has
`curr = 0, prev = 1` or `curr = 1, prev = 0` (so `curr ≠ prev`); after one swap the grid
selected by `prev` is the grid that `curr` selected before and conversely. The exchange of
iteration `k+1` keeps the swapped roles, so the compute step of iteration `k+1` reads as
previous interior exactly the current interior of the state after `k` iterations (the
seeded state when `k = 0`), and after iteration `k+1` the two role indices have traded
places. -/
theorem swap_exchanges_roles (P n m : Nat) (hm : 1 ≤ m) (hdiv : P * m = n)
    (G : Nat → Nat → Bool) (ws0 : List Worker) (h0 : InitialWorld P n m G ws0) (k : Nat) :
    (∀ v : Worker, (swap v).grid0 = v.grid0 ∧ (swap v).grid1 = v.grid1 ∧
      swap (swap v) = v) ∧
    ∃ ws ws1 ws2, run k ws0 = some ws ∧ exchange (ws.map swap) = some ws1 ∧
      run (k + 1) ws0 = some ws2 ∧ ws.length = P ∧ ws1.length = P ∧ ws2.length = P ∧
      ∀ (r : Nat) (w w1 w2 : Worker), ws[r]? = some w → ws1[r]? = some w1 →
        ws2[r]? = some w2 →
        ((w.curr = 0 ∧ w.prev = 1) ∨ (w.curr = 1 ∧ w.prev = 0)) ∧ w.curr ≠ w.prev ∧
        (swap w).sel (swap w).prev = w.sel w.curr ∧
        (swap w).sel (swap w).curr = w.sel w.prev ∧
        w1.curr = (swap w).curr ∧ w1.prev = (swap w).prev ∧
        (∀ i j, 1 ≤ i → i ≤ m → 1 ≤ j → j ≤ n → w1.rd w1.prev i j = w.rd w.curr i j) ∧
        w2.curr = w.prev ∧ w2.prev = w.curr := by
  refine ⟨fun v => ⟨rfl, rfl, swap_swap v⟩, ?_⟩
  obtain ⟨wsA, wsB, hrA, hrB, hit, invA, invB, -⟩ :=
    (h0.inv hdiv).run_step (cellOf_masked n G) hdiv hm k
  have hGk := iterate_life_masked n _ (cellOf_masked n G) k
  obtain ⟨ws1, hex, hwf1, hall1⟩ := invA.pre_compute hGk hdiv hm
  obtain ⟨ws1', hex', -, hall1'⟩ := invA.1.map_swap.exchange_spec hm
  rw [hex] at hex'
  obtain rfl := Option.some.inj hex'
  refine ⟨wsA, ws1, wsB, hrA, hex, hrB, invA.1.1, hwf1.1, invB.1.1, ?_⟩
  intro r w w1 w2 hw hw1 hw2
  obtain ⟨-, -, hn, hmr, hwf⟩ := invA.1.at hw
  obtain ⟨-, -, hn1, hmr1, hwfw1⟩ := hwf1.at hw1
  obtain ⟨w1', hw1', -, -, hprv1⟩ := hall1 r w hw
  rw [hw1] at hw1'
  obtain rfl := Option.some.inj hw1'
  have hsw : (wsA.map swap)[r]? = some (swap w) := by rw [List.getElem?_map, hw]; rfl
  obtain ⟨w1', hw1', heq1, -, -⟩ := hall1' r (swap w) hsw
  rw [hw1] at hw1'
  obtain rfl := Option.some.inj hw1'
  obtain ⟨-, -, -, -, sc, sp, -⟩ :=
    Worker.setPrv_fields (swap w) (haloPrv (wsA.map swap) (swap w))
  obtain ⟨-, -, hc2, hp2, -⟩ := invA.iteration_cells hGk hdiv hm hit hw hw2
  refine ⟨hwf.2.2, hwf.roles_ne, hwf.swap_sel.1, hwf.swap_sel.2, ?_, ?_, ?_, ?_, ?_⟩
  · rw [heq1, sc]
  · rw [heq1, sp]
  · intro i j hi1 hi2 hj1 hj2
    rw [hwfw1.rd_prev (by omega) (by omega), hwf.rd_curr (by omega) (by omega),
      hprv1 i j (by omega), (invA.2 r w hw).1 i j hi1 hi2 hj1 hj2]
  · rw [hc2]
    rcases hwf.2.2 with ⟨hc, hp⟩ | ⟨hc, hp⟩ <;> rw [hc, hp] <;> rfl
  · rw [hp2]
    rcases hwf.2.2 with ⟨hc, hp⟩ | ⟨hc, hp⟩ <;> rw [hc, hp] <;> rfl

theorem swap_exchanges_roles_witness :
    1 ≤ 1 ∧ 2 * 1 = 2 ∧ InitialWorld 2 2 1 corner cornerWorld2 ∧
    (∀ v : Worker, (swap v).grid0 = v.grid0 ∧ (swap v).grid1 = v.grid1 ∧
      swap (swap v) = v) ∧
    ∃ ws ws1 ws2, run 3 cornerWorld2 = some ws ∧ exchange (ws.map swap) = some ws1 ∧
      run (3 + 1) cornerWorld2 = some ws2 ∧ ws.length = 2 ∧ ws1.length = 2 ∧
      ws2.length = 2 ∧
      ∀ (r : Nat) (w w1 w2 : Worker), ws[r]? = some w → ws1[r]? = some w1 →
        ws2[r]? = some w2 →
        ((w.curr = 0 ∧ w.prev = 1) ∨ (w.curr = 1 ∧ w.prev = 0)) ∧ w.curr ≠ w.prev ∧
        (swap w).sel (swap w).prev = w.sel w.curr ∧
        (swap w).sel (swap w).curr = w.sel w.prev ∧
        w1.curr = (swap w).curr ∧ w1.prev = (swap w).prev ∧
        (∀ i j, 1 ≤ i → i ≤ 1 → 1 ≤ j → j ≤ 2 → w1.rd w1.prev i j = w.rd w.curr i j) ∧
        w2.curr = w.prev ∧ w2.prev = w.curr :=
  ⟨by decide, by decide, by decide,
    swap_exchanges_roles 2 2 1 (by decide) (by decide) corner cornerWorld2 (by decide) 3⟩

/-! ## Cells are 0 or 1 (C19) -/

theorem sumTo_bounds {f : Nat → Int} {n : Nat}
    (h : ∀ k, 1 ≤ k → k ≤ n → 0 ≤ f k ∧ f k ≤ 1) : 0 ≤ sumTo f n ∧ sumTo f n ≤ (n : Int) := by
  induction n with
  | zero => exact ⟨le_refl _, le_refl _⟩
  | succ n ih =>
    obtain ⟨a, b⟩ := ih (fun k h1 h2 => h k h1 (by omega))
    obtain ⟨c, d⟩ := h (n + 1) (by omega) (le_refl _)
    rw [sumTo_succ]
    push_cast
    constructor <;> omega

theorem sumCells_bounds {f : Nat → Nat → Int} {m n : Nat}
    (h : ∀ i j, 1 ≤ i → i ≤ m → 1 ≤ j → j ≤ n → 0 ≤ f i j ∧ f i j ≤ 1) :
    0 ≤ sumCells m n f ∧ sumCells m n f ≤ ((m * n : Nat) : Int) := by
  unfold sumCells
  induction m with
  | zero => simp [sumTo]
  | succ m ih =>
    obtain ⟨a, b⟩ := ih (fun i j h1 h2 h3 h4 => h i j h1 (by omega) h3 h4)
    obtain ⟨c, d⟩ := sumTo_bounds (f := fun j => f (m + 1) j) (n := n)
      (fun j h1 h2 => h (m + 1) j (by omega) (le_refl _) h1 h2)
    rw [sumTo_succ, Nat.succ_mul]
    push_cast at b ⊢
    constructor <;> omega

theorem bornF_diedF_bounds (G : Nat → Nat → Int) (i j : Nat) :
    0 ≤ bornF G i j ∧ 0 ≤ diedF G i j ∧ bornF G i j + diedF G i j ≤ 1 := by
  unfold bornF diedF
  by_cases h0 : G i j = 0
  · have : ¬ (nsumF G i j ≠ 2 ∧ nsumF G i j ≠ 3 ∧ G i j ≠ 0) := fun h => h.2.2 h0
    rw [if_neg this]
    split <;> decide
  · have : ¬ (nsumF G i j = 3 ∧ G i j = 0) := fun h => h0 h.2
    rw [if_neg this]
    split <;> decide

theorem Grid.nsum_bounds {g : Grid} (h : ∀ x y, g.get x y = 0 ∨ g.get x y = 1) (i j : Nat) :
    0 ≤ g.nsum i j ∧ g.nsum i j ≤ 8 := by
  unfold Grid.nsum
  have a1 := h (i - 1) (j - 1)
  have a2 := h (i - 1) j
  have a3 := h (i - 1) (j + 1)
  have a4 := h i (j - 1)
  have a5 := h i (j + 1)
  have a6 := h (i + 1) (j - 1)
  have a7 := h (i + 1) j
  have a8 := h (i + 1) (j + 1)
  constructor <;> omega

/-- C19. Cells stay binary. From the world right after startup, every number `k` of
iterations returns a world, the exchange of the next iteration returns as well, and in
both states every entry of both grids of every worker (interior, ghost rows and column
borders) is 0 or 1. Hence every neighbour count the compute step of the next iteration
takes at an interior cell lies in `0..8`, every `live_count` lies in `0..m*n`, and after at
least one iteration `birth_count` and `death_count` are non-negative with
`birth_count + death_count ≤ m*n`. -/
theorem cells_stay_binary (P n m : Nat) (hm : 1 ≤ m) (hdiv : P * m = n)
    (G : Nat → Nat → Bool) (ws0 : List Worker) (h0 : InitialWorld P n m G ws0) (k : Nat) :
    ∃ ws ws1, run k ws0 = some ws ∧ exchange (ws.map swap) = some ws1 ∧
      ws.length = P ∧ ws1.length = P ∧
      (∀ (r : Nat) (w : Worker), ws[r]? = some w →
        Binary w.grid0 ∧ Binary w.grid1 ∧
        0 ≤ w.live_count ∧ w.live_count ≤ ((m * n : Nat) : Int) ∧
        (1 ≤ k → 0 ≤ w.birth_count ∧ 0 ≤ w.death_count ∧
          w.birth_count + w.death_count ≤ ((m * n : Nat) : Int))) ∧
      (∀ (r : Nat) (w1 : Worker), ws1[r]? = some w1 →
        Binary w1.grid0 ∧ Binary w1.grid1 ∧
        ∀ i j, 1 ≤ i → i ≤ m → 1 ≤ j → j ≤ n →
          ∃ c, neigh_count w1 i j = some c ∧ 0 ≤ c ∧ c ≤ 8) := by
  obtain ⟨ws, hrun, inv, hb⟩ := h0.run_binary hdiv hm k
  have hGk := iterate_life_masked n _ (cellOf_masked n G) k
  have hbin := iterate_life_binary n (cellOf_binary n G) k
  obtain ⟨ws1, hex, hwf1, hall1⟩ := inv.pre_compute hGk hdiv hm
  refine ⟨ws, ws1, hrun, hex, inv.1.1, hwf1.1, ?_, ?_⟩
  · intro r w hw
    obtain ⟨-, -, -, -, hwf⟩ := inv.1.at hw
    obtain ⟨g0, g1⟩ := (hb r w hw).grids hwf
    have hl := (inv.2 r w hw).2.2.2.2
    have hlb := sumCells_bounds (f := fun x y => (life n)^[k] (cellOf n G) (r * m + x) y)
      (m := m) (n := n) (fun i j _ _ _ _ => by
        show 0 ≤ (life n)^[k] (cellOf n G) (r * m + i) j ∧
          (life n)^[k] (cellOf n G) (r * m + i) j ≤ 1
        rcases hbin (r * m + i) j with e | e <;> rw [e] <;> decide)
    rw [← hl] at hlb
    refine ⟨g0, g1, hlb.1, hlb.2, fun hk => ?_⟩
    obtain ⟨k', rfl⟩ : ∃ k', k = k' + 1 := ⟨k - 1, by omega⟩
    obtain ⟨wsA, wsB, -, hrB, -, -, -, hcnt⟩ :=
      (h0.inv hdiv).run_step (cellOf_masked n G) hdiv hm k'
    rw [hrun] at hrB
    obtain rfl := Option.some.inj hrB
    obtain ⟨hbc, hdc, -⟩ := hcnt r w hw
    have h1 := sumCells_bounds
      (f := fun x y => bornF ((life n)^[k'] (cellOf n G)) (r * m + x) y) (m := m) (n := n)
      (fun i j _ _ _ _ => by
        have := bornF_diedF_bounds ((life n)^[k'] (cellOf n G)) (r * m + i) j
        dsimp only
        constructor <;> omega)
    have h2 := sumCells_bounds
      (f := fun x y => diedF ((life n)^[k'] (cellOf n G)) (r * m + x) y) (m := m) (n := n)
      (fun i j _ _ _ _ => by
        have := bornF_diedF_bounds ((life n)^[k'] (cellOf n G)) (r * m + i) j
        dsimp only
        constructor <;> omega)
    have h3 := sumCells_bounds
      (f := fun x y => bornF ((life n)^[k'] (cellOf n G)) (r * m + x) y +
        diedF ((life n)^[k'] (cellOf n G)) (r * m + x) y) (m := m) (n := n)
      (fun i j _ _ _ _ => by
        have := bornF_diedF_bounds ((life n)^[k'] (cellOf n G)) (r * m + i) j
        dsimp only
        constructor <;> omega)
    rw [sumCells_add] at h3
    rw [hbc, hdc]
    exact ⟨h1.1, h2.1, h3.2⟩
  · intro r w1 hw1
    have hrP := hwf1.lt hw1
    obtain ⟨w, hw⟩ := inv.1.exists_at hrP
    obtain ⟨w1', hw1', hcur1, -, hprv1⟩ := hall1 r w hw
    rw [hw1] at hw1'
    obtain rfl := Option.some.inj hw1'
    obtain ⟨-, -, hn1, hm1, hwfw1⟩ := hwf1.at hw1
    have hp : ∀ x y, w1.prv.get x y = 0 ∨ w1.prv.get x y = 1 := by
      intro x y
      by_cases hx : x ≤ m + 1
      · rw [hprv1 x y hx]; exact hbin _ _
      · exact Or.inl (hwfw1.get_zero_oob (by rw [hm1]; omega)).2
    have hb1 : w1.Bin := fun x y => ⟨by rw [hcur1]; exact (hb r w hw x y).2, hp x y⟩
    obtain ⟨g0, g1⟩ := hb1.grids hwfw1
    refine ⟨g0, g1, fun i j hi1 hi2 hj1 hj2 => ?_⟩
    refine ⟨_, hwfw1.neigh_count_eq hi1 (by omega) hj1 (by omega), ?_⟩
    exact Grid.nsum_bounds hp i j

theorem cells_stay_binary_witness :
    1 ≤ 1 ∧ 3 * 1 = 3 ∧ InitialWorld 3 3 1 leftColumn columnWorld3 ∧
    ∃ ws ws1, run 2 columnWorld3 = some ws ∧ exchange (ws.map swap) = some ws1 ∧
      ws.length = 3 ∧ ws1.length = 3 ∧
      (∀ (r : Nat) (w : Worker), ws[r]? = some w →
        Binary w.grid0 ∧ Binary w.grid1 ∧
        0 ≤ w.live_count ∧ w.live_count ≤ ((1 * 3 : Nat) : Int) ∧
        (1 ≤ 2 → 0 ≤ w.birth_count ∧ 0 ≤ w.death_count ∧
          w.birth_count + w.death_count ≤ ((1 * 3 : Nat) : Int))) ∧
      (∀ (r : Nat) (w1 : Worker), ws1[r]? = some w1 →
        Binary w1.grid0 ∧ Binary w1.grid1 ∧
        ∀ i j, 1 ≤ i → i ≤ 1 → 1 ≤ j → j ≤ 3 →
          ∃ c, neigh_count w1 i j = some c ∧ 0 ≤ c ∧ c ≤ 8) :=
  ⟨by decide, by decide, by decide,
    cells_stay_binary 3 3 1 (by decide) (by decide) leftColumn columnWorld3 (by decide) 2⟩

/-! ## Index safety (C17) -/

theorem Shaped.write_none {g : Grid} {R C i j : Nat} (h : Shaped g R C)
    (hij : ¬ (i < R ∧ j < C)) (v : Int) : g.write i j v = none := by
  unfold Grid.write
  by_cases hi : i < R
  · obtain ⟨row, hrow, hlen⟩ := h.row hi
    rw [hrow]
    have : ¬ j < row.length := by rw [hlen]; exact fun hj => hij ⟨hi, hj⟩
    simp [this]
  · have : g[i]? = none := List.getElem?_eq_none (by rw [h.1]; omega)
    rw [this]

theorem Worker.WF.outbox_length {w : Worker} (h : w.WF) (hm : 1 ≤ w.myrows) {x : Msg}
    (hx : x ∈ w.outbox) : x.data.length = w.gridsize + 2 := by
  obtain ⟨-, hd | hd⟩ := mem_outbox hx
  · obtain ⟨row, hrow, hlen⟩ := h.shaped_prv.row (i := w.myrows) (by omega)
    rw [hd.2.2, hrow]; exact hlen
  · obtain ⟨row, hrow, hlen⟩ := h.shaped_prv.row (i := 1) (by omega)
    rw [hd.2.2, hrow]; exact hlen

/-- C17. Index safety. With block height `m ≥ 1` and both grids of shape
`(m+2) x (n+2)`, the checked accessors fail exactly outside rows `0..m+1` and columns
`0..n+1`, and no step of the program takes that branch: zeroing and seeding at startup
return a worker; on every well-formed worker the eight neighbour reads and the cell update
return at every interior cell and the whole compute step returns; in every well-formed
world every worker posts its boundary rows as messages of `n+2` cells and the exchange
returns; and from the world right after startup any number of iterations returns. -/
theorem accesses_in_bounds (α : Type) [LT α] [DecidableRel (fun (a b : α) => a < b)]
    (m n : Nat) (hm : 1 ≤ m) :
    (∀ (g : Grid), Shaped g (m + 2) (n + 2) → ∀ i j,
      (g.read i j ≠ none ↔ i ≤ m + 1 ∧ j ≤ n + 1) ∧
      ∀ v, (g.write i j v ≠ none ↔ i ≤ m + 1 ∧ j ≤ n + 1)) ∧
    (∀ (numprocs mypid : Nat) (garbage0 garbage1 : Nat → Nat → Int) (junk : Int)
        (samples : Nat → α) (init_pct : α),
      ∃ w, startup numprocs mypid n m garbage0 garbage1 junk samples init_pct = some w ∧
        Shaped w.grid0 (m + 2) (n + 2) ∧ Shaped w.grid1 (m + 2) (n + 2)) ∧
    (∀ w : Worker, w.WF → w.myrows = m → w.gridsize = n →
      (∀ i j, 1 ≤ i → i ≤ m → 1 ≤ j → j ≤ n →
        (∃ c, neigh_count w i j = some c) ∧ ∃ w', cellStep i j w = some w') ∧
      ∃ w', compute w = some w' ∧ w'.WF) ∧
    (∀ (P : Nat) (ws : List Worker), WorldWF P n m ws →
      (∀ w ∈ ws, ∃ out, sends w = some out ∧ ∀ x ∈ out, x.data.length = n + 2) ∧
      ∃ ws', exchange ws = some ws' ∧ WorldWF P n m ws') ∧
    (∀ (P : Nat) (G : Nat → Nat → Bool) (ws0 : List Worker), P * m = n →
      InitialWorld P n m G ws0 → ∀ k, ∃ ws, run k ws0 = some ws) := by
  refine ⟨fun g hg i j => ⟨?_, fun v => ?_⟩, ?_, ?_, ?_, ?_⟩
  · constructor
    · intro hne
      by_contra hij
      exact hne (hg.read_none (by omega))
    · intro hij
      rw [hg.read_get (by omega) (by omega)]
      simp
  · constructor
    · intro hne
      by_contra hij
      exact hne (hg.write_none (by omega) v)
    · intro hij
      rw [hg.write_put (by omega) (by omega)]
      simp
  · intro numprocs mypid garbage0 garbage1 junk samples init_pct
    obtain ⟨w, hw, hwf, -, -, hn, hmr, -⟩ :=
      startup_spec numprocs mypid n m garbage0 garbage1 junk samples init_pct
    refine ⟨w, hw, ?_, ?_⟩
    · have := hwf.1; rw [hn, hmr] at this; exact this
    · have := hwf.2.1; rw [hn, hmr] at this; exact this
  · intro w hwf hmr hn
    refine ⟨fun i j hi1 hi2 hj1 hj2 => ⟨⟨_, hwf.neigh_count_eq hi1 (by omega) hj1 (by omega)⟩,
      ⟨_, hwf.cellStep_eq hi1 (by omega) hj1 (by omega)⟩⟩, ?_⟩
    obtain ⟨w', hw', hwf', -⟩ := hwf.compute_spec
    exact ⟨w', hw', hwf'⟩
  · intro P ws hws
    constructor
    · intro w hw
      obtain ⟨r, hr, -⟩ := hws.of_mem hw
      obtain ⟨-, -, hn, hmr, hwf⟩ := hws.at hr
      refine ⟨w.outbox, hwf.sends_eq (by omega), fun x hx => ?_⟩
      rw [← hn]
      exact hwf.outbox_length (by omega) hx
    · obtain ⟨ws', h1, h2, -⟩ := hws.exchange_spec hm
      exact ⟨ws', h1, h2⟩
  · intro P G ws0 hdiv h0 k
    obtain ⟨ws, h, -⟩ := WorldInv.run hdiv hm k _ _ (h0.inv hdiv) (cellOf_masked n G)
    exact ⟨ws, h⟩

theorem accesses_in_bounds_witness :
    1 ≤ 2 ∧
    ((∀ (g : Grid), Shaped g (2 + 2) (2 + 2) → ∀ i j,
      (g.read i j ≠ none ↔ i ≤ 2 + 1 ∧ j ≤ 2 + 1) ∧
      ∀ v, (g.write i j v ≠ none ↔ i ≤ 2 + 1 ∧ j ≤ 2 + 1)) ∧
    (∀ (numprocs mypid : Nat) (garbage0 garbage1 : Nat → Nat → Int) (junk : Int)
        (samples : Nat → Nat) (init_pct : Nat),
      ∃ w, startup numprocs mypid 2 2 garbage0 garbage1 junk samples init_pct = some w ∧
        Shaped w.grid0 (2 + 2) (2 + 2) ∧ Shaped w.grid1 (2 + 2) (2 + 2)) ∧
    (∀ w : Worker, w.WF → w.myrows = 2 → w.gridsize = 2 →
      (∀ i j, 1 ≤ i → i ≤ 2 → 1 ≤ j → j ≤ 2 →
        (∃ c, neigh_count w i j = some c) ∧ ∃ w', cellStep i j w = some w') ∧
      ∃ w', compute w = some w' ∧ w'.WF) ∧
    (∀ (P : Nat) (ws : List Worker), WorldWF P 2 2 ws →
      (∀ w ∈ ws, ∃ out, sends w = some out ∧ ∀ x ∈ out, x.data.length = 2 + 2) ∧
      ∃ ws', exchange ws = some ws' ∧ WorldWF P 2 2 ws') ∧
    (∀ (P : Nat) (G : Nat → Nat → Bool) (ws0 : List Worker), P * 2 = 2 →
      InitialWorld P 2 2 G ws0 → ∀ k, ∃ ws, run k ws0 = some ws)) :=
  ⟨by decide, accesses_in_bounds Nat 2 2 (by decide)⟩

/-! ## The blinker (C12) -/

theorem oneRows_mem (x a : Nat) (hx : 1 ≤ x) :
    (decide (x - 1 = a), decide (x = a), decide (x + 1 = a),
      decide (x + 1 = a ∨ x = a ∨ x = a + 1), decide (x + 1 = a ∨ x = a + 1)) ∈ oneRows := by
  have hcases : x + 1 = a ∨ x = a ∨ x = a + 1 ∨ (x + 1 < a ∨ a + 1 < x) := by omega
  rcases hcases with h | h | h | h
  · rw [decide_eq_false (show ¬ x - 1 = a by omega), decide_eq_false (show ¬ x = a by omega),
      decide_eq_true (show x + 1 = a by omega),
      decide_eq_true (show x + 1 = a ∨ x = a ∨ x = a + 1 by omega),
      decide_eq_true (show x + 1 = a ∨ x = a + 1 by omega)]
    decide
  · rw [decide_eq_false (show ¬ x - 1 = a by omega), decide_eq_true (show x = a by omega),
      decide_eq_false (show ¬ x + 1 = a by omega),
      decide_eq_true (show x + 1 = a ∨ x = a ∨ x = a + 1 by omega),
      decide_eq_false (show ¬ (x + 1 = a ∨ x = a + 1) by omega)]
    decide
  · rw [decide_eq_true (show x - 1 = a by omega), decide_eq_false (show ¬ x = a by omega),
      decide_eq_false (show ¬ x + 1 = a by omega),
      decide_eq_true (show x + 1 = a ∨ x = a ∨ x = a + 1 by omega),
      decide_eq_true (show x + 1 = a ∨ x = a + 1 by omega)]
    decide
  · rw [decide_eq_false (show ¬ x - 1 = a by omega), decide_eq_false (show ¬ x = a by omega),
      decide_eq_false (show ¬ x + 1 = a by omega),
      decide_eq_false (show ¬ (x + 1 = a ∨ x = a ∨ x = a + 1) by omega),
      decide_eq_false (show ¬ (x + 1 = a ∨ x = a + 1) by omega)]
    decide

theorem threeRows_mem (x a : Nat) (hx : 1 ≤ x) :
    (decide (x - 1 + 1 = a ∨ x - 1 = a ∨ x - 1 = a + 1),
      decide (x + 1 = a ∨ x = a ∨ x = a + 1),
      decide (x + 1 + 1 = a ∨ x + 1 = a ∨ x + 1 = a + 1),
      decide (x = a), decide (x + 1 = a ∨ x = a + 1)) ∈ threeRows := by
  have hcases : x + 2 = a ∨ x + 1 = a ∨ x = a ∨ x = a + 1 ∨ x = a + 2 ∨
      (x + 2 < a ∨ a + 2 < x) := by omega
  rcases hcases with h | h | h | h | h | h
  · rw [decide_eq_false (show ¬ (x - 1 + 1 = a ∨ x - 1 = a ∨ x - 1 = a + 1) by omega),
      decide_eq_false (show ¬ (x + 1 = a ∨ x = a ∨ x = a + 1) by omega),
      decide_eq_true (show x + 1 + 1 = a ∨ x + 1 = a ∨ x + 1 = a + 1 by omega),
      decide_eq_false (show ¬ x = a by omega),
      decide_eq_false (show ¬ (x + 1 = a ∨ x = a + 1) by omega)]
    decide
  · rw [decide_eq_false (show ¬ (x - 1 + 1 = a ∨ x - 1 = a ∨ x - 1 = a + 1) by omega),
      decide_eq_true (show x + 1 = a ∨ x = a ∨ x = a + 1 by omega),
      decide_eq_true (show x + 1 + 1 = a ∨ x + 1 = a ∨ x + 1 = a + 1 by omega),
      decide_eq_false (show ¬ x = a by omega),
      decide_eq_true (show x + 1 = a ∨ x = a + 1 by omega)]
    decide
  · rw [decide_eq_true (show x - 1 + 1 = a ∨ x - 1 = a ∨ x - 1 = a + 1 by omega),
      decide_eq_true (show x + 1 = a ∨ x = a ∨ x = a + 1 by omega),
      decide_eq_true (show x + 1 + 1 = a ∨ x + 1 = a ∨ x + 1 = a + 1 by omega),
      decide_eq_true (show x = a by omega),
      decide_eq_false (show ¬ (x + 1 = a ∨ x = a + 1) by omega)]
    decide
  · rw [decide_eq_true (show x - 1 + 1 = a ∨ x - 1 = a ∨ x - 1 = a + 1 by omega),
      decide_eq_true (show x + 1 = a ∨ x = a ∨ x = a + 1 by omega),
      decide_eq_false (show ¬ (x + 1 + 1 = a ∨ x + 1 = a ∨ x + 1 = a + 1) by omega),
      decide_eq_false (show ¬ x = a by omega),
      decide_eq_true (show x + 1 = a ∨ x = a + 1 by omega)]
    decide
  · rw [decide_eq_true (show x - 1 + 1 = a ∨ x - 1 = a ∨ x - 1 = a + 1 by omega),
      decide_eq_false (show ¬ (x + 1 = a ∨ x = a ∨ x = a + 1) by omega),
      decide_eq_false (show ¬ (x + 1 + 1 = a ∨ x + 1 = a ∨ x + 1 = a + 1) by omega),
      decide_eq_false (show ¬ x = a by omega),
      decide_eq_false (show ¬ (x + 1 = a ∨ x = a + 1) by omega)]
    decide
  · rw [decide_eq_false (show ¬ (x - 1 + 1 = a ∨ x - 1 = a ∨ x - 1 = a + 1) by omega),
      decide_eq_false (show ¬ (x + 1 = a ∨ x = a ∨ x = a + 1) by omega),
      decide_eq_false (show ¬ (x + 1 + 1 = a ∨ x + 1 = a ∨ x + 1 = a + 1) by omega),
      decide_eq_false (show ¬ x = a by omega),
      decide_eq_false (show ¬ (x + 1 = a ∨ x = a + 1) by omega)]
    decide

/-- The rule on a horizontal triple: rows meet a single index, columns meet three. -/
theorem blinker_rule_hv : ∀ p ∈ oneRows, ∀ q ∈ threeRows,
    (if patternSum p.1 p.2.1 p.2.2.1 q.1 q.2.1 q.2.2.1 = 2 then boolCell p.2.1 q.2.1
      else if patternSum p.1 p.2.1 p.2.2.1 q.1 q.2.1 q.2.2.1 = 3 then 1 else 0) =
      boolCell p.2.2.2.1 q.2.2.2.1 ∧
    (if patternSum p.1 p.2.1 p.2.2.1 q.1 q.2.1 q.2.2.1 = 3 ∧ boolCell p.2.1 q.2.1 = 0
      then 1 else 0) = boolCell p.2.2.2.2 q.2.2.2.1 ∧
    (if patternSum p.1 p.2.1 p.2.2.1 q.1 q.2.1 q.2.2.1 ≠ 2 ∧
        patternSum p.1 p.2.1 p.2.2.1 q.1 q.2.1 q.2.2.1 ≠ 3 ∧ boolCell p.2.1 q.2.1 ≠ 0
      then 1 else 0) = boolCell p.2.1 q.2.2.2.2 := by
  intro p hp q hq
  simp only [oneRows, threeRows, List.mem_cons, List.mem_singleton, List.not_mem_nil,
    or_false] at hp hq
  rcases hp with rfl | rfl | rfl | rfl <;>
    rcases hq with rfl | rfl | rfl | rfl | rfl | rfl <;> decide

/-- The rule on a vertical triple: rows meet three indices, columns meet a single one. -/
theorem blinker_rule_vh : ∀ p ∈ threeRows, ∀ q ∈ oneRows,
    (if patternSum p.1 p.2.1 p.2.2.1 q.1 q.2.1 q.2.2.1 = 2 then boolCell p.2.1 q.2.1
      else if patternSum p.1 p.2.1 p.2.2.1 q.1 q.2.1 q.2.2.1 = 3 then 1 else 0) =
      boolCell p.2.2.2.1 q.2.2.2.1 ∧
    (if patternSum p.1 p.2.1 p.2.2.1 q.1 q.2.1 q.2.2.1 = 3 ∧ boolCell p.2.1 q.2.1 = 0
      then 1 else 0) = boolCell p.2.2.2.1 q.2.2.2.2 ∧
    (if patternSum p.1 p.2.1 p.2.2.1 q.1 q.2.1 q.2.2.1 ≠ 2 ∧
        patternSum p.1 p.2.1 p.2.2.1 q.1 q.2.1 q.2.2.1 ≠ 3 ∧ boolCell p.2.1 q.2.1 ≠ 0
      then 1 else 0) = boolCell p.2.2.2.2 q.2.1 := by
  intro p hp q hq
  simp only [oneRows, threeRows, List.mem_cons, List.mem_singleton, List.not_mem_nil,
    or_false] at hp hq
  rcases hp with rfl | rfl | rfl | rfl | rfl | rfl <;>
    rcases hq with rfl | rfl | rfl | rfl <;> decide

theorem blinkerH_cell (n a c : Nat) (ha1 : 1 ≤ a) (ha2 : a ≤ n) (hc1 : 2 ≤ c)
    (hc2 : c + 1 ≤ n) (i j : Nat) :
    cellOf n (blinkerH a c) i j =
      boolCell (decide (i = a)) (decide (j + 1 = c ∨ j = c ∨ j = c + 1)) := by
  unfold cellOf mask blinkerH boolCell
  by_cases hin : 1 ≤ i ∧ i ≤ n ∧ 1 ≤ j ∧ j ≤ n
  · rw [if_pos hin]
    simp only [decide_eq_true_eq]
  · rw [if_neg hin, if_neg (by simp only [decide_eq_true_eq]; omega)]

theorem blinkerV_cell (n a c : Nat) (ha1 : 2 ≤ a) (ha2 : a + 1 ≤ n) (hc1 : 1 ≤ c)
    (hc2 : c ≤ n) (i j : Nat) :
    cellOf n (blinkerV a c) i j =
      boolCell (decide (i + 1 = a ∨ i = a ∨ i = a + 1)) (decide (j = c)) := by
  unfold cellOf mask blinkerV boolCell
  by_cases hin : 1 ≤ i ∧ i ≤ n ∧ 1 ≤ j ∧ j ≤ n
  · rw [if_pos hin]
    simp only [decide_eq_true_eq]
  · rw [if_neg hin, if_neg (by simp only [decide_eq_true_eq]; omega)]

theorem nsumF_pattern {G : Nat → Nat → Int} {A B : Nat → Bool}
    (h : ∀ x y, G x y = boolCell (A x) (B y)) (i j : Nat) :
    nsumF G i j = patternSum (A (i - 1)) (A i) (A (i + 1)) (B (j - 1)) (B j) (B (j + 1)) := by
  unfold nsumF patternSum
  simp only [h]

/-- One step from the horizontal blinker, cell by cell: the next value, the births and the
deaths. -/
theorem blinkerH_step (n a c : Nat) (ha1 : 2 ≤ a) (ha2 : a + 1 ≤ n) (hc1 : 2 ≤ c)
    (hc2 : c + 1 ≤ n) (i j : Nat) (hi : 1 ≤ i) (hj : 1 ≤ j) :
    nextF (cellOf n (blinkerH a c)) i j = cellOf n (blinkerV a c) i j ∧
    bornF (cellOf n (blinkerH a c)) i j =
      boolCell (decide (i + 1 = a ∨ i = a + 1)) (decide (j = c)) ∧
    diedF (cellOf n (blinkerH a c)) i j =
      boolCell (decide (i = a)) (decide (j + 1 = c ∨ j = c + 1)) := by
  have hcell := blinkerH_cell n a c (by omega) (by omega) hc1 hc2
  have hs := nsumF_pattern (A := fun x => decide (x = a))
    (B := fun y => decide (y + 1 = c ∨ y = c ∨ y = c + 1)) hcell i j
  have := blinker_rule_hv _ (oneRows_mem i a hi) _ (threeRows_mem j c hj)
  simp only at this hs
  unfold nextF bornF diedF
  rw [hs, hcell i j, blinkerV_cell n a c ha1 ha2 (by omega) (by omega)]
  exact this

/-- One step from the vertical blinker, cell by cell. -/
theorem blinkerV_step (n a c : Nat) (ha1 : 2 ≤ a) (ha2 : a + 1 ≤ n) (hc1 : 2 ≤ c)
    (hc2 : c + 1 ≤ n) (i j : Nat) (hi : 1 ≤ i) (hj : 1 ≤ j) :
    nextF (cellOf n (blinkerV a c)) i j = cellOf n (blinkerH a c) i j ∧
    bornF (cellOf n (blinkerV a c)) i j =
      boolCell (decide (i = a)) (decide (j + 1 = c ∨ j = c + 1)) ∧
    diedF (cellOf n (blinkerV a c)) i j =
      boolCell (decide (i + 1 = a ∨ i = a + 1)) (decide (j = c)) := by
  have hcell := blinkerV_cell n a c ha1 ha2 (by omega) (by omega)
  have hs := nsumF_pattern (A := fun x => decide (x + 1 = a ∨ x = a ∨ x = a + 1))
    (B := fun y => decide (y = c)) hcell i j
  have := blinker_rule_vh _ (threeRows_mem i a hi) _ (oneRows_mem j c hj)
  simp only at this hs
  unfold nextF bornF diedF
  rw [hs, hcell i j, blinkerH_cell n a c (by omega) (by omega) hc1 hc2]
  exact this

theorem blinkerH_life (n a c : Nat) (ha1 : 2 ≤ a) (ha2 : a + 1 ≤ n) (hc1 : 2 ≤ c)
    (hc2 : c + 1 ≤ n) : life n (cellOf n (blinkerH a c)) = cellOf n (blinkerV a c) := by
  funext i j
  unfold life
  by_cases hin : 1 ≤ i ∧ i ≤ n ∧ 1 ≤ j ∧ j ≤ n
  · rw [mask_inside _ hin]
    exact (blinkerH_step n a c ha1 ha2 hc1 hc2 i j hin.1 hin.2.2.1).1
  · rw [mask_masked n _ i j hin, cellOf_masked n _ i j hin]

theorem blinkerV_life (n a c : Nat) (ha1 : 2 ≤ a) (ha2 : a + 1 ≤ n) (hc1 : 2 ≤ c)
    (hc2 : c + 1 ≤ n) : life n (cellOf n (blinkerV a c)) = cellOf n (blinkerH a c) := by
  funext i j
  unfold life
  by_cases hin : 1 ≤ i ∧ i ≤ n ∧ 1 ≤ j ∧ j ≤ n
  · rw [mask_inside _ hin]
    exact (blinkerV_step n a c ha1 ha2 hc1 hc2 i j hin.1 hin.2.2.1).1
  · rw [mask_masked n _ i j hin, cellOf_masked n _ i j hin]

/-- The generations of the horizontal blinker alternate with period 2. -/
theorem blinker_iterate (n a c : Nat) (ha1 : 2 ≤ a) (ha2 : a + 1 ≤ n) (hc1 : 2 ≤ c)
    (hc2 : c + 1 ≤ n) (k : Nat) :
    (life n)^[k] (cellOf n (blinkerH a c)) =
      if k % 2 = 1 then cellOf n (blinkerV a c) else cellOf n (blinkerH a c) := by
  induction k with
  | zero => rfl
  | succ k ih =>
    rw [Function.iterate_succ_apply', ih]
    by_cases hk : k % 2 = 1
    · rw [if_pos hk, if_neg (by omega), blinkerV_life n a c ha1 ha2 hc1 hc2]
    · rw [if_neg hk, if_pos (by omega), blinkerH_life n a c ha1 ha2 hc1 hc2]

theorem sumTo_mul_left (c : Int) (f : Nat → Int) (n : Nat) :
    sumTo (fun y => c * f y) n = c * sumTo f n := by
  induction n with
  | zero => simp [sumTo]
  | succ n ih => rw [sumTo_succ, sumTo_succ, ih, mul_add]

theorem sumTo_mul_right (f : Nat → Int) (c : Int) (n : Nat) :
    sumTo (fun x => f x * c) n = sumTo f n * c := by
  induction n with
  | zero => simp [sumTo]
  | succ n ih => rw [sumTo_succ, sumTo_succ, ih, add_mul]

theorem boolCell_decide (p q : Prop) [Decidable p] [Decidable q] :
    boolCell (decide p) (decide q) = (if p then 1 else 0) * (if q then 1 else 0) := by
  by_cases hp : p <;> by_cases hq : q <;> simp [boolCell, hp, hq]

theorem boolCell_ite (p q : Prop) [Decidable p] [Decidable q] :
    boolCell (decide p) (decide q) = if p ∧ q then 1 else 0 := by
  by_cases hp : p <;> by_cases hq : q <;> simp [boolCell, hp, hq]

/-- The number of cells of a product pattern is the number of its rows times the number of
its columns. -/
theorem sumCells_boolCell (m n : Nat) (A B A' B' : Nat → Prop) [DecidablePred A]
    [DecidablePred B] [DecidablePred A'] [DecidablePred B']
    (hA : ∀ x, 1 ≤ x → x ≤ m → (A x ↔ A' x)) (hB : ∀ y, 1 ≤ y → y ≤ n → (B y ↔ B' y)) :
    sumCells m n (fun x y => boolCell (decide (A x)) (decide (B y))) =
      sumTo (fun x => if A' x then 1 else 0) m * sumTo (fun y => if B' y then 1 else 0) n := by
  unfold sumCells
  rw [← sumTo_mul_right]
  refine sumTo_congr (fun x hx1 hx2 => ?_)
  rw [← sumTo_mul_left]
  refine sumTo_congr (fun y hy1 hy2 => ?_)
  show boolCell (decide (A x)) (decide (B y)) = _
  rw [boolCell_decide, if_congr (hA x hx1 hx2) rfl rfl, if_congr (hB y hy1 hy2) rfl rfl]

theorem sumTo_one (a n : Nat) (ha1 : 1 ≤ a) (ha2 : a ≤ n) :
    sumTo (fun x => if x = a then (1 : Int) else 0) n = 1 := by
  rw [sumTo_point, if_pos ⟨ha1, ha2⟩]

theorem sumTo_edge (a n : Nat) (ha1 : 2 ≤ a) (ha2 : a + 1 ≤ n) :
    sumTo (fun x => if x + 1 = a ∨ x = a + 1 then (1 : Int) else 0) n = 2 := by
  have e : ∀ x, 1 ≤ x → x ≤ n → (if x + 1 = a ∨ x = a + 1 then (1 : Int) else 0) =
      (if x = a - 1 then 1 else 0) + (if x = a + 1 then 1 else 0) := by
    intro x _ _
    by_cases h1 : x = a - 1
    · rw [if_pos (by omega), if_pos h1, if_neg (by omega)]; rfl
    · by_cases h2 : x = a + 1
      · rw [if_pos (by omega), if_neg h1, if_pos h2]; rfl
      · rw [if_neg (by omega), if_neg h1, if_neg h2]; rfl
  rw [sumTo_congr e, sumTo_add, sumTo_point, sumTo_point, if_pos (by omega), if_pos (by omega)]
  rfl

theorem sumTo_three (a n : Nat) (ha1 : 2 ≤ a) (ha2 : a + 1 ≤ n) :
    sumTo (fun x => if x + 1 = a ∨ x = a ∨ x = a + 1 then (1 : Int) else 0) n = 3 := by
  have e : ∀ x, 1 ≤ x → x ≤ n → (if x + 1 = a ∨ x = a ∨ x = a + 1 then (1 : Int) else 0) =
      (if x = a then 1 else 0) + (if x + 1 = a ∨ x = a + 1 then 1 else 0) := by
    intro x _ _
    by_cases h1 : x = a
    · rw [if_pos (by omega), if_pos h1, if_neg (by omega)]; rfl
    · by_cases h2 : x + 1 = a ∨ x = a + 1
      · rw [if_pos (by omega), if_neg h1, if_pos h2]; rfl
      · rw [if_neg (by omega), if_neg h1, if_neg h2]; rfl
  rw [sumTo_congr e, sumTo_add, sumTo_one a n (by omega) (by omega), sumTo_edge a n ha1 ha2]
  rfl

/-- Global rows of the block of worker `q` against a local row of the block of worker
`r`. -/
theorem block_one {m q r x i : Nat} (hx1 : 1 ≤ x) (hx2 : x ≤ m) (hi1 : 1 ≤ i) (hi2 : i ≤ m) :
    q * m + x = r * m + i ↔ q = r ∧ x = i := by
  rcases Nat.lt_trichotomy q r with h | h | h
  · have := Nat.mul_le_mul_right m (Nat.succ_le_of_lt h)
    rw [Nat.succ_mul] at this
    constructor <;> intro hh <;> omega
  · subst h
    constructor <;> intro hh <;> omega
  · have := Nat.mul_le_mul_right m (Nat.succ_le_of_lt h)
    rw [Nat.succ_mul] at this
    constructor <;> intro hh <;> omega

theorem block_three {m q r x i : Nat} (hx1 : 1 ≤ x) (hx2 : x ≤ m) (hi1 : 2 ≤ i)
    (hi2 : i + 1 ≤ m) :
    (q * m + x + 1 = r * m + i ∨ q * m + x = r * m + i ∨ q * m + x = r * m + i + 1) ↔
      q = r ∧ (x + 1 = i ∨ x = i ∨ x = i + 1) := by
  rcases Nat.lt_trichotomy q r with h | h | h
  · have := Nat.mul_le_mul_right m (Nat.succ_le_of_lt h)
    rw [Nat.succ_mul] at this
    constructor <;> intro hh <;> omega
  · subst h
    constructor <;> intro hh <;> omega
  · have := Nat.mul_le_mul_right m (Nat.succ_le_of_lt h)
    rw [Nat.succ_mul] at this
    constructor <;> intro hh <;> omega

theorem block_edge {m q r x i : Nat} (hx1 : 1 ≤ x) (hx2 : x ≤ m) (hi1 : 2 ≤ i)
    (hi2 : i + 1 ≤ m) :
    (q * m + x + 1 = r * m + i ∨ q * m + x = r * m + i + 1) ↔
      q = r ∧ (x + 1 = i ∨ x = i + 1) := by
  rcases Nat.lt_trichotomy q r with h | h | h
  · have := Nat.mul_le_mul_right m (Nat.succ_le_of_lt h)
    rw [Nat.succ_mul] at this
    constructor <;> intro hh <;> omega
  · subst h
    constructor <;> intro hh <;> omega
  · have := Nat.mul_le_mul_right m (Nat.succ_le_of_lt h)
    rw [Nat.succ_mul] at this
    constructor <;> intro hh <;> omega

/-- Sizes of the four product patterns a blinker step involves, counted over `M` rows that
start after row `b` of the whole grid. -/
theorem shape_sums (b M n i j : Nat) (hi1 : 2 ≤ i) (hi2 : i + 1 ≤ M) (hj1 : 2 ≤ j)
    (hj2 : j + 1 ≤ n) :
    sumCells M n (fun x y => boolCell
      (decide (b + x + 1 = b + i ∨ b + x = b + i ∨ b + x = b + i + 1)) (decide (y = j))) = 3 ∧
    sumCells M n (fun x y => boolCell (decide (b + x = b + i))
      (decide (y + 1 = j ∨ y = j ∨ y = j + 1))) = 3 ∧
    sumCells M n (fun x y => boolCell
      (decide (b + x + 1 = b + i ∨ b + x = b + i + 1)) (decide (y = j))) = 2 ∧
    sumCells M n (fun x y => boolCell (decide (b + x = b + i))
      (decide (y + 1 = j ∨ y = j + 1))) = 2 := by
  refine ⟨?_, ?_, ?_, ?_⟩
  · rw [sumCells_boolCell M n _ _ (fun x => x + 1 = i ∨ x = i ∨ x = i + 1) (fun y => y = j)
      (fun x _ _ => by omega) (fun y _ _ => Iff.rfl), sumTo_three i M hi1 hi2,
      sumTo_one j n (by omega) (by omega)]
    rfl
  · rw [sumCells_boolCell M n _ _ (fun x => x = i) (fun y => y + 1 = j ∨ y = j ∨ y = j + 1)
      (fun x _ _ => by omega) (fun y _ _ => Iff.rfl), sumTo_three j n hj1 hj2,
      sumTo_one i M (by omega) (by omega)]
    rfl
  · rw [sumCells_boolCell M n _ _ (fun x => x + 1 = i ∨ x = i + 1) (fun y => y = j)
      (fun x _ _ => by omega) (fun y _ _ => Iff.rfl), sumTo_edge i M hi1 hi2,
      sumTo_one j n (by omega) (by omega)]
    rfl
  · rw [sumCells_boolCell M n _ _ (fun x => x = i) (fun y => y + 1 = j ∨ y = j + 1)
      (fun x _ _ => by omega) (fun y _ _ => Iff.rfl), sumTo_edge j n hj1 hj2,
      sumTo_one i M (by omega) (by omega)]
    rfl

/-- Live cells, births and deaths of the two phases of the blinker centred at `(b+i,j)`,
counted over the `M` rows after row `b`. -/
theorem blinker_sums (n b M i j : Nat) (hi1 : 2 ≤ i) (hi2 : i + 1 ≤ M) (ha2 : b + i + 1 ≤ n)
    (hj1 : 2 ≤ j) (hj2 : j + 1 ≤ n) :
    sumCells M n (fun x y => cellOf n (blinkerV (b + i) j) (b + x) y) = 3 ∧
    sumCells M n (fun x y => cellOf n (blinkerH (b + i) j) (b + x) y) = 3 ∧
    sumCells M n (fun x y => bornF (cellOf n (blinkerH (b + i) j)) (b + x) y) = 2 ∧
    sumCells M n (fun x y => diedF (cellOf n (blinkerH (b + i) j)) (b + x) y) = 2 ∧
    sumCells M n (fun x y => bornF (cellOf n (blinkerV (b + i) j)) (b + x) y) = 2 ∧
    sumCells M n (fun x y => diedF (cellOf n (blinkerV (b + i) j)) (b + x) y) = 2 := by
  have ha1 : 2 ≤ b + i := by omega
  obtain ⟨s1, s2, s3, s4⟩ := shape_sums b M n i j hi1 hi2 hj1 hj2
  refine ⟨?_, ?_, ?_, ?_, ?_, ?_⟩
  · rw [← s1]
    exact sumCells_congr (fun x y _ _ _ _ =>
      blinkerV_cell n (b + i) j ha1 ha2 (by omega) (by omega) (b + x) y)
  · rw [← s2]
    exact sumCells_congr (fun x y _ _ _ _ =>
      blinkerH_cell n (b + i) j (by omega) (by omega) hj1 hj2 (b + x) y)
  · rw [← s3]
    exact sumCells_congr (fun x y hx _ hy _ =>
      (blinkerH_step n (b + i) j ha1 ha2 hj1 hj2 (b + x) y (by omega) hy).2.1)
  · rw [← s4]
    exact sumCells_congr (fun x y hx _ hy _ =>
      (blinkerH_step n (b + i) j ha1 ha2 hj1 hj2 (b + x) y (by omega) hy).2.2)
  · rw [← s4]
    exact sumCells_congr (fun x y hx _ hy _ =>
      (blinkerV_step n (b + i) j ha1 ha2 hj1 hj2 (b + x) y (by omega) hy).2.1)
  · rw [← s3]
    exact sumCells_congr (fun x y hx _ hy _ =>
      (blinkerV_step n (b + i) j ha1 ha2 hj1 hj2 (b + x) y (by omega) hy).2.2)

/-- C12. Oscillator. Let `P` workers with `m` rows each share a grid of side `n = P*m`, let
`r < P`, `2 ≤ i ≤ m-1` and `2 ≤ j ≤ n-1` (so `m ≥ 3` and `n ≥ 3`), and let the initial grid
be dead except for the horizontal blinker `(i,j-1),(i,j),(i,j+1)` of worker `r`. Then every
number `k` of iterations returns, and the current interior of every worker is: for odd `k`
the vertical triple `(i-1,j),(i,j),(i+1,j)` in worker `r` and nothing else, for even `k`
the initial horizontal triple in worker `r` and nothing else. After every iteration
(`k ≥ 1`) the counters of worker `r` are living 3, died 2, born 2, and so are the totals
reduced at rank 0. -/
theorem blinker_oscillates (P n m : Nat) (hdiv : P * m = n) (r : Nat) (hr : r < P)
    (i j : Nat) (hi1 : 2 ≤ i) (hi2 : i + 1 ≤ m) (hj1 : 2 ≤ j) (hj2 : j + 1 ≤ n)
    (ws0 : List Worker) (h0 : InitialWorld P n m (blinkerH (r * m + i) j) ws0) (k : Nat) :
    ∃ ws, run k ws0 = some ws ∧ ws.length = P ∧
      (∀ (q : Nat) (w : Worker), ws[q]? = some w → ∀ x y, 1 ≤ x → x ≤ m → 1 ≤ y → y ≤ n →
        w.rd w.curr x y = some (if k % 2 = 1
          then (if q = r ∧ (x + 1 = i ∨ x = i ∨ x = i + 1) ∧ y = j then 1 else 0)
          else (if q = r ∧ x = i ∧ (y + 1 = j ∨ y = j ∨ y = j + 1) then 1 else 0))) ∧
      (1 ≤ k →
        (∃ w, ws[r]? = some w ∧ w.live_count = 3 ∧ w.death_count = 2 ∧ w.birth_count = 2) ∧
        ∃ w, ws[0]? = some w ∧ w.global_live = 3 ∧ w.global_death = 2 ∧
          w.global_birth = 2) := by
  have hm : 1 ≤ m := by omega
  have hb := block_le hr (Nat.le_refl m)
  have ha1 : 2 ≤ r * m + i := by omega
  have ha2 : r * m + i + 1 ≤ n := by omega
  have hit := blinker_iterate n (r * m + i) j ha1 ha2 hj1 hj2
  have inv0 := h0.inv hdiv
  have hG := cellOf_masked n (blinkerH (r * m + i) j)
  obtain ⟨ws, hrun, hinv⟩ := WorldInv.run hdiv hm k _ _ inv0 hG
  refine ⟨ws, hrun, hinv.1.1, ?_, ?_⟩
  · intro q w hw x y hx1 hx2 hy1 hy2
    rw [hinv.read_curr hw hx1 hx2 hy1 hy2, hit k]
    congr 1
    by_cases hk : k % 2 = 1
    · rw [if_pos hk, if_pos hk, blinkerV_cell n _ j ha1 ha2 (by omega) (by omega),
        boolCell_ite]
      exact if_congr (by rw [block_three hx1 hx2 hi1 hi2]; exact and_assoc) rfl rfl
    · rw [if_neg hk, if_neg hk, blinkerH_cell n _ j (by omega) (by omega) hj1 hj2,
        boolCell_ite]
      exact if_congr (by rw [block_one hx1 hx2 (by omega) (by omega)]; exact and_assoc)
        rfl rfl
  · intro hk1
    obtain ⟨k', rfl⟩ : ∃ k', k = k' + 1 := ⟨k - 1, by omega⟩
    obtain ⟨-, wsB, -, hrB, -, -, -, hcnt⟩ := inv0.run_step hG hdiv hm k'
    rw [hrun] at hrB
    obtain rfl := Option.some.inj hrB
    obtain ⟨wr, hwr⟩ := hinv.1.exists_at hr
    obtain ⟨w0, hw0⟩ := hinv.1.exists_at (show 0 < P by omega)
    obtain ⟨hgl, hgd, hgb⟩ := (hcnt 0 w0 hw0).2.2 rfl
    have hsl := hinv.sum_live hdiv
    have hsd := reduceSum_eq hinv.1.1 (f := Worker.death_count) (F := fun q => sumCells m n
      (fun x y => diedF ((life n)^[k'] (cellOf n (blinkerH (r * m + i) j))) (q * m + x) y))
      (fun q v hv => (hcnt q v hv).2.1)
    have hsb := reduceSum_eq hinv.1.1 (f := Worker.birth_count) (F := fun q => sumCells m n
      (fun x y => bornF ((life n)^[k'] (cellOf n (blinkerH (r * m + i) j))) (q * m + x) y))
      (fun q v hv => (hcnt q v hv).1)
    rw [sum_blocks, hdiv] at hsd hsb
    have hlr := (hinv.2 r wr hwr).2.2.2.2
    obtain ⟨hbr, hdr, -⟩ := hcnt r wr hwr
    rw [hit (k' + 1)] at hlr hsl
    rw [hit k'] at hbr hdr hsd hsb
    obtain ⟨l1, l2, l3, l4, l5, l6⟩ :=
      blinker_sums n (r * m) m i j hi1 hi2 ha2 hj1 hj2
    have g := blinker_sums n 0 n (r * m + i) j ha1 ha2 (by omega) hj1 hj2
    simp only [Nat.zero_add] at g
    obtain ⟨g1, g2, g3, g4, g5, g6⟩ := g
    by_cases hk : k' % 2 = 1
    · rw [if_neg (show ¬ (k' + 1) % 2 = 1 by omega)] at hlr hsl
      rw [if_pos hk] at hbr hdr hsd hsb
      refine ⟨⟨wr, hwr, ?_, ?_, ?_⟩, w0, hw0, ?_, ?_, ?_⟩
      · rw [hlr]; exact l2
      · rw [hdr]; exact l6
      · rw [hbr]; exact l5
      · rw [hgl, hsl]; exact g2
      · rw [hgd, hsd]; exact g6
      · rw [hgb, hsb]; exact g5
    · rw [if_pos (show (k' + 1) % 2 = 1 by omega)] at hlr hsl
      rw [if_neg hk] at hbr hdr hsd hsb
      refine ⟨⟨wr, hwr, ?_, ?_, ?_⟩, w0, hw0, ?_, ?_, ?_⟩
      · rw [hlr]; exact l1
      · rw [hdr]; exact l4
      · rw [hbr]; exact l3
      · rw [hgl, hsl]; exact g1
      · rw [hgd, hsd]; exact g4
      · rw [hgb, hsb]; exact g3

theorem blinker_oscillates_witness :
    1 * 5 = 5 ∧ 0 < 1 ∧ 2 ≤ 3 ∧ 3 + 1 ≤ 5 ∧
    InitialWorld 1 5 5 (blinkerH (0 * 5 + 3) 3) blinkerWorld5 ∧
    ∃ ws, run 10 blinkerWorld5 = some ws ∧ ws.length = 1 ∧
      (∀ (q : Nat) (w : Worker), ws[q]? = some w → ∀ x y, 1 ≤ x → x ≤ 5 → 1 ≤ y → y ≤ 5 →
        w.rd w.curr x y = some (if 10 % 2 = 1
          then (if q = 0 ∧ (x + 1 = 3 ∨ x = 3 ∨ x = 3 + 1) ∧ y = 3 then 1 else 0)
          else (if q = 0 ∧ x = 3 ∧ (y + 1 = 3 ∨ y = 3 ∨ y = 3 + 1) then 1 else 0))) ∧
      (1 ≤ 10 →
        (∃ w, ws[0]? = some w ∧ w.live_count = 3 ∧ w.death_count = 2 ∧ w.birth_count = 2) ∧
        ∃ w, ws[0]? = some w ∧ w.global_live = 3 ∧ w.global_death = 2 ∧
          w.global_birth = 2) :=
  ⟨by decide, by decide, by decide, by decide, by decide,
    blinker_oscillates 1 5 5 (by decide) 0 (by decide) 3 3 (by decide) (by decide)
      (by decide) (by decide) blinkerWorld5 (by decide) 10⟩

end MpiLife
